import Mathlib

/-!
# RADPLAY: a shallow embedding of `src/radplay.c`

The player was written for Turbo C 2.01 on a PC/XT: `int` and `short` are
16 bits wide, `uchar` is 8 bits, `ushort` and `uint` are 16 bits.  Unsigned
quantities are natural numbers reduced with an explicit `%`, signed
quantities are integers wrapped with `toShort` / `toSchar`.  Signed division
and remainder truncate toward zero (`Int.tdiv`, `Int.tmod`), as the 8086
`IDIV` instruction does.

Global arrays are total functions on `Nat`; the OPL2 chip is write-only, so
the chip side of the model is the log of `(register, value)` pairs handed to
`al_write`, oldest first.  The busy-wait delays of `al_write` have no effect
on the state and are not part of the model.

Loops that are not bounded by a constant take a fuel argument, the largest
number of times the loop condition (or the body of the `do`/`while`) may be
evaluated; `none` means the fuel ran out.
-/

set_option maxRecDepth 100000

namespace RadPlay

/-! ## Machine integers -/

/-- Conversion of an integer to `uchar`. -/
def toUchar (n : Int) : Nat := (n % 256).toNat

/-- Conversion of an integer to `ushort` (also `unsigned int`). -/
def toUshort (n : Int) : Nat := (n % 65536).toNat

/-- Conversion of an integer to `short` (also `int`), two's complement. -/
def toShort (n : Int) : Int := (n + 32768) % 65536 - 32768

/-- Conversion of an integer to `schar`, two's complement. -/
def toSchar (n : Int) : Int := (n + 128) % 256 - 128

/-- Array store `a[i] = v` on an array modelled as a function. -/
def upd {α : Type} (a : Nat → α) (i : Nat) (v : α) : Nat → α :=
  fun j => if j = i then v else a j

/-! ## Constants and tables -/

/-- Number of OPL2 melodic channels (`CHANS`). -/
def CHANS : Nat := 9

/-- F-number of the C below the first table entry (`NOTE_C`). -/
def NOTE_C : Nat := 0x156

/-- Range of one octave in F-number units (`OCTAVE`). -/
def OCTAVE : Nat := 0x2ae - NOTE_C

def CMD_PORTUP : Nat := 1
def CMD_PORTDN : Nat := 2
def CMD_TONESLIDE : Nat := 3
def CMD_TONEVOLSLIDE : Nat := 5
def CMD_VOLSLIDE : Nat := 10
def CMD_SETVOL : Nat := 12
def CMD_JMPLINE : Nat := 13
def CMD_SETSPEED : Nat := 15

/-- Operator register offset of each channel (`al_choff`). -/
def al_choff_tab : List Nat := [0x00, 0x01, 0x02, 0x08, 0x09, 0x0A, 0x10, 0x11, 0x12]

/-- Read of `al_choff[chan]`; the table has 9 entries, a read past it is
modelled as 0. -/
def al_choff (chan : Nat) : Nat := al_choff_tab.getD chan 0

/-- The note to F-number table (`notefreq`), 12 entries. -/
def notefreq_tab : List Nat :=
  [0x16b, 0x181, 0x198, 0x1b0, 0x1ca, 0x1e5, 0x202, 0x220, 0x241, 0x263, 0x287, 0x2ae]

/-- Read of `notefreq[i]`; a read past the 12 entries is modelled as 0. -/
def notefreq (i : Nat) : Nat := notefreq_tab.getD i 0

/-- The macro `linearfreq(oct, note)`: `((oct)*OCTAVE)+notefreq[(note)]-NOTE_C`,
computed in `unsigned int` because `notefreq` holds `ushort`s.  The table is
indexed with `note` itself. -/
def linearfreq (oct note : Nat) : Nat :=
  toUshort ((oct * OCTAVE : Nat) + (notefreq note : Int) - NOTE_C)

/-- The macro `linearfreq2(oct, freq)`: `((oct)*OCTAVE)+(freq)-NOTE_C`, computed
in `unsigned int` because `freq` is a `ushort`. -/
def linearfreq2 (oct freq : Nat) : Nat :=
  toUshort ((oct * OCTAVE : Nat) + (freq : Int) - NOTE_C)

/-! ## Program state -/

/-- One instrument record (`struct INST`), fields named after the OPL2 base
registers they are written to. -/
structure INST where
  r23 : Nat
  r20 : Nat
  r43 : Nat
  r40 : Nat
  r63 : Nat
  r60 : Nat
  r83 : Nat
  r80 : Nat
  rC0 : Nat
  rE3 : Nat
  rE0 : Nat

/-- Per-channel effect fields (`struct EFFECTS`). -/
structure EFFECTS where
  portslide : Int
  toneslide : Nat
  volslide : Int

/-- The globals of `radplay.c` together with the log of OPL2 register writes. -/
structure State where
  speed : Nat
  slow : Nat
  spdcnt : Nat
  running : Nat
  insts : Nat → INST
  patoff : Nat → Nat
  order : Nat → Nat
  orderlen : Nat
  curorder : Nat
  curpat : Nat
  curline : Nat
  data : Nat → Nat
  datalen : Nat
  dataoff : Nat
  patpos : Nat
  prev_vol : Nat → Nat
  prev_freqlow : Nat → Nat
  prev_freqhigh : Nat → Nat
  toneslide_speed : Nat → Nat
  toneslide_freq : Nat → Nat
  effects : Nat → EFFECTS
  writes : List (Nat × Nat)

/-! ## Synthesis driver -/

/-- Write `val` to OPL2 register `port`; both parameters are `uchar`. -/
def al_write (s : State) (port val : Nat) : State :=
  { s with writes := s.writes ++ [(port % 256, val % 256)] }

/-- Reset the chip: `for (i = 0; i < 256; i++) al_write(i, 0);`. -/
def al_clr (s : State) : State :=
  (List.range 256).foldl (fun st i => al_write st i 0) s

/-- Trigger a note (1..12) or key-off (13..15) on a channel. -/
def set_note (s : State) (chan oct note : Nat) : State :=
  if note = 0 then s
  else if note < 13 then
    let freq := 0x2000 ||| (((oct <<< 10) % 65536 + notefreq (note - 1)) % 65536)
    let s1 := { s with prev_freqlow := upd s.prev_freqlow chan (freq % 256) }
    let s2 := { s1 with prev_freqhigh := upd s1.prev_freqhigh chan ((freq >>> 8) % 256) }
    let s3 := al_write s2 (0xA0 + chan) (freq % 256)
    al_write s3 (0xB0 + chan) ((freq >>> 8) % 256)
  else
    let high := (s.prev_freqhigh chan &&& 0xFFDF) % 256
    let s1 := { s with prev_freqhigh := upd s.prev_freqhigh chan high }
    al_write s1 (0xB0 + chan) (s1.prev_freqhigh chan)

/-- Set the frequency of a channel from a linear frequency (a `short`). -/
def set_linear_freq (s : State) (chan : Nat) (lfreq : Int) : State :=
  let oct := toUchar (Int.tdiv lfreq OCTAVE)
  let nfreq := toUshort (Int.tmod lfreq OCTAVE + NOTE_C)
  let freq0 := ((s.prev_freqhigh chan &&& 0xFFE0) <<< 8) % 65536
  let freq1 := freq0 ||| nfreq
  let freq := freq1 ||| ((oct <<< 10) % 65536)
  let s1 := { s with prev_freqlow := upd s.prev_freqlow chan (freq % 256) }
  let s2 := { s1 with prev_freqhigh := upd s1.prev_freqhigh chan ((freq >>> 8) % 256) }
  let s3 := al_write s2 (0xA0 + chan) (freq % 256)
  al_write s3 (0xB0 + chan) ((freq >>> 8) % 256)

/-- Frequency of a channel as a linear frequency, returned as a `short`. -/
def get_linear_freq (s : State) (chan : Nat) : Int :=
  let freq := (s.prev_freqlow chan ||| ((s.prev_freqhigh chan <<< 8) % 65536)) % 65536
  let oct := ((freq >>> 10) &&& 0x7) % 256
  let nfreq := freq &&& 0x3FF
  toShort (linearfreq2 oct nfreq)

/-- Set the volume of a channel; `vol` is a `uchar`. -/
def set_volume (s : State) (chan vol : Nat) : State :=
  let choff := al_choff chan
  let vol1 := if vol ≥ 64 then 63 else vol
  let new43 := (s.prev_vol chan &&& 0xFFC0) % 256
  let new43 := (new43 ||| (vol1 ^^^ 0x3F)) % 256
  let s1 := { s with prev_vol := upd s.prev_vol chan new43 }
  al_write s1 (0x43 + choff) new43

/-- Volume of a channel, 0 (silent) to 63. -/
def get_volume (s : State) (chan : Nat) : Nat :=
  let vol := s.prev_vol chan &&& 0x3F
  (vol ^^^ 0x3F) % 256

/-- Load instrument `i` into OPL2 channel `chan`. -/
def load_inst (s : State) (i chan : Nat) : State :=
  let choff := al_choff chan
  let s := al_write s (0x23 + choff) (s.insts i).r23
  let s := al_write s (0x20 + choff) (s.insts i).r20
  let s := al_write s (0x43 + choff) (s.insts i).r43
  let s := { s with prev_vol := upd s.prev_vol chan (s.insts i).r43 }
  let s := al_write s (0x40 + choff) (s.insts i).r40
  let s := al_write s (0x63 + choff) (s.insts i).r63
  let s := al_write s (0x60 + choff) (s.insts i).r60
  let s := al_write s (0x83 + choff) (s.insts i).r83
  let s := al_write s (0x80 + choff) (s.insts i).r80
  let s := al_write s (0xE3 + choff) (s.insts i).rE3
  let s := al_write s (0xE0 + choff) (s.insts i).rE0
  al_write s (0xC0 + chan) (s.insts i).rC0

/-! ## Event and command dispatch -/

/-- Store to the effect fields of one channel, `effects[chan] = e`. -/
def set_effects (s : State) (chan : Nat) (e : EFFECTS) : State :=
  { s with effects := upd s.effects chan e }

/-- The `switch (cmd)` of `do_note`, with the value `do_note` returns. -/
def do_cmd (s : State) (chan cmd param : Nat) : State × Nat :=
  if cmd = CMD_PORTUP then
    (set_effects s chan { (s.effects chan) with portslide := toSchar param }, 0)
  else if cmd = CMD_PORTDN then
    (set_effects s chan { (s.effects chan) with portslide := toSchar (-(toSchar param)) }, 0)
  else if cmd = CMD_TONESLIDE then
    let s1 := set_effects s chan { (s.effects chan) with toneslide := 1 }
    (if param ≠ 0 then { s1 with toneslide_speed := upd s1.toneslide_speed chan param } else s1, 0)
  else if cmd = CMD_TONEVOLSLIDE ∨ cmd = CMD_VOLSLIDE then
    let s1 := if cmd = CMD_TONEVOLSLIDE then
        set_effects s chan { (s.effects chan) with toneslide := 1 }
      else s
    let d : Int := if param < 50 then -(param : Int) else (param : Int) - 50
    (set_effects s1 chan { (s1.effects chan) with volslide := toSchar d }, 0)
  else if cmd = CMD_SETVOL then
    (set_volume s chan param, 0)
  else if cmd = CMD_JMPLINE then
    (s, 1 + param)
  else if cmd = CMD_SETSPEED then
    ({ s with speed := param }, 0)
  else (s, 0)

/-- Process one channel event.  The second component is the returned `int`:
0, or 1 + the line to jump to in the next pattern. -/
def do_note (s : State) (chan oct note cmd param inst : Nat) : State × Nat :=
  if note ≠ 0 then
    if cmd = CMD_TONESLIDE then
      let s1 := { s with toneslide_freq := upd s.toneslide_freq chan (linearfreq oct note) }
      let s2 := if param ≠ 0 then
          { s1 with toneslide_speed := upd s1.toneslide_speed chan param }
        else s1
      (set_effects s2 chan { (s2.effects chan) with toneslide := 1 }, 0)
    else
      let s1 := set_note s chan oct 15
      let s2 := if inst ≠ 0 then load_inst s1 (toUchar ((inst : Int) - 1)) chan else s1
      do_cmd (set_note s2 chan oct note) chan cmd param
  else do_cmd s chan cmd param

/-! ## Effects engine -/

/-- The portamento step of `doeffects`: `if (effects[chan].portslide) { ... }`. -/
def effect_portslide (s : State) (chan : Nat) : State :=
  if (s.effects chan).portslide ≠ 0 then
    let lfreq := get_linear_freq s chan
    let lfreq := toShort (lfreq + toShort (s.effects chan).portslide)
    set_linear_freq s chan lfreq
  else s

/-- The tone-slide step of `doeffects`: `if (effects[chan].toneslide) { ... }`.
`lfreq` is a `short` and `toneslide_freq[chan]` a `ushort`, so the four
comparisons are made in `unsigned int`. -/
def effect_toneslide (s : State) (chan : Nat) : State :=
  if (s.effects chan).toneslide ≠ 0 then
    let lfreq := get_linear_freq s chan
    let target := s.toneslide_freq chan
    let disarm : State := set_effects s chan { (s.effects chan) with toneslide := 0 }
    if toUshort lfreq < target then
      let lfreq := toShort (lfreq + s.toneslide_speed chan)
      if toUshort lfreq ≥ target then
        set_linear_freq disarm chan (toShort target)
      else set_linear_freq s chan lfreq
    else if toUshort lfreq > target then
      let lfreq := toShort (lfreq - s.toneslide_speed chan)
      if toUshort lfreq ≤ target then
        set_linear_freq disarm chan (toShort target)
      else set_linear_freq s chan lfreq
    else set_linear_freq disarm chan lfreq
  else s

/-- The volume-slide step of `doeffects`: `if (effects[chan].volslide) { ... }`. -/
def effect_volslide (s : State) (chan : Nat) : State :=
  if (s.effects chan).volslide ≠ 0 then
    let vol : Int := get_volume s chan
    let vol := toShort (vol + (s.effects chan).volslide)
    let vol := if vol < 0 then 0 else vol
    set_volume s chan (toUchar vol)
  else s

/-- Body of the `for` loop of `doeffects` for one channel. -/
def doeffects_chan (s : State) (chan : Nat) : State :=
  effect_volslide (effect_toneslide (effect_portslide s chan) chan) chan

/-- Update the effects of all channels, `chan = 0 .. CHANS-1`. -/
def doeffects (s : State) : State :=
  (List.range CHANS).foldl doeffects_chan s

/-! ## Sequencer -/

/-- The loop `while (curpat & 0x80) { curorder = curpat - 0x80; curpat = order[curorder]; }`. -/
def order_jumps : Nat → State → Option State
  | 0, _ => none
  | fuel + 1, s =>
    if s.curpat &&& 0x80 ≠ 0 then
      let co := toUchar ((s.curpat : Int) - 0x80)
      order_jumps fuel { s with curorder := co, curpat := s.order co }
    else some s

/-- Advance to the next order: `curpat = order[++curorder];`, the jump loop,
then `patpos = patoff[curpat];`. -/
def next_pattern (fuel : Nat) (s : State) : Option State :=
  let co := (s.curorder + 1) % 256
  (order_jumps fuel { s with curorder := co, curpat := s.order co }).map
    (fun s1 => { s1 with patpos := s1.patoff s1.curpat })

/-- The body of the event-skipping loop of the line-jump scan, entered with
the cursor just past a channel byte: `patpos++; if (data[patpos++] & 0xF) patpos++;`. -/
def skip_body (data : Nat → Nat) (p1 : Nat) : Nat :=
  let p2 := (p1 + 1) % 65536
  let n1 := data p2
  let p3 := (p2 + 1) % 65536
  if n1 &&& 0xF ≠ 0 then (p3 + 1) % 65536 else p3

/-- The loop that skips the events of a line during the line-jump scan:
`while (!(data[patpos++] & 0x80)) { patpos++; if (data[patpos++] & 0xF) patpos++; }`,
as a function of the cursor. -/
def skip_events (data : Nat → Nat) : Nat → Nat → Option Nat
  | 0, _ => none
  | fuel + 1, patpos =>
    if data patpos &&& 0x80 = 0 then
      skip_events data fuel (skip_body data ((patpos + 1) % 65536))
    else some ((patpos + 1) % 65536)

/-- The line-jump scan `while ((data[patpos] & 0x7F) < nextline) { ... }`, as a
function of the cursor; `sfuel` bounds each run of the inner loop. -/
def scan_lines (data : Nat → Nat) (nextline sfuel : Nat) : Nat → Nat → Option Nat
  | 0, _ => none
  | fuel + 1, patpos =>
    if data patpos &&& 0x7F < nextline then
      let p0 := if toShort ((data patpos : Int) * 0x80) ≠ 0 then 0xFFFF else patpos
      let p1 := (p0 + 1) % 65536
      (skip_events data sfuel p1).bind (fun p2 => scan_lines data nextline sfuel fuel p2)
    else some patpos

/-- The branch of `play` taken when `do_note` returned `nextline > 0`, up to
the `goto skip`. -/
def line_jump (fuel : Nat) (s : State) (nextline : Nat) : Option State :=
  (next_pattern fuel s).bind (fun s1 =>
    (scan_lines s1.data nextline fuel fuel s1.patpos).map
      (fun p => { s1 with patpos := p, curline := nextline % 256 }))

/-- One decoded channel event: the raw channel byte, the fields extracted from
the two note bytes, the parameter, and the cursor after the event. -/
structure EVENT where
  chan : Nat
  oct : Nat
  note : Nat
  inst : Nat
  cmd : Nat
  param : Nat
  next : Nat

/-- Read the channel event at the cursor: the channel byte, `note[0]`,
`note[1]` and, when the low nibble of `note[1]` is nonzero, the parameter. -/
def read_event (data : Nat → Nat) (patpos : Nat) : EVENT :=
  let chan := data patpos
  let p1 := (patpos + 1) % 65536
  let note0 := data p1
  let p2 := (p1 + 1) % 65536
  let note1 := data p2
  let p3 := (p2 + 1) % 65536
  let param := if note1 &&& 0xF ≠ 0 then data p3 else 0
  let p4 := if note1 &&& 0xF ≠ 0 then (p3 + 1) % 65536 else p3
  { chan := chan,
    oct := (note0 >>> 4) &&& 0x7,
    note := note0 &&& 0xF,
    inst := ((note1 >>> 4) ||| ((note0 &&& 0x80) >>> 3)) % 256,
    cmd := note1 &&& 0xF,
    param := param,
    next := p4 }

/-- The `do { ... } while (!(chan & 0x80));` loop over the events of a line.
The flag of the result is `true` when the loop was left by `goto skip`. -/
def line_events (jfuel : Nat) : Nat → State → Option (State × Bool)
  | 0, _ => none
  | fuel + 1, s =>
    let ev := read_event s.data s.patpos
    let r := do_note { s with patpos := ev.next } (ev.chan &&& 0x7F) ev.oct ev.note ev.cmd
      ev.param ev.inst
    if r.2 > 0 then (line_jump jfuel r.1 r.2).map (fun s1 => (s1, true))
    else if ev.chan &&& 0x80 = 0 then line_events jfuel fuel r.1
    else some (r.1, false)

/-- The `for` loop of `play` that disarms the effects of every channel. -/
def reset_effects (s : State) : State :=
  (List.range CHANS).foldl
    (fun st chan => set_effects st chan ⟨0, 0, 0⟩) s

/-- The end-of-pattern check of `play`:
`if ((line & 0x80) || (curline >= 0x80)) { ...; curline = 0; }`. -/
def pattern_end (fuel line : Nat) (s : State) : Option State :=
  if line &&& 0x80 ≠ 0 ∨ s.curline ≥ 0x80 then
    (next_pattern fuel s).map (fun s2 => { s2 with curline := 0 })
  else some s

/-- The statement at the label `skip`: `spdcnt = speed-1;`. -/
def reload_spdcnt (s : State) : State :=
  { s with spdcnt := toUchar ((s.speed : Int) - 1) }

/-- The body of `if (spdcnt-- == 0) { ... }`: read and play a new line. -/
def play_line (fuel : Nat) (s : State) : Option State :=
  let s := reset_effects s
  let line := s.data s.patpos
  let matched : Bool := s.curline = line &&& 0x7F
  let s := { s with curline := (s.curline + 1) % 256 }
  let r : Option (State × Bool) :=
    if matched then line_events fuel fuel { s with patpos := (s.patpos + 1) % 65536 }
    else some (s, false)
  r.bind (fun r =>
    if r.2 then some (reload_spdcnt r.1)
    else (pattern_end fuel line r.1).map reload_spdcnt)

/-- One invocation of the timer interrupt handler `play`. -/
def play (fuel : Nat) (s : State) : Option State :=
  if s.patpos = 0xFFFF then
    some { al_clr s with running := 0 }
  else
    let expired : Bool := s.spdcnt = 0
    let s := { s with spdcnt := toUchar ((s.spdcnt : Int) - 1) }
    if expired then (play_line fuel s).map doeffects
    else some (doeffects s)

/-- Successive invocations of the timer interrupt handler, `n` of them. -/
def play_n (fuel : Nat) : Nat → State → Option State
  | 0, s => some s
  | n + 1, s => (play fuel s).bind (play_n fuel n)

/-- The state of the zero-initialised globals at program start, before any
register write. -/
def init : State :=
  { speed := 0, slow := 0, spdcnt := 0, running := 0,
    insts := fun _ => ⟨0, 0, 0, 0, 0, 0, 0, 0, 0, 0, 0⟩,
    patoff := fun _ => 0, order := fun _ => 0, orderlen := 0,
    curorder := 0, curpat := 0, curline := 0,
    data := fun _ => 0, datalen := 0, dataoff := 0, patpos := 0,
    prev_vol := fun _ => 0, prev_freqlow := fun _ => 0, prev_freqhigh := fun _ => 0,
    toneslide_speed := fun _ => 0, toneslide_freq := fun _ => 0,
    effects := fun _ => ⟨0, 0, 0⟩, writes := [] }

/-- The register writes of `al_clr`: 0 to every register 0..255, ascending. -/
def clr_writes : List (Nat × Nat) := (List.range 256).map (fun i => (i, 0))

/-- "Begin playback" in `main`: `curorder = 0; curpat = order[curorder];
patpos = patoff[curpat]; running = 1;`. -/
def begin_playback (s : State) : State :=
  let s := { s with curorder := 0 }
  let s := { s with curpat := s.order s.curorder }
  let s := { s with patpos := s.patoff s.curpat }
  { s with running := 1 }

/-- The 16-bit frequency word held in the shadow of a channel: high byte
`prev_freqhigh[chan]`, low byte `prev_freqlow[chan]`. -/
def freq_word (s : State) (chan : Nat) : Nat :=
  256 * s.prev_freqhigh chan + s.prev_freqlow chan

/-- The playback cursor together with the `running` flag:
`[curorder, curpat, patpos, curline, spdcnt, running]`. -/
def cursor (s : State) : List Nat :=
  [s.curorder, s.curpat, s.patpos, s.curline, s.spdcnt, s.running]

/-- The register writes logged once `do_note` has triggered a note on channel 0
with instrument 1: key-off, `load_inst(0, 0)`, then `set_note(0, oct, note)`. -/
def trigger_writes (s : State) (oct note : Nat) : List (Nat × Nat) :=
  (set_note (load_inst (set_note s 0 oct 15) 0 0) 0 oct note).writes

/-- The state of one channel (`chan` indexes every per-channel array): shadow
frequency bytes, shadow volume byte, effect fields, tone-slide step and target. -/
def chan_state (s : State) (chan : Nat) : Nat × Nat × Nat × EFFECTS × Nat × Nat :=
  (s.prev_freqlow chan, s.prev_freqhigh chan, s.prev_vol chan, s.effects chan,
    s.toneslide_speed chan, s.toneslide_freq chan)

/-- The bytes of an instrument record in memory order (the order of the fields
of `struct INST`, which is the order of the 11 bytes in the file). -/
def INST.bytes (i : INST) : List Nat :=
  [i.r23, i.r20, i.r43, i.r40, i.r63, i.r60, i.r83, i.r80, i.rC0, i.rE3, i.rE0]

/-- The 11 register writes that carry an instrument record to a channel:
register numbers paired with the record bytes of the given indices. -/
def inst_writes (i : INST) (chan : Nat) : List (Nat × Nat) :=
  List.zip
    ([0x23, 0x20, 0x43, 0x40, 0x63, 0x60, 0x83, 0x80, 0xE3, 0xE0].map (fun r => r + al_choff chan)
      ++ [0xC0 + chan])
    ([0, 1, 2, 3, 4, 5, 6, 7, 9, 10, 8].map (fun k => i.bytes.getD k 0))

/-! ## Loader

The file is the list of its bytes.  An open stream is the list of the bytes
not yet read together with the number of bytes already read, the value `ftell`
returns.  Output to the screen is not part of the model, I/O errors on an open
file do not occur, and the outcome of `malloc` is a parameter. -/

/-- Length of the RAD header (`HEADLEN`). -/
def HEADLEN : Nat := 18

/-- Length of an instrument definition (`INSTLEN`). -/
def INSTLEN : Nat := 11

/-- An open input stream (`FILE *`). -/
structure FILE where
  rest : List Nat
  pos : Nat

/-- The stream `fopen` returns: nothing read yet. -/
def fopen (bytes : List Nat) : FILE := ⟨bytes, 0⟩

/-- `fread(ptr, 1, n, fp)`: the bytes read, at most `n`, and the stream after. -/
def fread (fp : FILE) (n : Nat) : List Nat × FILE :=
  (fp.rest.take n, ⟨fp.rest.drop n, fp.pos + (fp.rest.take n).length⟩)

/-- The loop of `print_desc` on the unread bytes: read up to and including
the first zero byte, or to the end of the file. -/
def print_desc_loop : List Nat → Nat → FILE
  | [], pos => ⟨[], pos⟩
  | ch :: rest, pos => if ch = 0 then ⟨rest, pos + 1⟩ else print_desc_loop rest (pos + 1)

/-- Read (and print) the description. -/
def print_desc (fp : FILE) : FILE := print_desc_loop fp.rest fp.pos

/-- The loop of `read_insts` on the unread bytes: an index byte `ch`, then the
11 bytes of `insts[ch-1]`, until the index byte is 0 or the file ends; fewer
than 11 bytes after a nonzero index byte is the error -1. -/
def read_insts_loop : List Nat → Nat → (Nat → INST) → Except Int ((Nat → INST) × FILE)
  | [], pos, insts => .ok (insts, ⟨[], pos⟩)
  | ch :: b0 :: b1 :: b2 :: b3 :: b4 :: b5 :: b6 :: b7 :: b8 :: b9 :: b10 :: rest, pos, insts =>
    if ch = 0 then
      .ok (insts, ⟨b0 :: b1 :: b2 :: b3 :: b4 :: b5 :: b6 :: b7 :: b8 :: b9 :: b10 :: rest, pos + 1⟩)
    else
      read_insts_loop rest (pos + 1 + INSTLEN)
        (upd insts (ch - 1) ⟨b0, b1, b2, b3, b4, b5, b6, b7, b8, b9, b10⟩)
  | ch :: short, pos, insts =>
    if ch = 0 then .ok (insts, ⟨short, pos + 1⟩) else .error (-1)

/-- Load the instrument table. -/
def read_insts (fp : FILE) (s : State) : Except Int (State × FILE) :=
  match read_insts_loop fp.rest fp.pos s.insts with
  | .error e => .error e
  | .ok r => .ok ({ s with insts := r.1 }, r.2)

/-- Load the order list: a count byte, then that many order bytes. -/
def read_orders (fp : FILE) (s : State) : Except Int (State × FILE) :=
  match fp.rest with
  | [] => .error (-1)
  | ch :: rest =>
    let orderlen := ch % 256
    let r := fread ⟨rest, fp.pos + 1⟩ orderlen
    if orderlen ≠ r.1.length then .error (-1)
    else
      .ok ({ s with orderlen := orderlen,
                    order := fun i => if i < orderlen then r.1.getD i 0 else s.order i }, r.2)

/-- Load the pattern offset table: `fread(patoff, 2, 32, fp)`, 32 little-endian
16-bit entries. -/
def read_patoff (fp : FILE) (s : State) : Except Int (State × FILE) :=
  let r := fread fp 64
  if r.1.length / 2 ≠ 32 then .error (-1)
  else
    .ok ({ s with patoff := fun i =>
            if i < 32 then r.1.getD (2 * i) 0 + 256 * r.1.getD (2 * i + 1) 0 else s.patoff i },
         r.2)

/-- Read the data section, the rest of the file; `malloc n` tells whether a
block of `n` bytes can be allocated.  A read of `data` past the bytes read is
modelled as 0. -/
def read_data (malloc : Nat → Bool) (fp : FILE) (s : State) : Except Int (State × FILE) :=
  let old := fp.pos
  let len := fp.rest.length
  if len > 65535 then .error (-2)
  else
    let s1 := { s with dataoff := old % 65536 }
    if malloc len = false then .error (-3)
    else
      let r := fread fp len
      .ok ({ s1 with data := fun i => r.1.getD i 0, datalen := r.1.length }, r.2)

/-- The loop "Fixup patoff to be 0 based":
`for (i = 0; i < 32; i++) if (patoff[i]) patoff[i] -= dataoff;`. -/
def fixup_patoff (s : State) : State :=
  (List.range 32).foldl
    (fun st i =>
      if st.patoff i ≠ 0 then
        { st with patoff := upd st.patoff i (toUshort ((st.patoff i : Int) - st.dataoff)) }
      else st) s

/-- The part of `main` between the header check and the patoff fixup: the
description when bit 7 of the flags byte is set, then instruments, orders,
pattern offsets and data; a failure of any of the four makes `main` return -2. -/
def load_tables (malloc : Nat → Bool) (flags : Nat) (fp : FILE) (s : State) :
    Except Int (State × FILE) :=
  let fp0 := if flags &&& 0x80 ≠ 0 then print_desc fp else fp
  match read_insts fp0 s with
  | .error _ => .error (-2)
  | .ok r1 =>
    match read_orders r1.2 r1.1 with
    | .error _ => .error (-2)
    | .ok r2 =>
      match read_patoff r2.2 r2.1 with
      | .error _ => .error (-2)
      | .ok r3 =>
        match read_data malloc r3.2 r3.1 with
        | .error _ => .error (-2)
        | .ok r4 => .ok r4

/-- The part of `main` after the header check, up to `running = 1`. -/
def load_body (malloc : Nat → Bool) (flags : Nat) (fp : FILE) (s : State) : Except Int State :=
  match load_tables malloc flags fp s with
  | .error e => .error e
  | .ok r => .ok (begin_playback (fixup_patoff r.1))

/-- The part of `main` from `fopen` to `running = 1`, on the bytes of the
file named on the command line: the value `main` returns early, or the state
in which the timer interrupt is installed. -/
def load_file (malloc : Nat → Bool) (file : List Nat) (s0 : State) : Except Int State :=
  let r := fread (fopen file) HEADLEN
  let buf := r.1
  if HEADLEN ≠ buf.length then .error 2
  else if buf.getD 0 0 ≠ 0x52 ∨ buf.getD 1 0 ≠ 0x41 ∨ buf.getD 2 0 ≠ 0x44 then .error 2
  else if buf.getD 0x10 0 ≠ 0x10 then .error 2
  else
    let s1 := { s0 with speed := buf.getD 0x11 0 &&& 0x1F }
    let s2 := { s1 with slow := if buf.getD 0x11 0 &&& 0x40 ≠ 0 then 1 else 0 }
    load_body malloc (buf.getD 0x11 0) r.2 s2

/-- The function `main` from `al_clr()` to `running = 1`. -/
def main_load (malloc : Nat → Bool) (file : List Nat) (s : State) : Except Int State :=
  load_file malloc file (al_clr s)

/-- The header test of `main` fails: fewer than 18 bytes, or bytes 0..2 are not
`R`, `A`, `D`, or the version byte at offset 0x10 is not 0x10. -/
def bad_header (file : List Nat) : Prop :=
  file.length < 18 ∨ file.getD 0 0 ≠ 0x52 ∨ file.getD 1 0 ≠ 0x41 ∨ file.getD 2 0 ≠ 0x44
    ∨ file.getD 0x10 0 ≠ 0x10

/-- Entry `i` of the pattern offset table of a file whose table starts at
byte offset `start`, as stored: little-endian 16 bits. -/
def file_patoff (file : List Nat) (start i : Nat) : Nat :=
  file.getD (start + 2 * i) 0 + 256 * file.getD (start + 2 * i + 1) 0

/-! ## Example inputs -/

/-- A global array holding the listed bytes, 0 elsewhere (globals are
zero-initialised). -/
def tab (l : List Nat) : Nat → Nat := fun i => l.getD i 0

/-- Channel 3 with shadow volume byte `0xC5` (volume 58, bits 6-7 set) and a
volume slide of -100 armed. -/
def volslide_state : State :=
  { init with
    prev_vol := fun _ => 0xC5,
    effects := fun c => if c = 3 then ⟨0, 0, -100⟩ else ⟨0, 0, 0⟩ }

/-- Channel 0 after the event "octave 0, note 3" followed by the event
"octave 0, note 1, slide-to-note with parameter 100": the channel sounds at
linear frequency 66 and a tone slide with step 100 is armed. -/
def slide_state : State :=
  (do_note (do_note init 0 0 3 0 0 0).1 0 0 1 CMD_TONESLIDE 100 0).1

/-- A module with order list `[0, 1]`.  Pattern 0 (offset 0) is one last line
0 whose only event is "jump to line" with parameter 0.  Pattern 1 (offset 5)
has line 0 (offset 5) and a last line 1 (offset 9), one event each. -/
def jump_module : State :=
  begin_playback { init with
    speed := 6, order := tab [0, 1], orderlen := 2, patoff := tab [0, 5],
    data := tab [0x80, 0x80, 0x00, 0x0D, 0x00,
                 0x00, 0x80, 0x13, 0x10, 0x81, 0x80, 0x15, 0x00],
    datalen := 13 }

/-- A module with two patterns of one last line 0 each (offsets 0 and 4) and
the given order list. -/
def two_pattern_module (orders : List Nat) : State :=
  begin_playback { init with
    speed := 6, order := tab orders, orderlen := orders.length, patoff := tab [0, 4],
    data := tab [0x80, 0x80, 0x13, 0x00, 0x80, 0x80, 0x15, 0x00], datalen := 8 }

/-- A module with two instruments, the one-entry order list `[0]` and one
pattern: a single last line 0 with one event, channel 0, the given octave and
note, instrument 1, no command. -/
def one_line_module (oct note : Nat) : State :=
  begin_playback { init with
    speed := 6, order := tab [0], orderlen := 1, patoff := tab [0],
    insts := fun i =>
      if i = 0 then ⟨0x21, 0x01, 0x8F, 0x40, 0xF2, 0xF1, 0x53, 0x74, 0x0E, 0x01, 0x00⟩
      else if i = 1 then ⟨0x31, 0x11, 0x4A, 0x00, 0xA3, 0xB2, 0x16, 0x27, 0x06, 0x00, 0x02⟩
      else ⟨0, 0, 0, 0, 0, 0, 0, 0, 0, 0, 0⟩,
    data := tab [0x80, 0x80, oct * 16 + note, 0x10], datalen := 4 }

/-- Channel 0 after three events without a reset of the effect fields in
between: "octave 0, note 3", then "octave 1, note 1, slide-to-note with
parameter 10", then "portamento up with parameter 5". -/
def port_tone_state : State :=
  (do_note (do_note (do_note init 0 0 3 0 0 0).1 0 1 1 CMD_TONESLIDE 10 0).1
    0 0 0 CMD_PORTUP 5 0).1

/-- A small RAD file: header `RAD by REALiTY!!`, version 0x10, flags 0x86
(description present, speed 6); description `Hi`; instrument 1; order list
`[0]`; pattern offsets 100 and 104, the other 30 entries 0; 8 bytes of note
data starting at file offset 100. -/
def demo_file : List Nat :=
  [0x52, 0x41, 0x44, 0x20, 0x62, 0x79, 0x20, 0x52, 0x45, 0x41, 0x4C, 0x69, 0x54, 0x59, 0x21, 0x21,
   0x10, 0x86,
   0x48, 0x69, 0x00,
   0x01, 0x21, 0x01, 0x8F, 0x40, 0xF2, 0xF1, 0x53, 0x74, 0x0E, 0x01, 0x00, 0x00,
   0x01, 0x00,
   0x64, 0x00, 0x68, 0x00]
  ++ List.replicate 60 0
  ++ [0x80, 0x80, 0x3C, 0x10, 0x80, 0x80, 0x15, 0x00]

/-- The module `jump_module` with the stream cursor on the exhaustion sentinel. -/
def sentinel_state : State := { jump_module with patpos := 0xFFFF }

/-! ## Sequencer phases, views of the write log and further inputs -/

/-- The body of `if (spdcnt-- == 0) { ... }` up to the end-of-pattern check:
the reset of the effect fields, the read of the line byte, `curline++` and,
when the line number matched, the loop over the events of the line.  The flag
of the result is `true` when the loop was left by `goto skip`. -/
def play_events (fuel : Nat) (s : State) : Option (State × Bool) :=
  let s := reset_effects s
  let line := s.data s.patpos
  let matched : Bool := s.curline = line &&& 0x7F
  let s := { s with curline := (s.curline + 1) % 256 }
  if matched then line_events fuel fuel { s with patpos := (s.patpos + 1) % 65536 }
  else some (s, false)

/-- The resolution of jump markers as the specification words it: while the
order entry at the position has bit 7 set, the position is replaced by the low
7 bits of that entry.  The result is `none` when more than `k` replacements are
needed. -/
def resolve_markers (order : Nat → Nat) : Nat → Nat → Option Nat
  | 0, pos => if order pos &&& 0x80 ≠ 0 then none else some pos
  | k + 1, pos =>
    if order pos &&& 0x80 ≠ 0 then resolve_markers order k (order pos &&& 0x7F) else some pos

/-- The part of the state that only the sequencer and the loader write: the
playback cursor with the `running` flag, and the three tables. -/
def seq_view (s : State) : List Nat × (Nat → Nat) × (Nat → Nat) × (Nat → Nat) :=
  (cursor s, s.order, s.patoff, s.data)

/-- Dispatch of one decoded event in the loop of `play`: the cursor is past the
event when `do_note` is called with the fields of the event. -/
def dispatch (s : State) (ev : EVENT) : State × Nat :=
  do_note { s with patpos := ev.next } (ev.chan &&& 0x7F) ev.oct ev.note ev.cmd ev.param ev.inst

/-- The events of a line that the `do ... while` loop of `play` dispatches, in
order: the events from the cursor on, up to and including the first one that
is a jump-to-line command or has bit 7 set in its channel byte. -/
def dispatched (data : Nat → Nat) : Nat → Nat → Option (List EVENT)
  | 0, _ => none
  | fuel + 1, patpos =>
    let ev := read_event data patpos
    if ev.cmd = CMD_JMPLINE ∨ ev.chan &&& 0x80 ≠ 0 then some [ev]
    else (dispatched data fuel ev.next).map (fun l => ev :: l)

/-- The value last written to a chip register in a write log, if there is one. -/
def last_write (w : List (Nat × Nat)) (reg : Nat) : Option Nat :=
  w.foldl (fun acc x => if x.1 = reg then some x.2 else acc) none

/-- Shadow and chip agree: for every channel 0..8 each of the three shadow
bytes is the value last written to its register. -/
def in_sync (s : State) : Prop :=
  ∀ chan, chan < 9 →
    last_write s.writes (0xA0 + chan) = some (s.prev_freqlow chan)
    ∧ last_write s.writes (0xB0 + chan) = some (s.prev_freqhigh chan)
    ∧ last_write s.writes (0x43 + al_choff chan) = some (s.prev_vol chan)

/-- The writes of a log that went to the two frequency registers of a channel. -/
def freq_writes (w : List (Nat × Nat)) (chan : Nat) : List (Nat × Nat) :=
  w.filter (fun x => x.1 = 0xA0 + chan ∨ x.1 = 0xB0 + chan)

/-- The hold tick of `play`: the countdown is decremented and the effects
engine runs. -/
def hold_tick (s : State) : State :=
  doeffects { s with spdcnt := toUchar ((s.spdcnt : Int) - 1) }

/-- A module with speed 1 and order list `[0, 1]`.  Pattern 0 (offset 0) has
line 0, line 2 (offset 4) and a last line 4 (offset 8), one event each;
pattern 1 (offset 12) is one last line 0. -/
def sparse_module : State :=
  begin_playback { init with
    speed := 1, order := tab [0, 1], orderlen := 2, patoff := tab [0, 12],
    data := tab [0x00, 0x80, 0x13, 0x10, 0x02, 0x80, 0x15, 0x00, 0x84, 0x80, 0x17, 0x00,
                 0x80, 0x80, 0x18, 0x00],
    datalen := 16 }

/-- The module `sparse_module` with the cursor on the line byte of line 2 and
the line counter 1. -/
def blank_line_state : State := { sparse_module with patpos := 4, curline := 1 }

/-- A module with order list `[0, 1]`.  Pattern 0 (offset 0) is one last line
0 whose only event, on channel 8, is "jump to line" with parameter 2.  Pattern
1 (offset 5) starts with a line whose line byte is `b` and holds one event,
followed by a last line 5 with one event. -/
def scan_module (b : Nat) : State :=
  begin_playback { init with
    speed := 6, order := tab [0, 1], orderlen := 2, patoff := tab [0, 5],
    data := tab [0x80, 0x88, 0x00, 0x0D, 0x02,
                 b, 0x80, 0x13, 0x10, 0x85, 0x80, 0x15, 0x00],
    datalen := 13 }

/-- Channel 0 after the event "octave 0, note `note + 1`" followed by the
event "octave 0, note `note`, slide-to-note with the given parameter": the
target that `do_note` arms for the second event is the linear frequency at
which the channel sounds after the first (66 for note 2, 344 for note 11). -/
def equal_slide_state (note step : Nat) : State :=
  (do_note (do_note init 0 0 (note + 1) 0 0 0).1 0 0 note CMD_TONESLIDE step 0).1

/-- The state after the dispatch of a list of events, in order. -/
def run_events (s : State) (evs : List EVENT) : State :=
  evs.foldl (fun st ev => (dispatch st ev).1) s

/-- The events that a line tick of `play` dispatches: none when the line
number at the cursor differs from the logical line counter, otherwise the
events of the line that follows the line byte. -/
def tick_events (fuel : Nat) (s : State) : Option (List EVENT) :=
  if s.curline = s.data s.patpos &&& 0x7F then
    dispatched s.data fuel ((s.patpos + 1) % 65536)
  else some []

/-- The commands that arm an effect: portamento up and down, tone slide, tone
and volume slide, volume slide. -/
def arming_cmds : List Nat :=
  [CMD_PORTUP, CMD_PORTDN, CMD_TONESLIDE, CMD_TONEVOLSLIDE, CMD_VOLSLIDE]

/-- A module with speed 6 and order list `[0]` whose pattern 0 is a single
last line 0 with one event: set-speed (command 15) with parameter 3. -/
def speed_module : State :=
  begin_playback { init with
    speed := 6, order := tab [0], orderlen := 1, patoff := tab [0],
    data := tab [0x80, 0x80, 0x00, 0x0F, 0x03], datalen := 5 }

/-- The state `one_line_module 0 3` with a portamento, a tone slide and a
volume slide armed on every channel. -/
def armed_line_state : State := { one_line_module 0 3 with effects := fun _ => ⟨5, 1, -3⟩ }

/-- The module `jump_module` with the cursor on the first event of pattern 0. -/
def event_state : State := { jump_module with patpos := 1 }

/-- The chip registers used for a channel: the frequency registers `0xA0+chan`
and `0xB0+chan`, the register `0xC0+chan`, and the operator registers
`base + al_choff[chan]` and `base + 3 + al_choff[chan]` for the bases 0x20,
0x40, 0x60, 0x80 and 0xE0. -/
def chan_regs (chan : Nat) : List Nat :=
  [0xA0 + chan, 0xB0 + chan, 0xC0 + chan,
   0x20 + al_choff chan, 0x23 + al_choff chan, 0x40 + al_choff chan, 0x43 + al_choff chan,
   0x60 + al_choff chan, 0x63 + al_choff chan, 0x80 + al_choff chan, 0x83 + al_choff chan,
   0xE0 + al_choff chan, 0xE3 + al_choff chan]

/-! ## Bit-level facts about bytes and words -/

theorem and_3F (x : Nat) : x &&& 0x3F = x % 64 :=
  Nat.and_pow_two_sub_one_eq_mod x 6

theorem and_3FF (x : Nat) : x &&& 0x3FF = x % 1024 :=
  Nat.and_pow_two_sub_one_eq_mod x 10

theorem and_7 (x : Nat) : x &&& 0x7 = x % 8 :=
  Nat.and_pow_two_sub_one_eq_mod x 3

theorem shr_8 (x : Nat) : x >>> 8 = x / 256 :=
  Nat.shiftRight_eq_div_pow x 8

theorem shr_10 (x : Nat) : x >>> 10 = x / 1024 :=
  Nat.shiftRight_eq_div_pow x 10

theorem shl_8 (x : Nat) : x <<< 8 = x * 256 :=
  Nat.shiftLeft_eq x 8

theorem shl_10 (x : Nat) : x <<< 10 = x * 1024 :=
  Nat.shiftLeft_eq x 10

theorem and_FFC0 : ∀ x < 256, x &&& 0xFFC0 = x / 64 * 64 := by decide

theorem and_FFE0 : ∀ x < 256, x &&& 0xFFE0 = x / 32 * 32 := by decide

theorem and_FFDF : ∀ x < 256, x &&& 0xFFDF = x - x / 32 % 2 * 32 := by decide

theorem and_C0 : ∀ x < 256, x &&& 0xC0 = x / 64 * 64 := by decide

theorem and_20 : ∀ x < 256, x &&& 0x20 = x / 32 % 2 * 32 := by decide

theorem xor_3F : ∀ x < 64, x ^^^ 0x3F = 63 - x := by decide

/-- An `or` of a multiple of `2 ^ i` with a value below `2 ^ i` is their sum. -/
theorem or_disjoint (i a b : Nat) (h : b < 2 ^ i) : 2 ^ i * a ||| b = 2 ^ i * a + b :=
  (Nat.mul_add_lt_is_or h a).symm

theorem upd_same {α : Type} (a : Nat → α) (i : Nat) (v : α) : upd a i v i = v := by
  simp [upd]

theorem upd_other {α : Type} (a : Nat → α) (i j : Nat) (v : α) (h : j ≠ i) :
    upd a i v j = a j := by
  simp [upd, h]

theorem toShort_toUshort (x : Int) (h0 : -32768 ≤ x) (h1 : x < 32768) :
    toShort (toUshort x) = x := by
  unfold toShort toUshort
  omega

theorem al_choff_lt (chan : Nat) (h : chan < 9) : al_choff chan < 19 := by
  interval_cases chan <;> decide

/-- Reassembling a 16-bit word from its two bytes. -/
theorem bytes_word (lo hi : Nat) (hlo : lo < 256) (hhi : hi < 256) :
    (lo ||| (hi <<< 8) % 65536) % 65536 = 256 * hi + lo := by
  rw [shl_8, Nat.or_comm]
  have h1 : hi * 256 % 65536 = 2 ^ 8 * hi := by omega
  rw [h1, or_disjoint 8 hi lo (by norm_num; omega)]
  norm_num
  omega

/-! ## Frequency shadow -/

/-- The value `get_linear_freq` returns, in terms of the shadowed word: octave
field times 344 plus the F-number field minus 342. -/
theorem get_linear_freq_eq (s : State) (chan : Nat) (hlo : s.prev_freqlow chan < 256)
    (hhi : s.prev_freqhigh chan < 256) :
    get_linear_freq s chan
      = ((freq_word s chan / 1024 % 8 * 344 + freq_word s chan % 1024 : Nat) : Int) - 342 := by
  simp only [get_linear_freq, bytes_word _ _ hlo hhi, shr_10, and_7, and_3FF, linearfreq2,
    OCTAVE, NOTE_C, freq_word]
  rw [toShort_toUshort] <;> push_cast <;> omega

/-- The word `set_linear_freq` assembles for a linear frequency in range. -/
theorem linear_word (hi n : Nat) (hhi : hi < 256) (hn : n < 2752) :
    (((hi &&& 0xFFE0) <<< 8) % 65536 ||| (n % 344 + 342)) ||| ((n / 344) <<< 10) % 65536
      = 8192 * (hi / 32) + 1024 * (n / 344) + (n % 344 + 342) := by
  rw [and_FFE0 hi hhi, shl_8, shl_10, Nat.or_assoc, Nat.or_comm (n % 344 + 342)]
  have h1 : hi / 32 * 32 * 256 % 65536 = 2 ^ 13 * (hi / 32) := by omega
  have h2 : n / 344 * 1024 % 65536 = 2 ^ 10 * (n / 344) := by omega
  rw [h1, h2, or_disjoint 10 _ _ (by norm_num; omega), or_disjoint 13 _ _ (by norm_num; omega)]
  norm_num
  omega

/-- The shadow bytes after `set_linear_freq` with a linear frequency in range. -/
theorem set_linear_freq_shadow (s : State) (chan n : Nat) (hhi : s.prev_freqhigh chan < 256)
    (hn : n < 2752) :
    (set_linear_freq s chan (n : Int)).prev_freqlow chan
        = (8192 * (s.prev_freqhigh chan / 32) + 1024 * (n / 344) + (n % 344 + 342)) % 256
    ∧ (set_linear_freq s chan (n : Int)).prev_freqhigh chan
        = (8192 * (s.prev_freqhigh chan / 32) + 1024 * (n / 344) + (n % 344 + 342)) / 256 % 256 := by
  have ho : toUchar (Int.tdiv (n : Int) (OCTAVE : Nat)) = n / 344 := by
    rw [← Int.ofNat_tdiv]
    simp only [toUchar, OCTAVE, NOTE_C]
    omega
  have hf : toUshort (Int.tmod (n : Int) (OCTAVE : Nat) + (NOTE_C : Nat)) = n % 344 + 342 := by
    rw [← Int.ofNat_tmod]
    simp only [toUshort, OCTAVE, NOTE_C]
    omega
  constructor <;>
    simp only [set_linear_freq, al_write, upd_same, ho, hf, linear_word _ _ hhi hn, shr_8]

theorem linear_word_keyon (hi n : Nat) (hhi : hi < 256) (hn : n < 2752) :
    (8192 * (hi / 32) + 1024 * (n / 344) + (n % 344 + 342)) / 256 % 256 / 32 % 2
      = hi / 32 % 2 := by
  have ha : hi / 32 < 8 := by omega
  have ho : n / 344 < 8 := by omega
  have hr : n % 344 < 344 := Nat.mod_lt _ (by norm_num)
  generalize hi / 32 = a at *
  generalize n / 344 = o at *
  generalize n % 344 = r at *
  have h1 : (8192 * a + 1024 * o + (r + 342)) / 256 = 32 * a + (1024 * o + r + 342) / 256 := by
    omega
  rw [h1]
  omega

theorem notefreq_bounds (note : Nat) (h1 : 1 ≤ note) (h2 : note ≤ 12) :
    363 ≤ notefreq (note - 1) ∧ notefreq (note - 1) ≤ 686
    ∧ (note ≤ 11 → notefreq (note - 1) ≤ 647) := by
  interval_cases note <;> simp [notefreq, notefreq_tab]

/-- The word `set_note` assembles: key-on bit, octave field, F-number. -/
theorem note_word (oct f : Nat) (ho : oct ≤ 7) (hf : f < 1024) :
    0x2000 ||| (((oct <<< 10) % 65536 + f) % 65536) = 8192 + 1024 * oct + f := by
  rw [shl_10]
  have h1 : (oct * 1024 % 65536 + f) % 65536 = 1024 * oct + f := by omega
  have h2 : (0x2000 : Nat) = 2 ^ 13 * 1 := by norm_num
  rw [h1, h2, or_disjoint 13 1 _ (by norm_num; omega)]
  omega

/-- The shadow bytes after `set_note` with a note 1..12. -/
theorem set_note_shadow (s : State) (chan oct note : Nat) (ho : oct ≤ 7) (h1 : 1 ≤ note)
    (h2 : note ≤ 12) :
    (set_note s chan oct note).prev_freqlow chan
        = (8192 + 1024 * oct + notefreq (note - 1)) % 256
    ∧ (set_note s chan oct note).prev_freqhigh chan
        = (8192 + 1024 * oct + notefreq (note - 1)) / 256 := by
  have hn0 : ¬ note = 0 := by omega
  have hn13 : note < 13 := by omega
  obtain ⟨hb1, hb2, -⟩ := notefreq_bounds note h1 h2
  have hw := note_word oct (notefreq (note - 1)) ho (by omega)
  constructor <;>
    simp only [set_note, if_neg hn0, if_pos hn13, al_write, upd_same, hw, shr_8]
  omega

theorem roundtrip_word (oct f : Nat) (ho : oct ≤ 7) (hf1 : 363 ≤ f) (hf2 : f ≤ 647) :
    8192 * ((8192 + 1024 * oct + f) / 256 / 32) + 1024 * ((344 * oct + f - 342) / 344)
        + ((344 * oct + f - 342) % 344 + 342)
      = 8192 + 1024 * oct + f := by
  have e1 : (8192 + 1024 * oct + f) / 256 / 32 = 1 := by omega
  have e2 : (344 * oct + f - 342) / 344 = oct := by omega
  have e3 : (344 * oct + f - 342) % 344 = f - 342 := by omega
  rw [e1, e2, e3]
  omega

/-! ## Volume shadow -/

/-- The byte `set_volume` stores for old byte `b` and volume `v`. -/
theorem new43_eq (b v : Nat) (hb : b < 256) (hv : v < 64) :
    ((b &&& 0xFFC0) % 256 ||| (v ^^^ 0x3F)) % 256 = b / 64 * 64 + (63 - v) := by
  rw [and_FFC0 b hb, xor_3F v hv]
  have h1 : b / 64 * 64 % 256 = 2 ^ 6 * (b / 64) := by omega
  rw [h1, or_disjoint 6 (b / 64) (63 - v) (by norm_num; omega)]
  norm_num
  omega

theorem set_volume_prev_vol (s : State) (chan v : Nat) (hb : s.prev_vol chan < 256)
    (hv : v < 64) :
    (set_volume s chan v).prev_vol chan = s.prev_vol chan / 64 * 64 + (63 - v) := by
  have hv' : ¬ v ≥ 64 := by omega
  simp only [set_volume, al_write, if_neg hv', upd_same]
  exact new43_eq _ _ hb hv

theorem get_volume_eq (s : State) (chan : Nat) :
    get_volume s chan = 63 - s.prev_vol chan % 64 := by
  simp only [get_volume, and_3F]
  rw [xor_3F _ (Nat.mod_lt _ (by norm_num))]
  omega

/-! ## Frame facts of the effects engine -/

theorem effect_portslide_frame (s : State) (chan : Nat) :
    (effect_portslide s chan).prev_vol = s.prev_vol
    ∧ (effect_portslide s chan).effects = s.effects := by
  unfold effect_portslide
  split <;> exact ⟨rfl, rfl⟩

theorem effect_toneslide_frame (s : State) (chan c : Nat) :
    (effect_toneslide s chan).prev_vol = s.prev_vol
    ∧ ((effect_toneslide s chan).effects c).volslide = (s.effects c).volslide
    ∧ (c ≠ chan → (effect_toneslide s chan).effects c = s.effects c) := by
  have hd : ((set_effects s chan { (s.effects chan) with toneslide := 0 }).effects c).volslide
      = (s.effects c).volslide := by
    by_cases h : c = chan
    · subst h; simp [set_effects, upd]
    · simp [set_effects, upd, h]
  have hd2 : c ≠ chan →
      (set_effects s chan { (s.effects chan) with toneslide := 0 }).effects c = s.effects c := by
    intro h; simp [set_effects, upd, h]
  unfold effect_toneslide
  simp only []
  split_ifs <;> exact ⟨rfl, by first | rfl | exact hd, by first | exact fun _ => rfl | exact hd2⟩

theorem effect_volslide_frame (s : State) (chan c : Nat) (h : c ≠ chan) :
    (effect_volslide s chan).prev_vol c = s.prev_vol c
    ∧ (effect_volslide s chan).effects = s.effects := by
  unfold effect_volslide
  split
  · exact ⟨by simp [set_volume, al_write, upd, h], rfl⟩
  · exact ⟨rfl, rfl⟩

theorem doeffects_chan_frame (s : State) (chan c : Nat) (h : c ≠ chan) :
    (doeffects_chan s chan).prev_vol c = s.prev_vol c
    ∧ ((doeffects_chan s chan).effects c).volslide = (s.effects c).volslide := by
  unfold doeffects_chan
  obtain ⟨p1, p2⟩ := effect_portslide_frame s chan
  obtain ⟨t1, t2, -⟩ := effect_toneslide_frame (effect_portslide s chan) chan c
  obtain ⟨v1, v2⟩ := effect_volslide_frame (effect_toneslide (effect_portslide s chan) chan) chan c h
  rw [v1, v2, t1, t2, p1, p2]
  exact ⟨rfl, rfl⟩

theorem foldl_doeffects_frame (l : List Nat) (s : State) (c : Nat) (h : c ∉ l) :
    (l.foldl doeffects_chan s).prev_vol c = s.prev_vol c
    ∧ ((l.foldl doeffects_chan s).effects c).volslide = (s.effects c).volslide := by
  induction l generalizing s with
  | nil => exact ⟨rfl, rfl⟩
  | cons a l ih =>
    rw [List.foldl_cons]
    have ha : c ≠ a := fun e => h (e ▸ List.mem_cons_self _ _)
    have hl : c ∉ l := fun e => h (List.mem_cons_of_mem _ e)
    obtain ⟨i1, i2⟩ := ih (doeffects_chan s a) hl
    obtain ⟨f1, f2⟩ := doeffects_chan_frame s a c ha
    rw [i1, i2, f1, f2]
    exact ⟨rfl, rfl⟩

/-! ## The volume slide -/

theorem effect_volslide_volume (s : State) (chan : Nat) (hb : s.prev_vol chan < 256)
    (hd0 : (s.effects chan).volslide ≠ 0) (hd1 : -128 ≤ (s.effects chan).volslide)
    (hd2 : (s.effects chan).volslide ≤ 127) :
    (get_volume (effect_volslide s chan) chan : Int)
      = min 63 (max 0 ((get_volume s chan : Int) + (s.effects chan).volslide)) := by
  have hv := get_volume_eq s chan
  unfold effect_volslide
  rw [if_pos hd0]
  generalize (s.effects chan).volslide = d at *
  generalize get_volume s chan = v at *
  have hv63 : v ≤ 63 := by omega
  have hs : toShort ((v : Int) + d) = v + d := by unfold toShort; omega
  simp only [hs]
  by_cases hneg : (v : Int) + d < 0
  · rw [if_pos hneg]
    have : toUchar 0 = 0 := rfl
    rw [this, get_volume_eq, set_volume_prev_vol s chan 0 hb (by norm_num)]
    omega
  · rw [if_neg hneg]
    have hu : toUchar ((v : Int) + d) = ((v : Int) + d).toNat := by unfold toUchar; omega
    rw [hu]
    by_cases hbig : ((v : Int) + d).toNat ≥ 64
    · have : set_volume s chan ((v : Int) + d).toNat = set_volume s chan 63 := by
        simp [set_volume, hbig]
      rw [this, get_volume_eq, set_volume_prev_vol s chan 63 hb (by norm_num)]
      omega
    · rw [get_volume_eq, set_volume_prev_vol s chan _ hb (by omega)]
      omega

theorem doeffects_chan_volume (s : State) (chan : Nat) (hb : s.prev_vol chan < 256)
    (hd0 : (s.effects chan).volslide ≠ 0) (hd1 : -128 ≤ (s.effects chan).volslide)
    (hd2 : (s.effects chan).volslide ≤ 127) :
    (get_volume (doeffects_chan s chan) chan : Int)
      = min 63 (max 0 ((get_volume s chan : Int) + (s.effects chan).volslide)) := by
  obtain ⟨p1, p2⟩ := effect_portslide_frame s chan
  obtain ⟨t1, t2, -⟩ := effect_toneslide_frame (effect_portslide s chan) chan chan
  have e1 : (effect_toneslide (effect_portslide s chan) chan).prev_vol chan = s.prev_vol chan := by
    rw [t1, p1]
  have e2 : ((effect_toneslide (effect_portslide s chan) chan).effects chan).volslide
      = (s.effects chan).volslide := by
    rw [t2, p2]
  have key := effect_volslide_volume (effect_toneslide (effect_portslide s chan) chan) chan
    (by rw [e1]; exact hb) (by rw [e2]; exact hd0) (by rw [e2]; exact hd1) (by rw [e2]; exact hd2)
  rw [e2, get_volume_eq (effect_toneslide (effect_portslide s chan) chan), e1,
    ← get_volume_eq] at key
  exact key

theorem foldl_doeffects_volume (l : List Nat) (hnd : l.Nodup) (s : State) (chan : Nat)
    (hmem : chan ∈ l) (hb : s.prev_vol chan < 256)
    (hd0 : (s.effects chan).volslide ≠ 0) (hd1 : -128 ≤ (s.effects chan).volslide)
    (hd2 : (s.effects chan).volslide ≤ 127) :
    (get_volume (l.foldl doeffects_chan s) chan : Int)
      = min 63 (max 0 ((get_volume s chan : Int) + (s.effects chan).volslide)) := by
  induction l generalizing s with
  | nil => exact absurd hmem (List.not_mem_nil _)
  | cons a l ih =>
    rw [List.foldl_cons]
    obtain ⟨hal, hl⟩ := List.nodup_cons.mp hnd
    by_cases ha : chan = a
    · subst ha
      obtain ⟨f1, -⟩ := foldl_doeffects_frame l (doeffects_chan s chan) chan hal
      rw [get_volume_eq, f1, ← get_volume_eq]
      exact doeffects_chan_volume s chan hb hd0 hd1 hd2
    · have hm : chan ∈ l := by
        rcases List.mem_cons.mp hmem with h | h
        · exact absurd h ha
        · exact h
      obtain ⟨f1, f2⟩ := doeffects_chan_frame s a chan ha
      have := ih hl (doeffects_chan s a) hm (by rw [f1]; exact hb) (by rw [f2]; exact hd0)
        (by rw [f2]; exact hd1) (by rw [f2]; exact hd2)
      rw [this, f2, get_volume_eq (doeffects_chan s a), f1, ← get_volume_eq]

/-! ## Dispatch and chip reset -/

theorem do_cmd_result (s : State) (chan cmd p : Nat) :
    (do_cmd s chan cmd p).2 = if cmd = 13 then 1 + p else 0 := by
  unfold do_cmd
  simp only [CMD_PORTUP, CMD_PORTDN, CMD_TONESLIDE, CMD_TONEVOLSLIDE, CMD_VOLSLIDE, CMD_SETVOL,
    CMD_JMPLINE, CMD_SETSPEED]
  by_cases h : cmd = 13
  · subst h; simp
  · rw [if_neg h]
    split_ifs <;> rfl

theorem foldl_al_write (l : List Nat) (s : State) :
    l.foldl (fun st i => al_write st i 0) s
      = { s with writes := s.writes ++ l.map (fun i => (i % 256, 0)) } := by
  induction l generalizing s with
  | nil => simp
  | cons a l ih =>
    rw [List.foldl_cons, ih]
    simp [al_write]

theorem al_clr_eq (s : State) : al_clr s = { s with writes := s.writes ++ clr_writes } := by
  have h : (List.range 256).map (fun i => (i % 256, 0)) = clr_writes := by decide
  rw [al_clr, foldl_al_write, h]

theorem play_at_sentinel (fuel : Nat) (s : State) (h : s.patpos = 0xFFFF) :
    play fuel s = some { s with running := 0, writes := s.writes ++ clr_writes } := by
  unfold play
  rw [if_pos h, al_clr_eq]

/-! ## More fuel never changes a result -/

theorem order_jumps_mono (f f' : Nat) (s r : State) (hf : f ≤ f')
    (h : order_jumps f s = some r) : order_jumps f' s = some r := by
  induction f generalizing f' s with
  | zero => simp [order_jumps] at h
  | succ f ih =>
    obtain ⟨g, rfl⟩ : ∃ g, f' = g + 1 := ⟨f' - 1, by omega⟩
    rw [order_jumps] at h ⊢
    split at h
    · rename_i hc
      rw [if_pos hc]
      exact ih g _ (by omega) h
    · rename_i hc
      rw [if_neg hc]
      exact h

theorem next_pattern_mono (f f' : Nat) (s r : State) (hf : f ≤ f')
    (h : next_pattern f s = some r) : next_pattern f' s = some r := by
  unfold next_pattern at h ⊢
  simp only [Option.map_eq_some'] at h ⊢
  obtain ⟨a, h1, h2⟩ := h
  exact ⟨a, order_jumps_mono f f' _ _ hf h1, h2⟩

theorem skip_events_mono (data : Nat → Nat) (f f' p r : Nat) (hf : f ≤ f')
    (h : skip_events data f p = some r) : skip_events data f' p = some r := by
  induction f generalizing f' p with
  | zero => simp [skip_events] at h
  | succ f ih =>
    obtain ⟨g, rfl⟩ : ∃ g, f' = g + 1 := ⟨f' - 1, by omega⟩
    rw [skip_events] at h ⊢
    split at h
    · rename_i hc
      rw [if_pos hc]
      exact ih g _ (by omega) h
    · rename_i hc
      rw [if_neg hc]
      exact h

theorem scan_lines_mono (data : Nat → Nat) (nl sf sf' f f' p r : Nat) (hs : sf ≤ sf')
    (hf : f ≤ f') (h : scan_lines data nl sf f p = some r) :
    scan_lines data nl sf' f' p = some r := by
  induction f generalizing f' p with
  | zero => simp [scan_lines] at h
  | succ f ih =>
    obtain ⟨g, rfl⟩ : ∃ g, f' = g + 1 := ⟨f' - 1, by omega⟩
    rw [scan_lines] at h ⊢
    simp only [] at h ⊢
    split at h
    · rename_i hc
      rw [if_pos hc]
      simp only [Option.bind_eq_some] at h ⊢
      obtain ⟨a, h1, h2⟩ := h
      exact ⟨a, skip_events_mono data sf sf' _ _ hs h1, ih g _ (by omega) h2⟩
    · rename_i hc
      rw [if_neg hc]
      exact h

theorem line_jump_mono (f f' : Nat) (s r : State) (nl : Nat) (hf : f ≤ f')
    (h : line_jump f s nl = some r) : line_jump f' s nl = some r := by
  unfold line_jump at h ⊢
  simp only [Option.bind_eq_some, Option.map_eq_some'] at h ⊢
  obtain ⟨a, h1, p, h2, h3⟩ := h
  exact ⟨a, next_pattern_mono f f' _ _ hf h1, p, scan_lines_mono _ _ f f' f f' _ _ hf hf h2, h3⟩

theorem line_events_mono (j j' f f' : Nat) (s : State) (r : State × Bool) (hj : j ≤ j')
    (hf : f ≤ f') (h : line_events j f s = some r) : line_events j' f' s = some r := by
  induction f generalizing f' s with
  | zero => simp [line_events] at h
  | succ f ih =>
    obtain ⟨g, rfl⟩ : ∃ g, f' = g + 1 := ⟨f' - 1, by omega⟩
    rw [line_events] at h ⊢
    split at h
    · rename_i hc
      rw [if_pos hc]
      simp only [Option.map_eq_some'] at h ⊢
      obtain ⟨a, h1, h2⟩ := h
      exact ⟨a, line_jump_mono j j' _ _ _ hj h1, h2⟩
    · rename_i hc
      rw [if_neg hc]
      split at h
      · rename_i hc2
        rw [if_pos hc2]
        exact ih g _ (by omega) h
      · rename_i hc2
        rw [if_neg hc2]
        exact h

theorem pattern_end_mono (f f' line : Nat) (s r : State) (hf : f ≤ f')
    (h : pattern_end f line s = some r) : pattern_end f' line s = some r := by
  unfold pattern_end at h ⊢
  split at h
  · rename_i hc
    rw [if_pos hc]
    simp only [Option.map_eq_some'] at h ⊢
    obtain ⟨a, h1, h2⟩ := h
    exact ⟨a, next_pattern_mono f f' _ _ hf h1, h2⟩
  · rename_i hc
    rw [if_neg hc]
    exact h

theorem play_line_mono (f f' : Nat) (s r : State) (hf : f ≤ f')
    (h : play_line f s = some r) : play_line f' s = some r := by
  unfold play_line at h ⊢
  simp only [Option.bind_eq_some] at h ⊢
  obtain ⟨a, h1, h2⟩ := h
  refine ⟨a, ?_, ?_⟩
  · split at h1
    · rename_i hc
      rw [if_pos hc]
      exact line_events_mono f f' f f' _ _ hf hf h1
    · rename_i hc
      rw [if_neg hc]
      exact h1
  · split at h2
    · rename_i hc
      rw [if_pos hc]
      exact h2
    · rename_i hc
      rw [if_neg hc]
      simp only [Option.map_eq_some'] at h2 ⊢
      obtain ⟨b, h3, h4⟩ := h2
      exact ⟨b, pattern_end_mono f f' _ _ _ hf h3, h4⟩

theorem play_mono (f f' : Nat) (s r : State) (hf : f ≤ f')
    (h : play f s = some r) : play f' s = some r := by
  unfold play at h ⊢
  split at h
  · rename_i hc
    rw [if_pos hc]
    exact h
  · rename_i hc
    rw [if_neg hc]
    simp only [] at h ⊢
    split at h
    · rename_i hc2
      rw [if_pos hc2]
      simp only [Option.map_eq_some'] at h ⊢
      obtain ⟨a, h1, h2⟩ := h
      exact ⟨a, play_line_mono f f' _ _ hf h1, h2⟩
    · rename_i hc2
      rw [if_neg hc2]
      exact h

theorem play_n_mono (f f' n : Nat) (s r : State) (hf : f ≤ f')
    (h : play_n f n s = some r) : play_n f' n s = some r := by
  induction n generalizing s with
  | zero => exact h
  | succ n ih =>
    rw [play_n] at h ⊢
    simp only [Option.bind_eq_some] at h ⊢
    obtain ⟨a, h1, h2⟩ := h
    exact ⟨a, play_mono f f' _ _ hf h1, ih _ h2⟩

theorem map_of_mono {α : Type} (g : State → α) (o o' : Option State)
    (hm : ∀ r, o = some r → o' = some r) (v : α) (h : o.map g = some v) :
    o'.map g = some v := by
  simp only [Option.map_eq_some'] at h ⊢
  obtain ⟨a, h1, h2⟩ := h
  exact ⟨a, hm a h1, h2⟩

/-! ## Order-list jump markers -/

/-- A jump marker that names its own position is never resolved. -/
theorem order_jumps_self (fuel : Nat) (s : State) (h1 : s.curpat = 0x81)
    (h2 : s.order 1 = 0x81) : order_jumps fuel s = none := by
  induction fuel generalizing s with
  | zero => rfl
  | succ f ih =>
    have hc : s.curpat &&& 0x80 ≠ 0 := by rw [h1]; decide
    have hco : toUchar ((s.curpat : Int) - 0x80) = 1 := by rw [h1]; decide
    rw [order_jumps, if_pos hc]
    simp only [hco]
    exact ih _ h2 h2

theorem next_pattern_self (fuel : Nat) (s : State)
    (h1 : s.order ((s.curorder + 1) % 256) = 0x81) (h2 : s.order 1 = 0x81) :
    next_pattern fuel s = none := by
  unfold next_pattern
  simp only [Option.map_eq_none']
  exact order_jumps_self fuel _ h1 h2

theorem play_marker81 (fuel : Nat) : play fuel (two_pattern_module [0, 0x81, 1]) = none := by
  cases fuel with
  | zero => rfl
  | succ f =>
    show Option.map doeffects (Option.map reload_spdcnt (Option.map _ (next_pattern (f + 1) _)))
      = none
    rw [next_pattern_self _ _ rfl rfl]
    rfl

/-! ## The sentinel -/

theorem play_n_at_sentinel (fuel n : Nat) (s : State) (h : s.patpos = 0xFFFF) :
    ∃ s1, play_n fuel (n + 1) s = some s1 ∧ s1.patpos = 0xFFFF ∧ s1.running = 0 := by
  induction n generalizing s with
  | zero =>
    refine ⟨{ s with running := 0, writes := s.writes ++ clr_writes }, ?_, h, rfl⟩
    simp only [play_n, play_at_sentinel fuel s h, Option.bind]
  | succ n ih =>
    obtain ⟨s1, h1, h2, h3⟩ := ih { s with running := 0, writes := s.writes ++ clr_writes } h
    refine ⟨s1, ?_, h2, h3⟩
    rw [play_n, play_at_sentinel fuel s h]
    exact h1

/-! ## The one-line module, with the least fuel -/

set_option maxHeartbeats 4000000 in
theorem one_line_module_fuel1 (oct note : Nat) (ho : oct ≤ 7) (h1 : 1 ≤ note)
    (h2 : note ≤ 12) :
    (play 1 (one_line_module oct note)).map (fun s => (s.writes, cursor s))
      = some (trigger_writes (one_line_module oct note) oct note, [1, 0, 0, 0, 5, 1])
    ∧ (play_n 1 6 (one_line_module oct note)).map (fun s => (s.writes, cursor s))
      = some (trigger_writes (one_line_module oct note) oct note, [1, 0, 0, 0, 0, 1])
    ∧ (play_n 1 7 (one_line_module oct note)).map (fun s => (s.writes, cursor s))
      = (play 1 (one_line_module oct note)).map
        (fun s => (trigger_writes s oct note, [2, 0, 0, 0, 5, 1])) := by
  interval_cases oct <;> interval_cases note <;> decide

/-! ## The claims -/

/-- C1, as amended: for every channel, octave 0..7 and note 1..11, after
`set_note(chan, oct, note)` the conversion of the shadowed pair to linear with
`get_linear_freq` and back with `set_linear_freq` leaves both shadow frequency
bytes (octave bits, F-number and key-on bit) exactly as `set_note` wrote them. -/
theorem set_note_linear_roundtrip (s : State) (chan oct note : Nat) (ho : oct ≤ 7)
    (h1 : 1 ≤ note) (h2 : note ≤ 11) :
    (set_linear_freq (set_note s chan oct note) chan
        (get_linear_freq (set_note s chan oct note) chan)).prev_freqlow chan
      = (set_note s chan oct note).prev_freqlow chan
    ∧ (set_linear_freq (set_note s chan oct note) chan
        (get_linear_freq (set_note s chan oct note) chan)).prev_freqhigh chan
      = (set_note s chan oct note).prev_freqhigh chan := by
  obtain ⟨hb1, hb2, hb3⟩ := notefreq_bounds note h1 (by omega)
  have hb4 := hb3 h2
  obtain ⟨hlo, hhi⟩ := set_note_shadow s chan oct note ho h1 (by omega)
  have hl : (set_note s chan oct note).prev_freqlow chan < 256 := by rw [hlo]; omega
  have hh : (set_note s chan oct note).prev_freqhigh chan < 256 := by rw [hhi]; omega
  have hg := get_linear_freq_eq _ chan hl hh
  generalize notefreq (note - 1) = f at *
  have hg' : get_linear_freq (set_note s chan oct note) chan
      = ((344 * oct + f - 342 : Nat) : Int) := by
    rw [hg, freq_word, hlo, hhi]
    omega
  obtain ⟨hlo', hhi'⟩ := set_linear_freq_shadow (set_note s chan oct note) chan
    (344 * oct + f - 342) hh (by omega)
  rw [hg', hlo', hhi', hlo, hhi, roundtrip_word oct f ho hb1 hb4]
  constructor
  · rfl
  · omega

/-- C1, witness: channel 4, octave 5, note 11 on the zero-initialised state. -/
theorem set_note_linear_roundtrip_witness :
    (5 : Nat) ≤ 7 ∧ (1 : Nat) ≤ 11 ∧ (11 : Nat) ≤ 11
    ∧ (set_linear_freq (set_note init 4 5 11) 4
        (get_linear_freq (set_note init 4 5 11) 4)).prev_freqlow 4
      = (set_note init 4 5 11).prev_freqlow 4
    ∧ (set_linear_freq (set_note init 4 5 11) 4
        (get_linear_freq (set_note init 4 5 11) 4)).prev_freqhigh 4
      = (set_note init 4 5 11).prev_freqhigh 4 :=
  ⟨by decide, by decide, by decide,
    set_note_linear_roundtrip init 4 5 11 (by decide) (by decide) (by decide)⟩

/-- C1, counterexample: for channel 0, octave 0, note 12 the round trip does
not reproduce the shadow bytes: `set_note` stores F-number 0x2AE in octave 0
(bytes 0xAE, 0x22), the linear value is 344, and `set_linear_freq` stores
F-number 0x156 in octave 1 (bytes 0x56, 0x25). -/
theorem set_note_linear_roundtrip_note12 :
    ¬ ((set_linear_freq (set_note init 0 0 12) 0
          (get_linear_freq (set_note init 0 0 12) 0)).prev_freqlow 0
        = (set_note init 0 0 12).prev_freqlow 0
      ∧ (set_linear_freq (set_note init 0 0 12) 0
          (get_linear_freq (set_note init 0 0 12) 0)).prev_freqhigh 0
        = (set_note init 0 0 12).prev_freqhigh 0) := by
  decide

/-- C2: for every channel, every prior shadow state and every linear frequency
`l` with `0 ≤ l < 8 * OCTAVE`, after `set_linear_freq(chan, l)` the function
`get_linear_freq(chan)` returns exactly `l`, which is octave * OCTAVE +
F-number - 0x156 of the new shadow, and bit 5 (key-on) of the shadow high
frequency byte is unchanged. -/
theorem set_get_linear_freq (s : State) (chan : Nat) (l : Int)
    (hhi : s.prev_freqhigh chan < 256) (h0 : 0 ≤ l) (h1 : l < 8 * (OCTAVE : Nat)) :
    get_linear_freq (set_linear_freq s chan l) chan = l
    ∧ l = ((freq_word (set_linear_freq s chan l) chan / 1024 % 8 * OCTAVE
            + freq_word (set_linear_freq s chan l) chan % 1024 : Nat) : Int) - 0x156
    ∧ (set_linear_freq s chan l).prev_freqhigh chan &&& 0x20 = s.prev_freqhigh chan &&& 0x20 := by
  lift l to Nat using h0
  have hn : l < 2752 := by simp only [OCTAVE, NOTE_C] at h1; omega
  obtain ⟨hlo', hhi'⟩ := set_linear_freq_shadow s chan l hhi hn
  have hl : (set_linear_freq s chan (l : Int)).prev_freqlow chan < 256 := by rw [hlo']; omega
  have hh : (set_linear_freq s chan (l : Int)).prev_freqhigh chan < 256 := by rw [hhi']; omega
  have hg : get_linear_freq (set_linear_freq s chan (l : Int)) chan = (l : Int) := by
    rw [get_linear_freq_eq _ _ hl hh, freq_word, hlo', hhi']
    omega
  refine ⟨hg, ?_, ?_⟩
  · have := get_linear_freq_eq _ _ hl hh
    rw [hg] at this
    simp only [OCTAVE, NOTE_C]
    exact this
  · rw [and_20 _ hh, and_20 _ hhi, hhi', linear_word_keyon _ _ hhi hn]

/-- C2, witness: linear frequency 1000 on channel 2 of the state left by a
note trigger. -/
theorem set_get_linear_freq_witness :
    (set_note init 2 1 5).prev_freqhigh 2 < 256 ∧ (0 : Int) ≤ 1000
    ∧ (1000 : Int) < 8 * (OCTAVE : Nat)
    ∧ get_linear_freq (set_linear_freq (set_note init 2 1 5) 2 1000) 2 = 1000 :=
  ⟨by decide, by decide, by decide,
    (set_get_linear_freq (set_note init 2 1 5) 2 1000 (by decide) (by decide) (by decide)).1⟩

/-- C3: for every channel 0..8, every prior shadow volume byte `b` and every
`v` in 0..63, after `set_volume(chan, v)`: `get_volume(chan) = v`, bits 6-7 of
the shadow volume byte equal those of `b`, its low 6 bits are `63 - v`, and the
single register write is the new shadow byte to register `0x43 + al_choff[chan]`. -/
theorem set_volume_get_volume (s : State) (chan v : Nat) (hc : chan < 9)
    (hb : s.prev_vol chan < 256) (hv : v ≤ 63) :
    get_volume (set_volume s chan v) chan = v
    ∧ (set_volume s chan v).prev_vol chan &&& 0xC0 = s.prev_vol chan &&& 0xC0
    ∧ (set_volume s chan v).prev_vol chan &&& 0x3F = 63 - v
    ∧ (set_volume s chan v).writes
        = s.writes ++ [(0x43 + al_choff chan, (set_volume s chan v).prev_vol chan)] := by
  have hv1 : v < 64 := by omega
  have hp := set_volume_prev_vol s chan v hb hv1
  have hlt : (set_volume s chan v).prev_vol chan < 256 := by rw [hp]; omega
  refine ⟨?_, ?_, ?_, ?_⟩
  · simp only [get_volume, hp, and_3F]
    rw [xor_3F _ (Nat.mod_lt _ (by norm_num))]
    omega
  · rw [and_C0 _ hlt, and_C0 _ hb, hp]
    omega
  · rw [and_3F, hp]
    omega
  · have hch := al_choff_lt chan hc
    have hv' : ¬ v ≥ 64 := by omega
    have h1 : (0x43 + al_choff chan) % 256 = 0x43 + al_choff chan := by omega
    simp only [set_volume, al_write, if_neg hv', upd_same, h1, Nat.mod_mod]

/-- C3, witness: volume 17 on channel 3 with prior shadow byte 0xC5. -/
theorem set_volume_get_volume_witness :
    (3 : Nat) < 9 ∧ volslide_state.prev_vol 3 < 256 ∧ (17 : Nat) ≤ 63
    ∧ get_volume (set_volume volslide_state 3 17) 3 = 17 :=
  ⟨by decide, by decide, by decide,
    (set_volume_get_volume volslide_state 3 17 (by decide) (by decide) (by decide)).1⟩

/-- C5: for every channel 0..8 with current volume `v` and an armed
volume-slide delta `d` (any nonzero signed 8-bit value), after one run of
`doeffects` the volume is `min(63, max(0, v + d))`; in particular it is never
below 0 and is exactly 0 whenever `v + d ≤ 0`. -/
theorem doeffects_volslide_clamps (s : State) (chan : Nat) (hc : chan < 9)
    (hb : s.prev_vol chan < 256)
    (hd0 : (s.effects chan).volslide ≠ 0) (hd1 : -128 ≤ (s.effects chan).volslide)
    (hd2 : (s.effects chan).volslide ≤ 127) :
    (get_volume (doeffects s) chan : Int)
        = min 63 (max 0 ((get_volume s chan : Int) + (s.effects chan).volslide))
    ∧ ((get_volume s chan : Int) + (s.effects chan).volslide ≤ 0
        → get_volume (doeffects s) chan = 0) := by
  have key := foldl_doeffects_volume (List.range CHANS) (List.nodup_range _) s chan
    (List.mem_range.mpr hc) hb hd0 hd1 hd2
  refine ⟨key, fun hle => ?_⟩
  have : (get_volume (doeffects s) chan : Int) = 0 := by
    rw [show doeffects s = (List.range CHANS).foldl doeffects_chan s from rfl, key]
    omega
  exact_mod_cast this

/-- C5, witness: channel 3 at volume 58 with delta -100 ends at volume 0. -/
theorem doeffects_volslide_clamps_witness :
    (3 : Nat) < 9 ∧ volslide_state.prev_vol 3 < 256
    ∧ (volslide_state.effects 3).volslide ≠ 0
    ∧ -128 ≤ (volslide_state.effects 3).volslide
    ∧ (volslide_state.effects 3).volslide ≤ 127
    ∧ get_volume volslide_state 3 = 58
    ∧ (get_volume (doeffects volslide_state) 3 : Int)
        = min 63 (max 0 ((get_volume volslide_state 3 : Int)
            + (volslide_state.effects 3).volslide)) :=
  ⟨by decide, by decide, by decide, by decide, by decide, by decide,
    (doeffects_volslide_clamps volslide_state 3 (by decide) (by decide) (by decide)
      (by decide) (by decide)).1⟩

/-- C7: for every channel, octave, note, instrument and parameter `p`,
`do_note` returns `1 + p` for command 13 (jump-to-line) and 0 for every other
command id. -/
theorem do_note_result (s : State) (chan oct note cmd p inst : Nat) :
    (do_note s chan oct note cmd p inst).2 = if cmd = 13 then 1 + p else 0 := by
  unfold do_note
  by_cases hn : note ≠ 0
  · rw [if_pos hn]
    by_cases h3 : cmd = CMD_TONESLIDE
    · rw [if_pos h3]
      have : cmd ≠ 13 := by rw [h3]; decide
      rw [if_neg this]
    · rw [if_neg h3]
      exact do_cmd_result _ _ _ _
  · rw [if_neg hn]
    exact do_cmd_result _ _ _ _


/-- C4, the code at a failing input: channel 0 sounds at linear frequency 66
and a tone slide to target 43 with step 100 is armed, no portamento.  One run
of `doeffects` (one being the number of runs after which the slide should have
arrived) leaves the linear frequency at -34, below the target, and the
tone-slide flag still set: the overshoot test `lfreq <= toneslide_freq[chan]`
compares the negative `short` as an unsigned value. -/
theorem toneslide_underflow :
    get_linear_freq slide_state 0 = 66 ∧ slide_state.toneslide_freq 0 = 43
    ∧ slide_state.toneslide_speed 0 = 100 ∧ (slide_state.effects 0).toneslide = 1
    ∧ (slide_state.effects 0).portslide = 0
    ∧ get_linear_freq (doeffects slide_state) 0 = -34
    ∧ ((doeffects slide_state).effects 0).toneslide = 1 := by
  decide

/-- C6, the code at a failing input: the only event of pattern 0 is a
jump-to-line with parameter 0, so `do_note` returns 1, and line 0 of the
destination pattern 1 starts at offset 5.  With any fuel of at least 2 the tick
ends with order position 1, pattern 1, the cursor at offset 7 (inside the event
of line 0) and the logical line counter 1, not with the cursor on line 0
(offset 5) and the counter 0. -/
theorem line_jump_lands_late (fuel : Nat) :
    (read_event jump_module.data 1).cmd = 13 ∧ (read_event jump_module.data 1).param = 0
    ∧ jump_module.patoff 1 = 5 ∧ jump_module.data 5 &&& 0x7F = 0
    ∧ (play (fuel + 2) jump_module).map cursor = some [1, 1, 7, 1, 5, 1] := by
  refine ⟨by decide, by decide, by decide, by decide, ?_⟩
  exact map_of_mono cursor (play 2 jump_module) _
    (fun r h => play_mono 2 (fuel + 2) _ r (by omega) h) _ (by decide)

/-- C8, as amended: with order list `[0, 0x82, 1]` and playback at order
position 0, the pattern-end advance of `play` resolves the jump marker before
using it as a pattern index: with any fuel of at least 2 the tick ends with
order position 2, pattern 1 as the current pattern, the cursor at the offset of
pattern 1 and line counter 0. -/
theorem play_marker82 (fuel : Nat) :
    (play (fuel + 2) (two_pattern_module [0, 0x82, 1])).map cursor
      = some [2, 1, 4, 0, 5, 1] :=
  map_of_mono cursor (play 2 (two_pattern_module [0, 0x82, 1])) _
    (fun r h => play_mono 2 (fuel + 2) _ r (by omega) h) _ (by decide)

/-- C8, counterexample: with order list `[0, 0x81, 1]` and playback at order
position 0, the tick of `play` that reaches the end of pattern 0 produces no
result with any fuel: the marker at order position 1 names position 1. -/
theorem play_marker81_hangs :
    ¬ ∃ fuel, (play fuel (two_pattern_module [0, 0x81, 1])).isSome = true := by
  rintro ⟨fuel, h⟩
  rw [play_marker81] at h
  exact absurd h (by decide)

/-- C9, as amended: for the loaded module with the one-entry order list `[0]`
whose pattern 0 is a single last line 0 with one event (channel 0, a note
1..12, instrument 1) and initial speed 6, with any fuel of at least 1: the first
tick of `play` writes exactly the key-off, the 11 registers of instrument 1 and
the two note registers of channel 0, and leaves the cursor at the start of
pattern 0 again with order position 1; the next five ticks write nothing and
count the countdown to 0; the seventh tick, the next one to process a line,
writes the same key-off, instrument and note again, leaves the cursor at the
start of pattern 0 (not the sentinel) and `running` at 1. -/
theorem one_line_module_replays (fuel oct note : Nat) (ho : oct ≤ 7) (h1 : 1 ≤ note)
    (h2 : note ≤ 12) :
    (play (fuel + 1) (one_line_module oct note)).map (fun s => (s.writes, cursor s))
      = some (trigger_writes (one_line_module oct note) oct note, [1, 0, 0, 0, 5, 1])
    ∧ (play_n (fuel + 1) 6 (one_line_module oct note)).map (fun s => (s.writes, cursor s))
      = some (trigger_writes (one_line_module oct note) oct note, [1, 0, 0, 0, 0, 1])
    ∧ (play_n (fuel + 1) 7 (one_line_module oct note)).map (fun s => (s.writes, cursor s))
      = (play (fuel + 1) (one_line_module oct note)).map
        (fun s => (trigger_writes s oct note, [2, 0, 0, 0, 5, 1])) := by
  obtain ⟨a1, a2, a3⟩ := one_line_module_fuel1 oct note ho h1 h2
  have m1 : ∀ r, play 1 (one_line_module oct note) = some r →
      play (fuel + 1) (one_line_module oct note) = some r :=
    fun r h => play_mono 1 (fuel + 1) _ r (by omega) h
  have mn : ∀ n r, play_n 1 n (one_line_module oct note) = some r →
      play_n (fuel + 1) n (one_line_module oct note) = some r :=
    fun n r h => play_n_mono 1 (fuel + 1) n _ r (by omega) h
  refine ⟨map_of_mono _ _ _ m1 _ a1, map_of_mono _ _ _ (mn 6) _ a2, ?_⟩
  obtain ⟨r1, hr1⟩ : ∃ r1, play 1 (one_line_module oct note) = some r1 := by
    cases hp : play 1 (one_line_module oct note) with
    | none => rw [hp] at a1; exact absurd a1 (by simp)
    | some r1 => exact ⟨r1, rfl⟩
  rw [hr1] at a3
  rw [m1 r1 hr1]
  exact map_of_mono _ _ _ (mn 7) _ a3

/-- C9, witness: octave 3, note 12 (C), fuel 1. -/
theorem one_line_module_replays_witness :
    (3 : Nat) ≤ 7 ∧ (1 : Nat) ≤ 12 ∧ (12 : Nat) ≤ 12
    ∧ (play (0 + 1) (one_line_module 3 12)).map (fun s => (s.writes, cursor s))
      = some (trigger_writes (one_line_module 3 12) 3 12, [1, 0, 0, 0, 5, 1]) :=
  ⟨by decide, by decide, by decide,
    (one_line_module_replays 0 3 12 (by decide) (by decide) (by decide)).1⟩

/-- C9, counterexample: for octave 3, note 12 the seventh tick, the
line-processing tick that follows the first, does not end with the cursor at
the sentinel and `running` 0; it ends with the cursor at offset 0, `running`
1, and the note registers written a second time. -/
theorem one_line_module_not_stopped :
    ¬ ((play_n 1 7 (one_line_module 3 12)).map (fun s => (s.patpos, s.running))
        = some (0xFFFF, 0))
    ∧ (play_n 1 7 (one_line_module 3 12)).map (fun s => (s.patpos, s.running, s.writes))
        = some (0, 1,
            [(0xB0, 0x00), (0x23, 0x21), (0x20, 0x01), (0x43, 0x8F), (0x40, 0x40),
             (0x63, 0xF2), (0x60, 0xF1), (0x83, 0x53), (0x80, 0x74), (0xE3, 0x01),
             (0xE0, 0x00), (0xC0, 0x0E), (0xA0, 0xAE), (0xB0, 0x2E),
             (0xB0, 0x0E), (0x23, 0x21), (0x20, 0x01), (0x43, 0x8F), (0x40, 0x40),
             (0x63, 0xF2), (0x60, 0xF1), (0x83, 0x53), (0x80, 0x74), (0xE3, 0x01),
             (0xE0, 0x00), (0xC0, 0x0E), (0xA0, 0xAE), (0xB0, 0x2E)]) := by
  decide

/-- C10: if the stream cursor `patpos` equals the sentinel 0xFFFF, one tick of
`play` appends the writes of 0 to every chip register 0..255, in ascending
order, sets `running` to 0 and changes nothing else, whatever the fuel; the
resulting state again has the cursor on the sentinel, so every later tick
finds the sentinel and leaves `running` at 0. -/
theorem play_sentinel (fuel : Nat) (s : State) (h : s.patpos = 0xFFFF) :
    play fuel s = some { s with running := 0, writes := s.writes ++ clr_writes }
    ∧ clr_writes = (List.range 256).map (fun i => (i, 0))
    ∧ ∀ n, ∃ s1, play_n fuel (n + 1) s = some s1 ∧ s1.patpos = 0xFFFF ∧ s1.running = 0 :=
  ⟨play_at_sentinel fuel s h, rfl, fun n => play_n_at_sentinel fuel n s h⟩

/-- C10, witness: the running module `jump_module` with the cursor moved to the
sentinel. -/
theorem play_sentinel_witness :
    sentinel_state.patpos = 0xFFFF ∧ sentinel_state.running = 1
    ∧ (play 0 sentinel_state).map (fun s => (s.running, s.writes.length)) = some (0, 256) :=
  ⟨rfl, rfl, by rw [(play_sentinel 0 sentinel_state rfl).1]; rfl⟩

/-! ## Key-off, instrument load and the command switch -/

theorem keyoff_byte : ∀ x < 256, (x &&& 0xFFDF) % 256 = x - x / 32 % 2 * 32 := by decide

theorem keyoff_bits : ∀ x < 256,
    (x &&& 0xFFDF) % 256 &&& 0x20 = 0 ∧ (x &&& 0xFFDF) % 256 &&& 0xDF = x &&& 0xDF := by
  decide

theorem set_note_keyoff_eq (s : State) (chan oct note : Nat) (h : 13 ≤ note) :
    set_note s chan oct note
      = { s with
          prev_freqhigh := upd s.prev_freqhigh chan ((s.prev_freqhigh chan &&& 0xFFDF) % 256),
          writes := s.writes ++ [((0xB0 + chan) % 256, (s.prev_freqhigh chan &&& 0xFFDF) % 256)] } := by
  have h0 : ¬ note = 0 := by omega
  have h13 : ¬ note < 13 := by omega
  simp only [set_note, if_neg h0, if_neg h13, al_write, upd_same, Nat.mod_mod]

theorem load_inst_eq (s : State) (i chan : Nat) (hc : chan < 9)
    (hb : ∀ b ∈ (s.insts i).bytes, b < 256) :
    load_inst s i chan
      = { s with prev_vol := upd s.prev_vol chan (s.insts i).r43,
                 writes := s.writes ++ inst_writes (s.insts i) chan } := by
  have hch := al_choff_lt chan hc
  simp only [INST.bytes, List.mem_cons, List.mem_singleton, List.not_mem_nil, or_false,
    forall_eq_or_imp, forall_eq] at hb
  obtain ⟨b0, b1, b2, b3, b4, b5, b6, b7, b8, b9, b10⟩ := hb
  simp only [load_inst, al_write, inst_writes, INST.bytes, List.map, List.zip, List.zipWith,
    List.getD, List.get?, Option.getD, List.append_assoc, List.cons_append, List.nil_append,
    List.singleton_append]
  rw [Nat.mod_eq_of_lt b0, Nat.mod_eq_of_lt b1, Nat.mod_eq_of_lt b2, Nat.mod_eq_of_lt b3,
    Nat.mod_eq_of_lt b4, Nat.mod_eq_of_lt b5, Nat.mod_eq_of_lt b6, Nat.mod_eq_of_lt b7,
    Nat.mod_eq_of_lt b8, Nat.mod_eq_of_lt b9, Nat.mod_eq_of_lt b10]
  rw [Nat.mod_eq_of_lt (show 0x23 + al_choff chan < 256 by omega),
    Nat.mod_eq_of_lt (show 0x20 + al_choff chan < 256 by omega),
    Nat.mod_eq_of_lt (show 0x43 + al_choff chan < 256 by omega),
    Nat.mod_eq_of_lt (show 0x40 + al_choff chan < 256 by omega),
    Nat.mod_eq_of_lt (show 0x63 + al_choff chan < 256 by omega),
    Nat.mod_eq_of_lt (show 0x60 + al_choff chan < 256 by omega),
    Nat.mod_eq_of_lt (show 0x83 + al_choff chan < 256 by omega),
    Nat.mod_eq_of_lt (show 0x80 + al_choff chan < 256 by omega),
    Nat.mod_eq_of_lt (show 0xE3 + al_choff chan < 256 by omega),
    Nat.mod_eq_of_lt (show 0xE0 + al_choff chan < 256 by omega),
    Nat.mod_eq_of_lt (show 0xC0 + chan < 256 by omega)]

theorem do_cmd_unknown (s : State) (chan cmd p : Nat)
    (h : cmd ∉ [1, 2, 3, 5, 10, 12, 13, 15]) : do_cmd s chan cmd p = (s, 0) := by
  simp only [List.mem_cons, List.mem_singleton, List.not_mem_nil, not_or, or_false] at h
  obtain ⟨h1, h2, h3, h5, h10, h12, h13, h15⟩ := h
  unfold do_cmd
  simp only [CMD_PORTUP, CMD_PORTDN, CMD_TONESLIDE, CMD_TONEVOLSLIDE, CMD_VOLSLIDE, CMD_SETVOL,
    CMD_JMPLINE, CMD_SETSPEED]
  rw [if_neg h1, if_neg h2, if_neg h3, if_neg (by omega), if_neg h12, if_neg h13, if_neg h15]

theorem do_cmd_writes_grow (s : State) (chan cmd p : Nat) :
    s.writes <+: (do_cmd s chan cmd p).1.writes := by
  unfold do_cmd
  split_ifs <;>
    first
    | exact List.prefix_refl _
    | exact List.prefix_append _ _

/-! ## The note trigger of `do_note` -/

theorem set_note_frame (s : State) (chan oct note : Nat) :
    (set_note s chan oct note).effects = s.effects
    ∧ (set_note s chan oct note).prev_vol = s.prev_vol
    ∧ (set_note s chan oct note).insts = s.insts
    ∧ (set_note s chan oct note).toneslide_speed = s.toneslide_speed
    ∧ (set_note s chan oct note).toneslide_freq = s.toneslide_freq := by
  unfold set_note
  split_ifs <;> exact ⟨rfl, rfl, rfl, rfl, rfl⟩

theorem set_note_bytes (s : State) (chan oct note : Nat) (hlo : s.prev_freqlow chan < 256)
    (hhi : s.prev_freqhigh chan < 256) :
    (set_note s chan oct note).prev_freqlow chan < 256
    ∧ (set_note s chan oct note).prev_freqhigh chan < 256 := by
  unfold set_note
  split_ifs
  · exact ⟨hlo, hhi⟩
  · simp only [al_write, upd_same]
    exact ⟨Nat.mod_lt _ (by norm_num), Nat.mod_lt _ (by norm_num)⟩
  · simp only [al_write, upd_same]
    exact ⟨hlo, Nat.mod_lt _ (by norm_num)⟩

theorem load_inst_frame (s : State) (i chan : Nat) :
    (load_inst s i chan).effects = s.effects
    ∧ (load_inst s i chan).prev_freqlow = s.prev_freqlow
    ∧ (load_inst s i chan).prev_freqhigh = s.prev_freqhigh
    ∧ (load_inst s i chan).toneslide_speed = s.toneslide_speed
    ∧ (load_inst s i chan).toneslide_freq = s.toneslide_freq := by
  simp [load_inst, al_write]

/-- The state in which `do_note` runs the `switch (cmd)` when the command is
not slide-to-note: after the note trigger, if there is a note. -/
theorem do_note_eq_do_cmd (s : State) (chan oct note cmd param inst : Nat)
    (hcmd : cmd ≠ CMD_TONESLIDE) :
    ∃ t, do_note s chan oct note cmd param inst = do_cmd t chan cmd param
      ∧ t.effects = s.effects
      ∧ (s.prev_freqlow chan < 256 → s.prev_freqhigh chan < 256 →
          t.prev_freqlow chan < 256 ∧ t.prev_freqhigh chan < 256) := by
  unfold do_note
  by_cases hn : note ≠ 0
  · rw [if_pos hn, if_neg hcmd]
    refine ⟨_, rfl, ?_, ?_⟩
    · rw [(set_note_frame _ _ _ _).1]
      split_ifs
      · rw [(load_inst_frame _ _ _).1, (set_note_frame _ _ _ _).1]
      · rw [(set_note_frame _ _ _ _).1]
    · intro hlo hhi
      apply set_note_bytes
      · split_ifs
        · rw [(load_inst_frame _ _ _).2.1]; exact (set_note_bytes s chan oct 15 hlo hhi).1
        · exact (set_note_bytes s chan oct 15 hlo hhi).1
      · split_ifs
        · rw [(load_inst_frame _ _ _).2.2.1]; exact (set_note_bytes s chan oct 15 hlo hhi).2
        · exact (set_note_bytes s chan oct 15 hlo hhi).2
  · rw [if_neg hn]
    exact ⟨s, rfl, rfl, fun hlo hhi => ⟨hlo, hhi⟩⟩

theorem do_cmd_volslide (s : State) (chan p : Nat) :
    ((do_cmd s chan CMD_VOLSLIDE p).1.effects chan).volslide
      = toSchar (if p < 50 then -(p : Int) else (p : Int) - 50) := by
  simp [do_cmd, CMD_PORTUP, CMD_PORTDN, CMD_TONESLIDE, CMD_TONEVOLSLIDE, CMD_VOLSLIDE,
    set_effects, upd_same]

/-! ## One channel through the effects engine -/

theorem get_linear_freq_congr (s t : State) (chan : Nat)
    (h1 : t.prev_freqlow chan = s.prev_freqlow chan)
    (h2 : t.prev_freqhigh chan = s.prev_freqhigh chan) :
    get_linear_freq t chan = get_linear_freq s chan := by
  simp only [get_linear_freq, h1, h2]

theorem set_linear_freq_other (s : State) (chan c : Nat) (l : Int) (h : c ≠ chan) :
    chan_state (set_linear_freq s chan l) c = chan_state s c := by
  simp [chan_state, set_linear_freq, al_write, upd, h]

theorem set_linear_freq_keeps (s : State) (chan : Nat) (l : Int) :
    (set_linear_freq s chan l).effects = s.effects
    ∧ (set_linear_freq s chan l).prev_vol = s.prev_vol
    ∧ (set_linear_freq s chan l).toneslide_speed = s.toneslide_speed
    ∧ (set_linear_freq s chan l).toneslide_freq = s.toneslide_freq := by
  simp [set_linear_freq, al_write]

theorem set_linear_freq_bytes (s : State) (chan : Nat) (l : Int) :
    (set_linear_freq s chan l).prev_freqlow chan < 256
    ∧ (set_linear_freq s chan l).prev_freqhigh chan < 256 := by
  simp only [set_linear_freq, al_write, upd_same]
  exact ⟨Nat.mod_lt _ (by norm_num), Nat.mod_lt _ (by norm_num)⟩

theorem set_volume_other (s : State) (chan c v : Nat) (h : c ≠ chan) :
    chan_state (set_volume s chan v) c = chan_state s c := by
  simp [chan_state, set_volume, al_write, upd, h]

theorem set_volume_keeps (s : State) (chan v : Nat) :
    (set_volume s chan v).effects = s.effects
    ∧ (set_volume s chan v).prev_freqlow = s.prev_freqlow
    ∧ (set_volume s chan v).prev_freqhigh = s.prev_freqhigh
    ∧ (set_volume s chan v).toneslide_speed = s.toneslide_speed
    ∧ (set_volume s chan v).toneslide_freq = s.toneslide_freq := by
  simp [set_volume, al_write]

theorem effect_portslide_other (s : State) (chan c : Nat) (h : c ≠ chan) :
    chan_state (effect_portslide s chan) c = chan_state s c := by
  unfold effect_portslide
  split_ifs
  · exact set_linear_freq_other _ _ _ _ h
  · rfl

theorem effect_toneslide_other (s : State) (chan c : Nat) (h : c ≠ chan) :
    chan_state (effect_toneslide s chan) c = chan_state s c := by
  have hd : chan_state (set_effects s chan { (s.effects chan) with toneslide := 0 }) c
      = chan_state s c := by
    simp [chan_state, set_effects, upd, h]
  unfold effect_toneslide
  simp only []
  split_ifs <;>
    first
    | rfl
    | exact set_linear_freq_other _ _ _ _ h
    | exact (set_linear_freq_other _ _ _ _ h).trans hd

theorem effect_volslide_other (s : State) (chan c : Nat) (h : c ≠ chan) :
    chan_state (effect_volslide s chan) c = chan_state s c := by
  unfold effect_volslide
  split_ifs
  · exact set_volume_other _ _ _ _ h
  · rfl

theorem doeffects_chan_other (s : State) (chan c : Nat) (h : c ≠ chan) :
    chan_state (doeffects_chan s chan) c = chan_state s c := by
  unfold doeffects_chan
  rw [effect_volslide_other _ _ _ h, effect_toneslide_other _ _ _ h,
    effect_portslide_other _ _ _ h]

theorem foldl_doeffects_other (l : List Nat) (s : State) (c : Nat) (h : c ∉ l) :
    chan_state (l.foldl doeffects_chan s) c = chan_state s c := by
  induction l generalizing s with
  | nil => rfl
  | cons a l ih =>
    have ha : c ≠ a := fun e => h (e ▸ List.mem_cons_self _ _)
    rw [List.foldl_cons, ih _ (fun e => h (List.mem_cons_of_mem _ e)),
      doeffects_chan_other _ _ _ ha]

/-- What `doeffects` does to a channel is what the loop body for that channel
does, entered in a state in which the channel is as it was at the start. -/
theorem foldl_doeffects_chan (l : List Nat) (hnd : l.Nodup) (s : State) (chan : Nat)
    (hmem : chan ∈ l) :
    ∃ t, chan_state t chan = chan_state s chan
      ∧ chan_state (l.foldl doeffects_chan s) chan = chan_state (doeffects_chan t chan) chan := by
  induction l generalizing s with
  | nil => exact absurd hmem (List.not_mem_nil _)
  | cons a l ih =>
    rw [List.foldl_cons]
    obtain ⟨hal, hl⟩ := List.nodup_cons.mp hnd
    by_cases ha : chan = a
    · subst ha
      exact ⟨s, rfl, foldl_doeffects_other l _ chan hal⟩
    · have hm : chan ∈ l := by
        rcases List.mem_cons.mp hmem with h | h
        · exact absurd h ha
        · exact h
      obtain ⟨t, h1, h2⟩ := ih hl (doeffects_chan s a) hm
      exact ⟨t, h1.trans (doeffects_chan_other s a chan ha), h2⟩

theorem doeffects_chan_view (s : State) (chan : Nat) (hc : chan < 9) :
    ∃ t, chan_state t chan = chan_state s chan
      ∧ chan_state (doeffects s) chan = chan_state (doeffects_chan t chan) chan :=
  foldl_doeffects_chan (List.range CHANS) (List.nodup_range _) s chan (List.mem_range.mpr hc)

theorem chan_state_eq (s t : State) (chan : Nat) (h : chan_state t chan = chan_state s chan) :
    t.prev_freqlow chan = s.prev_freqlow chan ∧ t.prev_freqhigh chan = s.prev_freqhigh chan
    ∧ t.prev_vol chan = s.prev_vol chan ∧ t.effects chan = s.effects chan
    ∧ t.toneslide_speed chan = s.toneslide_speed chan
    ∧ t.toneslide_freq chan = s.toneslide_freq chan := by
  simpa [chan_state] using h

/-- The linear frequency and shadow bytes after `set_linear_freq` with a value
in range. -/
theorem linear_set_get (s : State) (chan n : Nat) (hhi : s.prev_freqhigh chan < 256)
    (hn : n < 2752) :
    get_linear_freq (set_linear_freq s chan (n : Int)) chan = (n : Int)
    ∧ (set_linear_freq s chan (n : Int)).prev_freqhigh chan &&& 0x20
        = s.prev_freqhigh chan &&& 0x20 := by
  obtain ⟨hlo', hhi'⟩ := set_linear_freq_shadow s chan n hhi hn
  obtain ⟨hl, hh⟩ := set_linear_freq_bytes s chan (n : Int)
  constructor
  · rw [get_linear_freq_eq _ _ hl hh, freq_word, hlo', hhi']
    omega
  · rw [and_20 _ hh, and_20 _ hhi, hhi', linear_word_keyon _ _ hhi hn]

/-- The loop body of `doeffects` for a channel with a portamento and no tone
slide armed. -/
theorem doeffects_chan_portslide (t : State) (chan : Nat) (d : Int)
    (hd : (t.effects chan).portslide = d) (hd0 : d ≠ 0) (hd1 : -128 ≤ d) (hd2 : d ≤ 127)
    (ht : (t.effects chan).toneslide = 0) (hhi : t.prev_freqhigh chan < 256) :
    (doeffects_chan t chan).effects chan = t.effects chan
    ∧ (doeffects_chan t chan).prev_freqlow chan < 256
    ∧ (doeffects_chan t chan).prev_freqhigh chan < 256
    ∧ (0 ≤ get_linear_freq t chan + d → get_linear_freq t chan + d < 2752 →
        get_linear_freq (doeffects_chan t chan) chan = get_linear_freq t chan + d
        ∧ (doeffects_chan t chan).prev_freqhigh chan &&& 0x20
            = t.prev_freqhigh chan &&& 0x20) := by
  have hp : effect_portslide t chan
      = set_linear_freq t chan (toShort (get_linear_freq t chan + toShort d)) := by
    unfold effect_portslide
    rw [hd, if_pos hd0]
  obtain ⟨k1, -, -, -⟩ := set_linear_freq_keeps t chan
    (toShort (get_linear_freq t chan + toShort d))
  have ht2 : effect_toneslide (effect_portslide t chan) chan = effect_portslide t chan := by
    unfold effect_toneslide
    rw [hp, k1, ht]
    simp
  have hv : (effect_volslide (effect_portslide t chan) chan).effects
        = (effect_portslide t chan).effects
      ∧ (effect_volslide (effect_portslide t chan) chan).prev_freqlow
        = (effect_portslide t chan).prev_freqlow
      ∧ (effect_volslide (effect_portslide t chan) chan).prev_freqhigh
        = (effect_portslide t chan).prev_freqhigh := by
    unfold effect_volslide
    split_ifs
    · obtain ⟨a, b, c, -, -⟩ := set_volume_keeps (effect_portslide t chan) chan
        (toUchar (if toShort (↑(get_volume (effect_portslide t chan) chan)
          + ((effect_portslide t chan).effects chan).volslide) < 0 then 0
          else toShort (↑(get_volume (effect_portslide t chan) chan)
          + ((effect_portslide t chan).effects chan).volslide)))
      exact ⟨a, b, c⟩
    · exact ⟨rfl, rfl, rfl⟩
  obtain ⟨v1, v2, v3⟩ := hv
  obtain ⟨b1, b2⟩ := set_linear_freq_bytes t chan (toShort (get_linear_freq t chan + toShort d))
  have e : doeffects_chan t chan = effect_volslide (effect_portslide t chan) chan := by
    unfold doeffects_chan
    rw [ht2]
  refine ⟨by rw [e, v1, hp, k1], by rw [e, v2, hp]; exact b1, by rw [e, v3, hp]; exact b2, ?_⟩
  intro h0 h1
  have hs : toShort (get_linear_freq t chan + toShort d) = get_linear_freq t chan + d := by
    have : toShort d = d := by unfold toShort; omega
    rw [this]
    unfold toShort
    omega
  obtain ⟨n, hn⟩ : ∃ n : Nat, (n : Int) = get_linear_freq t chan + d :=
    ⟨(get_linear_freq t chan + d).toNat, by omega⟩
  obtain ⟨g1, g2⟩ := linear_set_get t chan n hhi (by omega)
  have gl : get_linear_freq (doeffects_chan t chan) chan
      = get_linear_freq (set_linear_freq t chan (n : Int)) chan := by
    apply get_linear_freq_congr
    · rw [e, v2, hp, hs, hn]
    · rw [e, v3, hp, hs, hn]
  constructor
  · rw [gl, g1, hn]
  · rw [e, v3, hp, hs, ← hn]
    exact g2

/-- One run of `doeffects` on a channel with a portamento and no tone slide
armed: the effect fields stay, the shadow bytes stay bytes, and the linear
frequency moves by the delta when the result is in range. -/
theorem doeffects_portslide_step (t : State) (chan : Nat) (d : Int) (hc : chan < 9)
    (hd : (t.effects chan).portslide = d) (hd0 : d ≠ 0) (hd1 : -128 ≤ d) (hd2 : d ≤ 127)
    (ht : (t.effects chan).toneslide = 0) (hhi : t.prev_freqhigh chan < 256) :
    (doeffects t).effects chan = t.effects chan
    ∧ (doeffects t).prev_freqhigh chan < 256
    ∧ (0 ≤ get_linear_freq t chan + d → get_linear_freq t chan + d < 2752 →
        get_linear_freq (doeffects t) chan = get_linear_freq t chan + d
        ∧ (doeffects t).prev_freqhigh chan &&& 0x20 = t.prev_freqhigh chan &&& 0x20) := by
  obtain ⟨u, hu, hv⟩ := doeffects_chan_view t chan hc
  obtain ⟨u1, u2, -, u4, -, -⟩ := chan_state_eq t u chan hu
  obtain ⟨w1, w2, -, w4, -, -⟩ := chan_state_eq _ _ chan hv
  obtain ⟨r1, -, r3, r4⟩ := doeffects_chan_portslide u chan d (by rw [u4]; exact hd) hd0 hd1 hd2
    (by rw [u4]; exact ht) (by rw [u2]; exact hhi)
  have gu : get_linear_freq u chan = get_linear_freq t chan := get_linear_freq_congr t u chan u1 u2
  have gd : get_linear_freq (doeffects t) chan = get_linear_freq (doeffects_chan u chan) chan :=
    get_linear_freq_congr _ _ chan w1 w2
  refine ⟨by rw [w4, r1, u4], by rw [w2]; exact r3, ?_⟩
  intro h0 h1
  obtain ⟨q1, q2⟩ := r4 (by rw [gu]; exact h0) (by rw [gu]; exact h1)
  exact ⟨by rw [gd, q1, gu], by rw [w2, q2, u2]⟩

theorem doeffects_portslide_iter (t : State) (chan : Nat) (d : Int) (k : Nat) (hc : chan < 9)
    (hd : (t.effects chan).portslide = d) (hd0 : d ≠ 0) (hd1 : -128 ≤ d) (hd2 : d ≤ 127)
    (ht : (t.effects chan).toneslide = 0) (hhi : t.prev_freqhigh chan < 256) :
    ((doeffects^[k] t).effects chan).portslide = d
    ∧ ((doeffects^[k] t).effects chan).toneslide = 0
    ∧ (doeffects^[k] t).prev_freqhigh chan < 256 := by
  induction k generalizing t with
  | zero => exact ⟨hd, ht, hhi⟩
  | succ k ih =>
    rw [Function.iterate_succ_apply]
    obtain ⟨a, b, -⟩ := doeffects_portslide_step t chan d hc hd hd0 hd1 hd2 ht hhi
    exact ih (doeffects t) (by rw [a]; exact hd) (by rw [a]; exact ht) b

theorem do_cmd_port (t : State) (chan p : Nat) :
    (do_cmd t chan CMD_PORTUP p).1.effects chan
        = { (t.effects chan) with portslide := toSchar p }
    ∧ (do_cmd t chan CMD_PORTUP p).1.prev_freqlow = t.prev_freqlow
    ∧ (do_cmd t chan CMD_PORTUP p).1.prev_freqhigh = t.prev_freqhigh
    ∧ (do_cmd t chan CMD_PORTDN p).1.effects chan
        = { (t.effects chan) with portslide := toSchar (-(toSchar p)) }
    ∧ (do_cmd t chan CMD_PORTDN p).1.prev_freqlow = t.prev_freqlow
    ∧ (do_cmd t chan CMD_PORTDN p).1.prev_freqhigh = t.prev_freqhigh := by
  simp [do_cmd, CMD_PORTUP, CMD_PORTDN, set_effects, upd_same]

theorem do_note_port_state (s : State) (chan oct note p inst : Nat) (hp1 : 1 ≤ p)
    (hp2 : p ≤ 127) (hlo : s.prev_freqlow chan < 256) (hhi : s.prev_freqhigh chan < 256)
    (ht : (s.effects chan).toneslide = 0) :
    (((do_note s chan oct note CMD_PORTUP p inst).1.effects chan).portslide = p
      ∧ ((do_note s chan oct note CMD_PORTUP p inst).1.effects chan).toneslide = 0
      ∧ (do_note s chan oct note CMD_PORTUP p inst).1.prev_freqhigh chan < 256)
    ∧ (((do_note s chan oct note CMD_PORTDN p inst).1.effects chan).portslide = -(p : Int)
      ∧ ((do_note s chan oct note CMD_PORTDN p inst).1.effects chan).toneslide = 0
      ∧ (do_note s chan oct note CMD_PORTDN p inst).1.prev_freqhigh chan < 256) := by
  have hs1 : toSchar (p : Int) = p := by unfold toSchar; omega
  have hs2 : toSchar (-(p : Int)) = -(p : Int) := by unfold toSchar; omega
  constructor
  · obtain ⟨t, e, he, hb⟩ := do_note_eq_do_cmd s chan oct note CMD_PORTUP p inst (by decide)
    obtain ⟨c1, -, c3, -, -, -⟩ := do_cmd_port t chan p
    rw [e, c1, c3, he]
    exact ⟨hs1, ht, (hb hlo hhi).2⟩
  · obtain ⟨t, e, he, hb⟩ := do_note_eq_do_cmd s chan oct note CMD_PORTDN p inst (by decide)
    obtain ⟨-, -, -, c1, -, c3⟩ := do_cmd_port t chan p
    rw [e, c1, c3, he]
    refine ⟨?_, ht, (hb hlo hhi).2⟩
    show toSchar (-(toSchar (p : Int))) = -(p : Int)
    rw [hs1, hs2]

/-! ## The loader -/

theorem getD_take (l : List Nat) (n i : Nat) (h : i < n) : (l.take n).getD i 0 = l.getD i 0 := by
  simp [List.getD_eq_getElem?_getD, List.getElem?_take, h]

theorem getD_drop (l : List Nat) (n i : Nat) : (l.drop n).getD i 0 = l.getD (n + i) 0 := by
  simp [List.getD_eq_getElem?_getD, List.getElem?_drop]

/-- Reading on: if the unread bytes are a prefix followed by a tail, the tail
is what is left of the file after the prefix. -/
theorem drop_of_read (file pre tail : List Nat) (pos : Nat)
    (h : pre ++ tail = file.drop pos) : tail = file.drop (pos + pre.length) := by
  rw [← List.drop_drop, ← h, List.drop_left]

theorem fread_stream (file : List Nat) (fp : FILE) (n : Nat)
    (h : fp.rest = file.drop fp.pos) :
    (fread fp n).2.rest = file.drop (fread fp n).2.pos := by
  simp only [fread]
  apply drop_of_read
  rw [List.take_append_drop]
  exact h

theorem print_desc_loop_stream (file rest : List Nat) (pos : Nat)
    (h : rest = file.drop pos) :
    (print_desc_loop rest pos).rest = file.drop (print_desc_loop rest pos).pos := by
  induction rest generalizing pos with
  | nil => simpa [print_desc_loop] using h
  | cons ch rest ih =>
    have h1 : rest = file.drop (pos + 1) := drop_of_read file [ch] rest pos h
    rw [print_desc_loop]
    split_ifs
    · exact h1
    · exact ih _ h1

theorem read_insts_loop_stream (file rest : List Nat) (pos : Nat) (insts : Nat → INST)
    (r : (Nat → INST) × FILE) (h : rest = file.drop pos)
    (hr : read_insts_loop rest pos insts = .ok r) : r.2.rest = file.drop r.2.pos := by
  induction rest, pos, insts using read_insts_loop.induct with
  | case1 pos insts =>
    rw [read_insts_loop] at hr
    rw [← Except.ok.inj hr]
    exact h
  | case2 b0 b1 b2 b3 b4 b5 b6 b7 b8 b9 b10 rest pos insts =>
    rw [read_insts_loop, if_pos rfl] at hr
    rw [← Except.ok.inj hr]
    exact drop_of_read file [0] _ pos h
  | case3 ch b0 b1 b2 b3 b4 b5 b6 b7 b8 b9 b10 rest pos insts hch ih =>
    rw [read_insts_loop, if_neg hch] at hr
    exact ih (drop_of_read file [ch, b0, b1, b2, b3, b4, b5, b6, b7, b8, b9, b10] rest pos h) hr
  | case4 short pos insts hs =>
    rw [read_insts_loop, if_pos rfl] at hr
    · rw [← Except.ok.inj hr]
      exact drop_of_read file [0] _ pos h
    · exact hs
  | case5 ch short pos insts hs hch =>
    rw [read_insts_loop, if_neg hch] at hr
    · exact absurd hr (by simp)
    · exact hs

theorem slow_bit : ∀ b < 256, (if b &&& 0x40 ≠ 0 then 1 else 0) = b / 64 % 2 := by decide

theorem load_tables_error (malloc : Nat → Bool) (flags : Nat) (fp : FILE) (s : State) (e : Int)
    (h : load_tables malloc flags fp s = .error e) : e = -2 := by
  unfold load_tables at h
  simp only [] at h
  split at h
  · exact (Except.error.inj h).symm
  · split at h
    · exact (Except.error.inj h).symm
    · split at h
      · exact (Except.error.inj h).symm
      · split at h
        · exact (Except.error.inj h).symm
        · exact absurd h (by simp)

theorem load_body_error (malloc : Nat → Bool) (flags : Nat) (fp : FILE) (s : State) (e : Int)
    (h : load_body malloc flags fp s = .error e) : e = -2 := by
  unfold load_body at h
  split at h
  · rename_i e' he
    rw [← Except.error.inj h]
    exact load_tables_error _ _ _ _ _ he
  · exact absurd h (by simp)

theorem load_file_header (malloc : Nat → Bool) (file : List Nat) (s : State) :
    (bad_header file → load_file malloc file s = .error 2)
    ∧ (¬ bad_header file → load_file malloc file s
        = load_body malloc (file.getD 0x11 0) ⟨file.drop 18, 18⟩
            { s with speed := file.getD 0x11 0 &&& 0x1F,
                     slow := if file.getD 0x11 0 &&& 0x40 ≠ 0 then 1 else 0 }) := by
  have hlen : (List.take 18 file).length = min 18 file.length := List.length_take _ _
  have g0 := getD_take file 18 0 (by norm_num)
  have g1 := getD_take file 18 1 (by norm_num)
  have g2 := getD_take file 18 2 (by norm_num)
  have g16 := getD_take file 18 0x10 (by norm_num)
  have g17 := getD_take file 18 0x11 (by norm_num)
  unfold bad_header load_file
  simp only [fread, fopen, HEADLEN, g0, g1, g2, g16, g17, hlen]
  constructor
  · intro hb
    by_cases h1 : 18 ≠ min 18 file.length
    · rw [if_pos h1]
    · rw [if_neg h1]
      by_cases h2 : file.getD 0 0 ≠ 0x52 ∨ file.getD 1 0 ≠ 0x41 ∨ file.getD 2 0 ≠ 0x44
      · rw [if_pos h2]
      · rw [if_neg h2]
        have h3 : file.getD 0x10 0 ≠ 0x10 := by
          rcases hb with h | h | h | h | h
          · omega
          · exact absurd (Or.inl h) h2
          · exact absurd (Or.inr (Or.inl h)) h2
          · exact absurd (Or.inr (Or.inr h)) h2
          · exact h
        rw [if_pos h3]
  · intro hb
    simp only [not_or, not_lt, ne_eq, not_not] at hb
    obtain ⟨h1, h2, h3, h4, h5⟩ := hb
    have hm : min 18 file.length = 18 := by omega
    have n1 : ¬ (18 ≠ 18) := by simp
    have n2 : ¬ (file.getD 0 0 ≠ 0x52 ∨ file.getD 1 0 ≠ 0x41 ∨ file.getD 2 0 ≠ 0x44) := by
      rw [h2, h3, h4]; simp
    have n3 : ¬ (file.getD 0x10 0 ≠ 0x10) := by rw [h5]; simp
    rw [hm, if_neg n1, if_neg n2, if_neg n3]

theorem read_insts_stream (file : List Nat) (fp : FILE) (s : State) (r : State × FILE)
    (h : fp.rest = file.drop fp.pos) (hr : read_insts fp s = .ok r) :
    r.2.rest = file.drop r.2.pos := by
  unfold read_insts at hr
  split at hr
  · exact absurd hr (by simp)
  · rename_i q hq
    rw [← Except.ok.inj hr]
    exact read_insts_loop_stream file _ _ _ q h hq

theorem read_orders_stream (file : List Nat) (fp : FILE) (s : State) (r : State × FILE)
    (h : fp.rest = file.drop fp.pos) (hr : read_orders fp s = .ok r) :
    r.2.rest = file.drop r.2.pos := by
  unfold read_orders at hr
  split at hr
  · exact absurd hr (by simp)
  · rename_i ch rest hrest
    simp only [] at hr
    split at hr
    · exact absurd hr (by simp)
    · rw [← Except.ok.inj hr]
      apply fread_stream file ⟨rest, fp.pos + 1⟩
      rw [hrest] at h
      exact drop_of_read file [ch] rest fp.pos h

theorem read_patoff_ok (file : List Nat) (fp : FILE) (s : State) (r : State × FILE)
    (h : fp.rest = file.drop fp.pos) (hr : read_patoff fp s = .ok r) :
    fp.pos + 64 ≤ file.length
    ∧ r.2.rest = file.drop (fp.pos + 64) ∧ r.2.pos = fp.pos + 64
    ∧ ∀ i, i < 32 → r.1.patoff i = file_patoff file fp.pos i := by
  unfold read_patoff at hr
  simp only [fread] at hr
  split at hr
  · exact absurd hr (by simp)
  · rename_i hlen
    have hl : (List.take 64 fp.rest).length = min 64 fp.rest.length := List.length_take _ _
    have hfl : fp.rest.length = file.length - fp.pos := by rw [h, List.length_drop]
    have h64 : 64 ≤ fp.rest.length := by
      rw [hl] at hlen
      omega
    rw [← Except.ok.inj hr]
    refine ⟨by omega, ?_, ?_, ?_⟩
    · show List.drop 64 fp.rest = _
      rw [h, List.drop_drop]
    · show fp.pos + (List.take 64 fp.rest).length = _
      rw [hl]
      omega
    · intro i hi
      show (if i < 32 then (List.take 64 fp.rest).getD (2 * i) 0
          + 256 * (List.take 64 fp.rest).getD (2 * i + 1) 0 else s.patoff i) = _
      rw [if_pos hi, getD_take _ _ _ (by omega), getD_take _ _ _ (by omega), h, getD_drop,
        getD_drop]
      simp only [file_patoff, Nat.add_assoc]

theorem read_data_ok (malloc : Nat → Bool) (fp : FILE) (s : State) (r : State × FILE)
    (hr : read_data malloc fp s = .ok r) :
    r.1.dataoff = fp.pos % 65536 ∧ r.1.data = (fun i => fp.rest.getD i 0)
    ∧ r.1.datalen = fp.rest.length ∧ r.1.patoff = s.patoff := by
  unfold read_data at hr
  simp only [fread] at hr
  split at hr
  · exact absurd hr (by simp)
  · split at hr
    · exact absurd hr (by simp)
    · rw [← Except.ok.inj hr]
      simp [List.take_length]

theorem foldl_fixup (l : List Nat) (hnd : l.Nodup) (s : State) :
    (l.foldl
      (fun st i =>
        if st.patoff i ≠ 0 then
          { st with patoff := upd st.patoff i (toUshort ((st.patoff i : Int) - st.dataoff)) }
        else st) s)
    = { s with patoff := fun i =>
          if i ∈ l ∧ s.patoff i ≠ 0 then toUshort ((s.patoff i : Int) - s.dataoff)
          else s.patoff i } := by
  induction l generalizing s with
  | nil => simp
  | cons a l ih =>
    obtain ⟨hal, hl⟩ := List.nodup_cons.mp hnd
    rw [List.foldl_cons, ih hl]
    by_cases h0 : s.patoff a ≠ 0
    · rw [if_pos h0]
      congr 1
      funext i
      by_cases hia : i = a
      · subst hia
        simp [upd, hal, h0]
      · simp [upd, hia]
    · rw [if_neg h0]
      congr 1
      funext i
      by_cases hia : i = a
      · subst hia
        simp [hal, h0]
      · simp [hia]

theorem fixup_patoff_eq (s : State) :
    fixup_patoff s
      = { s with patoff := fun i =>
            if i < 32 ∧ s.patoff i ≠ 0 then toUshort ((s.patoff i : Int) - s.dataoff)
            else s.patoff i } := by
  unfold fixup_patoff
  rw [foldl_fixup _ (List.nodup_range 32)]
  simp only [List.mem_range]

theorem load_tables_ok (malloc : Nat → Bool) (flags : Nat) (file : List Nat) (fp : FILE)
    (s : State) (r : State × FILE) (hfp : fp.rest = file.drop fp.pos)
    (h : load_tables malloc flags fp s = .ok r) :
    ∃ off, off + 64 ≤ file.length
      ∧ r.1.dataoff = (off + 64) % 65536
      ∧ (∀ i, i < 32 → r.1.patoff i = file_patoff file off i)
      ∧ r.1.data = (fun i => (file.drop (off + 64)).getD i 0)
      ∧ r.1.datalen = (file.drop (off + 64)).length := by
  unfold load_tables at h
  simp only [] at h
  have hfp0 : (if flags &&& 0x80 ≠ 0 then print_desc fp else fp).rest
      = file.drop (if flags &&& 0x80 ≠ 0 then print_desc fp else fp).pos := by
    split_ifs
    · exact print_desc_loop_stream file _ _ hfp
    · exact hfp
  split at h
  · exact absurd h (by simp)
  · rename_i r1 h1
    have s1 := read_insts_stream file _ _ r1 hfp0 h1
    split at h
    · exact absurd h (by simp)
    · rename_i r2 h2
      have s2 := read_orders_stream file _ _ r2 s1 h2
      split at h
      · exact absurd h (by simp)
      · rename_i r3 h3
        obtain ⟨p1, p2, p3, p4⟩ := read_patoff_ok file _ _ r3 s2 h3
        split at h
        · exact absurd h (by simp)
        · rename_i r4 h4
          obtain ⟨d1, d2, d3, d4⟩ := read_data_ok malloc _ _ r4 h4
          rw [← Except.ok.inj h]
          refine ⟨r2.2.pos, p1, ?_, ?_, ?_, ?_⟩
          · rw [d1, p3]
          · intro i hi
            rw [d4]
            exact p4 i hi
          · rw [d2, p2]
          · rw [d3, p2]

/-! ## The claims C11 to C20 -/

/-- C11, the code at a failing input: on channel 0, octave 0, note 1, the
slide-to-note branch of `do_note` arms the target 43, which is
`0 * OCTAVE + notefreq[1] - 0x156`, while `get_linear_freq` after
`set_note(0, 0, 1)` is 21, which is `0 * OCTAVE + notefreq[0] - 0x156`: the
macro `linearfreq` indexes the table with `note`, `set_note` with `note - 1`. -/
theorem toneslide_target_index :
    (do_note init 0 0 1 CMD_TONESLIDE 0 0).1.toneslide_freq 0 = 43
    ∧ get_linear_freq (set_note init 0 0 1) 0 = 21
    ∧ (0 * OCTAVE + notefreq (1 - 1) : Int) - 0x156 = 21
    ∧ (0 * OCTAVE + notefreq 1 : Int) - 0x156 = 43 := by
  decide

/-- C12: for every channel 0..8, octave 0..7, note 1..15 and command id other
than 3, `do_note` runs the command switch in the state reached by key-off
(`set_note` with note 15), then `load_inst(inst-1, chan)` if and only if `inst`
is nonzero, then `set_note(chan, oct, note)`.  The writes logged up to there are
exactly: the key-off write to `0xB0 + chan` (old high byte with bit 5 cleared),
the 11 instrument writes when `inst` is nonzero, then the note writes (low and
high byte of the frequency word for a note 1..12, one more key-off write for a
note 13..15); they are a prefix of all the writes of the call, so they precede
any write of the command. -/
theorem do_note_trigger_order (s : State) (chan oct note cmd param inst : Nat)
    (hc : chan < 9) (ho : oct ≤ 7) (hn0 : note ≠ 0) (hn : note ≤ 15) (hcmd : cmd ≠ 3)
    (hi : inst < 256) (hhi : s.prev_freqhigh chan < 256)
    (hb : ∀ b ∈ (s.insts (inst - 1)).bytes, b < 256) :
    do_note s chan oct note cmd param inst
      = do_cmd (set_note
          (if inst ≠ 0 then load_inst (set_note s chan oct 15) (inst - 1) chan
            else set_note s chan oct 15) chan oct note) chan cmd param
    ∧ (set_note
          (if inst ≠ 0 then load_inst (set_note s chan oct 15) (inst - 1) chan
            else set_note s chan oct 15) chan oct note).writes
        = s.writes
          ++ [(0xB0 + chan, s.prev_freqhigh chan - s.prev_freqhigh chan / 32 % 2 * 32)]
          ++ (if inst ≠ 0 then inst_writes (s.insts (inst - 1)) chan else [])
          ++ (if note < 13 then
                [(0xA0 + chan, (8192 + 1024 * oct + notefreq (note - 1)) % 256),
                 (0xB0 + chan, (8192 + 1024 * oct + notefreq (note - 1)) / 256)]
              else [(0xB0 + chan, s.prev_freqhigh chan - s.prev_freqhigh chan / 32 % 2 * 32)])
    ∧ (set_note
          (if inst ≠ 0 then load_inst (set_note s chan oct 15) (inst - 1) chan
            else set_note s chan oct 15) chan oct note).writes
        <+: (do_note s chan oct note cmd param inst).1.writes := by
  have hidx : toUchar ((inst : Int) - 1) = inst - 1 ∨ inst = 0 := by
    by_cases h0 : inst = 0
    · exact Or.inr h0
    · left; unfold toUchar; omega
  have e1 : do_note s chan oct note cmd param inst
      = do_cmd (set_note
          (if inst ≠ 0 then load_inst (set_note s chan oct 15) (inst - 1) chan
            else set_note s chan oct 15) chan oct note) chan cmd param := by
    unfold do_note
    rw [if_pos hn0, if_neg (show ¬ cmd = CMD_TONESLIDE from hcmd)]
    rcases hidx with h | h
    · simp only [h]
    · simp only [h, ne_eq, not_true_eq_false, if_false]
  refine ⟨e1, ?_, ?_⟩
  · have hport : (0xB0 + chan) % 256 = 0xB0 + chan := by omega
    have hporta : (0xA0 + chan) % 256 = 0xA0 + chan := by omega
    have hk := keyoff_byte _ hhi
    have ek := set_note_keyoff_eq s chan oct 15 (by norm_num)
    rw [hk, hport] at ek
    -- the state after key-off and the optional instrument load
    have emid : (if inst ≠ 0 then load_inst (set_note s chan oct 15) (inst - 1) chan
            else set_note s chan oct 15)
        = { s with
            prev_freqhigh := upd s.prev_freqhigh chan
              (s.prev_freqhigh chan - s.prev_freqhigh chan / 32 % 2 * 32),
            prev_vol := if inst ≠ 0 then upd s.prev_vol chan (s.insts (inst - 1)).r43
              else s.prev_vol,
            writes := s.writes
              ++ [(0xB0 + chan, s.prev_freqhigh chan - s.prev_freqhigh chan / 32 % 2 * 32)]
              ++ (if inst ≠ 0 then inst_writes (s.insts (inst - 1)) chan else []) } := by
      by_cases h0 : inst ≠ 0
      · rw [if_pos h0, if_pos h0, if_pos h0, load_inst_eq _ _ _ hc (by rw [ek]; exact hb), ek]
      · rw [if_neg h0, if_neg h0, if_neg h0, ek]
        simp
    rw [emid]
    by_cases h13 : note < 13
    · have hw := note_word oct (notefreq (note - 1)) ho
        (by have := (notefreq_bounds note (by omega) (by omega)).2.1; omega)
      have hb2 := (notefreq_bounds note (by omega) (by omega)).2.1
      have hq : (8192 + 1024 * oct + notefreq (note - 1)) / 256 % 256
          = (8192 + 1024 * oct + notefreq (note - 1)) / 256 := by omega
      simp only [set_note, if_neg hn0, if_pos h13, al_write, hw, shr_8, hport, hporta,
        Nat.mod_mod, hq, List.append_assoc, List.cons_append, List.nil_append]
    · have ek2 := set_note_keyoff_eq
        { s with
            prev_freqhigh := upd s.prev_freqhigh chan
              (s.prev_freqhigh chan - s.prev_freqhigh chan / 32 % 2 * 32),
            prev_vol := if inst ≠ 0 then upd s.prev_vol chan (s.insts (inst - 1)).r43
              else s.prev_vol,
            writes := s.writes
              ++ [(0xB0 + chan, s.prev_freqhigh chan - s.prev_freqhigh chan / 32 % 2 * 32)]
              ++ (if inst ≠ 0 then inst_writes (s.insts (inst - 1)) chan else []) }
        chan oct note (by omega)
      rw [ek2]
      simp only [upd_same, hport, if_neg h13]
      have hk2 := keyoff_byte (s.prev_freqhigh chan - s.prev_freqhigh chan / 32 % 2 * 32)
        (by omega)
      rw [hk2]
      have : (s.prev_freqhigh chan - s.prev_freqhigh chan / 32 % 2 * 32) / 32 % 2 = 0 := by
        omega
      rw [this]
      simp
  · rw [e1]
    exact do_cmd_writes_grow _ _ _ _

/-- C12, witness: the event "channel 0, octave 3, note 12, instrument 1, no
command" in the one-line module. -/
theorem do_note_trigger_order_witness :
    (0 : Nat) < 9 ∧ (3 : Nat) ≤ 7 ∧ (12 : Nat) ≠ 0 ∧ (12 : Nat) ≤ 15 ∧ (0 : Nat) ≠ 3
    ∧ (1 : Nat) < 256 ∧ (one_line_module 3 12).prev_freqhigh 0 < 256
    ∧ (∀ b ∈ ((one_line_module 3 12).insts (1 - 1)).bytes, b < 256)
    ∧ do_note (one_line_module 3 12) 0 3 12 0 0 1
      = do_cmd (set_note
          (if (1 : Nat) ≠ 0 then load_inst (set_note (one_line_module 3 12) 0 3 15) (1 - 1) 0
            else set_note (one_line_module 3 12) 0 3 15) 0 3 12) 0 0 0 :=
  ⟨by decide, by decide, by decide, by decide, by decide, by decide, by decide, by decide,
    (do_note_trigger_order (one_line_module 3 12) 0 3 12 0 0 1 (by decide) (by decide)
      (by decide) (by decide) (by decide) (by decide) (by decide) (by decide)).1⟩

/-- C13: for every channel, nonzero note, instrument and parameter, `do_note`
with command 3 (slide-to-note) logs no register write, leaves the shadow
frequency bytes and the shadow volume byte of every channel unchanged, sets the
tone-slide flag of the channel, stores `param` as the step only when it is
nonzero (the previous step stays otherwise), and returns 0. -/
theorem do_note_toneslide_note (s : State) (chan oct note param inst : Nat) (hn : note ≠ 0) :
    (do_note s chan oct note CMD_TONESLIDE param inst).1.writes = s.writes
    ∧ (do_note s chan oct note CMD_TONESLIDE param inst).1.prev_freqlow = s.prev_freqlow
    ∧ (do_note s chan oct note CMD_TONESLIDE param inst).1.prev_freqhigh = s.prev_freqhigh
    ∧ (do_note s chan oct note CMD_TONESLIDE param inst).1.prev_vol = s.prev_vol
    ∧ ((do_note s chan oct note CMD_TONESLIDE param inst).1.effects chan).toneslide = 1
    ∧ (do_note s chan oct note CMD_TONESLIDE param inst).1.toneslide_speed chan
        = (if param ≠ 0 then param else s.toneslide_speed chan)
    ∧ (do_note s chan oct note CMD_TONESLIDE param inst).2 = 0 := by
  unfold do_note
  rw [if_pos hn, if_pos rfl]
  by_cases hp : param ≠ 0
  · simp [if_pos hp, set_effects, upd_same]
  · simp [if_neg hp, set_effects, upd_same]

/-- C13, witness: "octave 0, note 1, slide-to-note with parameter 100" on
channel 0. -/
theorem do_note_toneslide_note_witness :
    (1 : Nat) ≠ 0
    ∧ (do_note init 0 0 1 CMD_TONESLIDE 100 0).1.writes = init.writes :=
  ⟨by decide, (do_note_toneslide_note init 0 0 1 100 0 (by decide)).1⟩

/-- C14: for every channel 0..8, octave and prior shadow bytes, `set_note` with
a note value of 13 or more (key-off) clears bit 5 of the shadow high frequency
byte, leaves its other bits and the whole low byte unchanged, logs the single
write of the new high byte to register `0xB0 + chan`, and leaves
`get_linear_freq(chan)` as it was. -/
theorem set_note_keyoff (s : State) (chan oct note : Nat) (hc : chan < 9) (hn : 13 ≤ note)
    (hlo : s.prev_freqlow chan < 256) (hhi : s.prev_freqhigh chan < 256) :
    (set_note s chan oct note).prev_freqhigh chan &&& 0x20 = 0
    ∧ (set_note s chan oct note).prev_freqhigh chan &&& 0xDF = s.prev_freqhigh chan &&& 0xDF
    ∧ (set_note s chan oct note).prev_freqlow = s.prev_freqlow
    ∧ (set_note s chan oct note).writes
        = s.writes ++ [(0xB0 + chan, (set_note s chan oct note).prev_freqhigh chan)]
    ∧ get_linear_freq (set_note s chan oct note) chan = get_linear_freq s chan := by
  have e := set_note_keyoff_eq s chan oct note hn
  have hp : (set_note s chan oct note).prev_freqhigh chan
      = (s.prev_freqhigh chan &&& 0xFFDF) % 256 := by
    rw [e]; exact upd_same _ _ _
  have hl : (set_note s chan oct note).prev_freqlow = s.prev_freqlow := by rw [e]
  obtain ⟨k1, k2⟩ := keyoff_bits _ hhi
  refine ⟨by rw [hp]; exact k1, by rw [hp]; exact k2, hl, ?_, ?_⟩
  · have hport : (0xB0 + chan) % 256 = 0xB0 + chan := by omega
    rw [hp]
    rw [e, hport]
  · have hb := keyoff_byte _ hhi
    rw [get_linear_freq_eq s chan hlo hhi,
      get_linear_freq_eq _ chan (by rw [hl]; exact hlo) (by rw [hp, hb]; omega)]
    simp only [freq_word, hp, hl, hb]
    omega

/-- C14, witness: key-off on channel 2 after the note "octave 1, note 5". -/
theorem set_note_keyoff_witness :
    (2 : Nat) < 9 ∧ (13 : Nat) ≤ 15
    ∧ (set_note init 2 1 5).prev_freqlow 2 < 256 ∧ (set_note init 2 1 5).prev_freqhigh 2 < 256
    ∧ (set_note (set_note init 2 1 5) 2 1 15).prev_freqhigh 2 &&& 0x20 = 0 :=
  ⟨by decide, by decide, by decide, by decide,
    (set_note_keyoff (set_note init 2 1 5) 2 1 15 (by decide) (by decide) (by decide)
      (by decide)).1⟩

/-- C15: for every instrument index `i` and channel 0..8, `load_inst(i, chan)`
logs exactly 11 register writes, in this order: registers 0x23, 0x20, 0x43,
0x40, 0x63, 0x60, 0x83, 0x80, 0xE3, 0xE0 (each plus `al_choff[chan]`) and
finally `0xC0 + chan`, carrying the record bytes 0, 1, 2, 3, 4, 5, 6, 7, 9, 10
and 8 (this is `inst_writes`); the shadow volume byte of the channel becomes
record byte 2, so `get_volume(chan)` is `63 - (byte2 & 0x3F)` afterwards. -/
theorem load_inst_writes (s : State) (i chan : Nat) (hc : chan < 9)
    (hb : ∀ b ∈ (s.insts i).bytes, b < 256) :
    (load_inst s i chan).writes = s.writes ++ inst_writes (s.insts i) chan
    ∧ (inst_writes (s.insts i) chan).length = 11
    ∧ (load_inst s i chan).prev_vol chan = (s.insts i).bytes.getD 2 0
    ∧ get_volume (load_inst s i chan) chan = 63 - ((s.insts i).bytes.getD 2 0 &&& 0x3F) := by
  have e := load_inst_eq s i chan hc hb
  have hv : (load_inst s i chan).prev_vol chan = (s.insts i).r43 := by
    rw [e]; exact upd_same _ _ _
  refine ⟨by rw [e], rfl, hv, ?_⟩
  rw [get_volume_eq, hv, and_3F]
  rfl

/-- C15, witness: instrument record 0 of the one-line module on channel 0. -/
theorem load_inst_writes_witness :
    (0 : Nat) < 9 ∧ (∀ b ∈ ((one_line_module 3 12).insts 0).bytes, b < 256)
    ∧ (load_inst (one_line_module 3 12) 0 0).writes
      = (one_line_module 3 12).writes ++ inst_writes ((one_line_module 3 12).insts 0) 0 :=
  ⟨by decide, by decide,
    (load_inst_writes (one_line_module 3 12) 0 0 (by decide) (by decide)).1⟩

/-- C16, as amended: for the volume-slide command (10) with a parameter `p` in
0..177, the volume delta armed by `do_note` is `-p` when `p < 50` and `p - 50`
when `p ≥ 50`, whatever the note and the instrument of the event. -/
theorem volslide_delta (s : State) (chan oct note p inst : Nat) (hp : p ≤ 177) :
    ((do_note s chan oct note CMD_VOLSLIDE p inst).1.effects chan).volslide
      = if p < 50 then -(p : Int) else (p : Int) - 50 := by
  obtain ⟨t, e, -, -⟩ := do_note_eq_do_cmd s chan oct note CMD_VOLSLIDE p inst (by decide)
  rw [e, do_cmd_volslide]
  unfold toSchar
  split_ifs <;> omega

/-- C16, witness: parameter 60 arms the delta 10 on channel 2. -/
theorem volslide_delta_witness :
    (60 : Nat) ≤ 177
    ∧ ((do_note init 2 0 0 CMD_VOLSLIDE 60 0).1.effects 2).volslide
      = if (60 : Nat) < 50 then -((60 : Nat) : Int) else ((60 : Nat) : Int) - 50 :=
  ⟨by decide, volslide_delta init 2 0 0 60 0 (by decide)⟩

/-- C16, counterexample: parameter 178 does not arm the delta 128; the value
stored in the signed 8-bit field is -128. -/
theorem volslide_delta_wraps :
    ¬ (((do_note init 2 0 0 CMD_VOLSLIDE 178 0).1.effects 2).volslide = 178 - 50)
    ∧ ((do_note init 2 0 0 CMD_VOLSLIDE 178 0).1.effects 2).volslide = -128 := by
  decide

/-- C17, as amended: let no tone slide be armed on the channel when `do_note`
is called with a parameter `p` in 1..127.  After portamento-up (command 1)
every run of `doeffects`, the `k+1`-th for any `k`, changes
`get_linear_freq(chan)` from its value `l` before the run to `l + p`, and after
portamento-down (command 2) to `l - p`, whenever that result is within
`0 .. 8*OCTAVE-1`; the run leaves the key-on bit of the shadow high byte as it
was. -/
theorem portamento_ramp (s : State) (chan oct note p inst k : Nat) (hc : chan < 9)
    (hp1 : 1 ≤ p) (hp2 : p ≤ 127) (hlo : s.prev_freqlow chan < 256)
    (hhi : s.prev_freqhigh chan < 256) (ht : (s.effects chan).toneslide = 0) :
    (0 ≤ get_linear_freq (doeffects^[k] (do_note s chan oct note CMD_PORTUP p inst).1) chan + p →
      get_linear_freq (doeffects^[k] (do_note s chan oct note CMD_PORTUP p inst).1) chan + p
        < 8 * (OCTAVE : Nat) →
      get_linear_freq (doeffects^[k + 1] (do_note s chan oct note CMD_PORTUP p inst).1) chan
          = get_linear_freq (doeffects^[k] (do_note s chan oct note CMD_PORTUP p inst).1) chan + p
        ∧ (doeffects^[k + 1] (do_note s chan oct note CMD_PORTUP p inst).1).prev_freqhigh chan
            &&& 0x20
          = (doeffects^[k] (do_note s chan oct note CMD_PORTUP p inst).1).prev_freqhigh chan
            &&& 0x20)
    ∧ (0 ≤ get_linear_freq (doeffects^[k] (do_note s chan oct note CMD_PORTDN p inst).1) chan - p →
      get_linear_freq (doeffects^[k] (do_note s chan oct note CMD_PORTDN p inst).1) chan - p
        < 8 * (OCTAVE : Nat) →
      get_linear_freq (doeffects^[k + 1] (do_note s chan oct note CMD_PORTDN p inst).1) chan
          = get_linear_freq (doeffects^[k] (do_note s chan oct note CMD_PORTDN p inst).1) chan - p
        ∧ (doeffects^[k + 1] (do_note s chan oct note CMD_PORTDN p inst).1).prev_freqhigh chan
            &&& 0x20
          = (doeffects^[k] (do_note s chan oct note CMD_PORTDN p inst).1).prev_freqhigh chan
            &&& 0x20) := by
  obtain ⟨⟨u1, u2, u3⟩, ⟨d1, d2, d3⟩⟩ := do_note_port_state s chan oct note p inst hp1 hp2 hlo hhi ht
  have ho : ((OCTAVE : Nat) : Int) = 344 := by decide
  constructor
  · intro h0 h1
    obtain ⟨i1, i2, i3⟩ := doeffects_portslide_iter _ chan (p : Int) k hc u1 (by omega) (by omega)
      (by omega) u2 u3
    obtain ⟨-, -, st⟩ := doeffects_portslide_step _ chan (p : Int) hc i1 (by omega) (by omega)
      (by omega) i2 i3
    rw [Function.iterate_succ_apply']
    exact st h0 (by rw [ho] at h1; omega)
  · intro h0 h1
    obtain ⟨i1, i2, i3⟩ := doeffects_portslide_iter _ chan (-(p : Int)) k hc d1 (by omega)
      (by omega) (by omega) d2 d3
    obtain ⟨-, -, st⟩ := doeffects_portslide_step _ chan (-(p : Int)) hc i1 (by omega) (by omega)
      (by omega) i2 i3
    rw [Function.iterate_succ_apply']
    have := st (by omega) (by rw [ho] at h1; omega)
    simpa [sub_eq_add_neg] using this

/-- C17, witness: channel 0 at linear frequency 66, portamento-up with
parameter 5; the third run of `doeffects` moves the frequency from 76 to 81. -/
theorem portamento_ramp_witness :
    (0 : Nat) < 9 ∧ (1 : Nat) ≤ 5 ∧ (5 : Nat) ≤ 127
    ∧ (do_note init 0 0 3 0 0 0).1.prev_freqlow 0 < 256
    ∧ (do_note init 0 0 3 0 0 0).1.prev_freqhigh 0 < 256
    ∧ ((do_note init 0 0 3 0 0 0).1.effects 0).toneslide = 0
    ∧ get_linear_freq (doeffects^[2]
        (do_note (do_note init 0 0 3 0 0 0).1 0 0 0 CMD_PORTUP 5 0).1) 0 = 76
    ∧ get_linear_freq (doeffects^[2 + 1]
        (do_note (do_note init 0 0 3 0 0 0).1 0 0 0 CMD_PORTUP 5 0).1) 0
      = get_linear_freq (doeffects^[2]
        (do_note (do_note init 0 0 3 0 0 0).1 0 0 0 CMD_PORTUP 5 0).1) 0 + (5 : Nat) :=
  ⟨by decide, by decide, by decide, by decide, by decide, by decide, by decide,
    ((portamento_ramp (do_note init 0 0 3 0 0 0).1 0 0 0 5 0 2 (by decide) (by decide)
      (by decide) (by decide) (by decide) (by decide)).1 (by decide) (by decide)).1⟩

/-- C17, counterexample: on channel 0 a tone slide (target 387, step 10) is
armed and then `do_note` arms portamento-up with parameter 5 at linear
frequency 66.  One run of `doeffects` does not leave the frequency at 71: the
tone-slide step of the same run moves it on to 81. -/
theorem portamento_with_toneslide :
    get_linear_freq port_tone_state 0 = 66
    ∧ (port_tone_state.effects 0).portslide = 5
    ∧ ¬ (get_linear_freq (doeffects port_tone_state) 0 = 66 + 5)
    ∧ get_linear_freq (doeffects port_tone_state) 0 = 81 := by
  decide

/-- C18: for every command id outside {1, 2, 3, 5, 10, 12, 13, 15} and every
parameter, `do_note` with note 0 returns the state unchanged (no register
write) and the value 0, and with a nonzero note it returns exactly what the same
call with command 0 returns. -/
theorem do_note_unknown_cmd (s : State) (chan oct cmd p inst : Nat)
    (h : cmd ∉ [1, 2, 3, 5, 10, 12, 13, 15]) :
    do_note s chan oct 0 cmd p inst = (s, 0)
    ∧ ∀ note, note ≠ 0 →
        do_note s chan oct note cmd p inst = do_note s chan oct note 0 p inst := by
  have h0 : (0 : Nat) ∉ [1, 2, 3, 5, 10, 12, 13, 15] := by decide
  have h3 : cmd ≠ CMD_TONESLIDE := by
    intro e; rw [e] at h; exact h (by decide)
  have h03 : (0 : Nat) ≠ CMD_TONESLIDE := by decide
  constructor
  · unfold do_note
    rw [if_neg (by simp)]
    exact do_cmd_unknown s chan cmd p h
  · intro note hn
    unfold do_note
    rw [if_pos hn, if_pos hn, if_neg h3, if_neg h03]
    simp only [do_cmd_unknown _ chan cmd p h, do_cmd_unknown _ chan 0 p h0]

/-- C18, witness: command 4 with parameter 7 and no note. -/
theorem do_note_unknown_cmd_witness :
    (4 : Nat) ∉ [1, 2, 3, 5, 10, 12, 13, 15] ∧ do_note init 0 0 0 4 7 0 = (init, 0) :=
  ⟨by decide, (do_note_unknown_cmd init 0 0 4 7 0 (by decide)).1⟩

/-- C19: `main` returns 2 from the header check, before anything else is read,
exactly when the header is bad: fewer than 18 bytes, or bytes 0..2 are not
`R`, `A`, `D`, or the byte at offset 0x10 is not 0x10.  With every other
header it goes on to read the tables, with `speed = byte[0x11] & 0x1F` and
`slow` equal to bit 6 of `byte[0x11]`. -/
theorem header_check (malloc : Nat → Bool) (file : List Nat) (s : State)
    (hb : file.getD 0x11 0 < 256) :
    (bad_header file → main_load malloc file s = .error 2)
    ∧ (¬ bad_header file → main_load malloc file s
        = load_body malloc (file.getD 0x11 0) ⟨file.drop 18, 18⟩
            { al_clr s with speed := file.getD 0x11 0 &&& 0x1F,
                            slow := file.getD 0x11 0 / 64 % 2 })
    ∧ (main_load malloc file s = .error 2 ↔ bad_header file) := by
  obtain ⟨h1, h2⟩ := load_file_header malloc file (al_clr s)
  rw [slow_bit _ hb] at h2
  refine ⟨h1, h2, ?_, h1⟩
  intro he
  by_contra hn
  have h3 := h2 hn
  unfold main_load at he
  rw [h3] at he
  have := load_body_error _ _ _ _ _ he
  omega

/-- C19, witness: the file `demo_file`. -/
theorem header_check_witness :
    demo_file.getD 0x11 0 < 256
    ∧ (main_load (fun _ => true) demo_file init = .error 2 ↔ bad_header demo_file) :=
  ⟨by decide, (header_check (fun _ => true) demo_file init (by decide)).2.2⟩

/-- C20: after a successful load there is a file offset `off`, where the
pattern offset table starts, such that the note data begins at `off + 64` and
`dataoff` is that offset (as a 16-bit value); for each of the 32 slots an entry
that is 0 in the file is 0, and a nonzero entry `e` has become
`(e - (off + 64)) mod 2^16`; the note-data buffer holds the bytes of the file
from `off + 64` on, in order, and `datalen` is their number. -/
theorem load_patoff_rebased (malloc : Nat → Bool) (file : List Nat) (s s' : State)
    (h : main_load malloc file s = .ok s') :
    ∃ off, off + 64 ≤ file.length
      ∧ s'.dataoff = (off + 64) % 65536
      ∧ (∀ i, i < 32 → s'.patoff i
          = if file_patoff file off i = 0 then 0
            else toUshort ((file_patoff file off i : Int) - ((off + 64 : Nat) : Int)))
      ∧ s'.data = (fun i => (file.drop (off + 64)).getD i 0)
      ∧ s'.datalen = (file.drop (off + 64)).length := by
  have hbad : ¬ bad_header file := by
    intro hb
    have := (load_file_header malloc file (al_clr s)).1 hb
    unfold main_load at h
    rw [this] at h
    exact absurd h (by simp)
  have e := (load_file_header malloc file (al_clr s)).2 hbad
  unfold main_load at h
  rw [e] at h
  unfold load_body at h
  split at h
  · exact absurd h (by simp)
  · rename_i r hr
    obtain ⟨off, o1, o2, o3, o4, o5⟩ := load_tables_ok malloc _ file ⟨file.drop 18, 18⟩ _ r rfl hr
    rw [← Except.ok.inj h, fixup_patoff_eq]
    refine ⟨off, o1, o2, ?_, o4, o5⟩
    intro i hi
    show (if i < 32 ∧ r.1.patoff i ≠ 0 then toUshort ((r.1.patoff i : Int) - r.1.dataoff)
      else r.1.patoff i) = _
    rw [o3 i hi, o2]
    by_cases h0 : file_patoff file off i = 0
    · rw [if_pos h0, if_neg (by simp [h0]), h0]
    · rw [if_neg h0, if_pos ⟨hi, h0⟩]
      unfold toUshort
      congr 1
      omega

/-- C20, witness: the file `demo_file` loads, whatever the size `malloc` is
asked for. -/
theorem load_patoff_rebased_witness :
    ∃ s', main_load (fun _ => true) demo_file init = .ok s'
      ∧ ∃ off, off + 64 ≤ demo_file.length
        ∧ s'.dataoff = (off + 64) % 65536
        ∧ (∀ i, i < 32 → s'.patoff i
            = if file_patoff demo_file off i = 0 then 0
              else toUshort ((file_patoff demo_file off i : Int) - ((off + 64 : Nat) : Int)))
        ∧ s'.data = (fun i => (demo_file.drop (off + 64)).getD i 0)
        ∧ s'.datalen = (demo_file.drop (off + 64)).length := by
  have hok : (main_load (fun _ => true) demo_file init).toBool = true := by decide
  cases hm : main_load (fun _ => true) demo_file init with
  | error e => rw [hm] at hok; exact absurd hok (by simp [Except.toBool])
  | ok s' => exact ⟨s', rfl, load_patoff_rebased _ _ _ _ hm⟩

/-! ## Frame facts of the sequencer -/

theorem seq_view_eq (s t : State) (h : seq_view t = seq_view s) :
    t.curorder = s.curorder ∧ t.curpat = s.curpat ∧ t.patpos = s.patpos
    ∧ t.curline = s.curline ∧ t.spdcnt = s.spdcnt ∧ t.running = s.running
    ∧ t.order = s.order ∧ t.patoff = s.patoff ∧ t.data = s.data := by
  simp only [seq_view, cursor, Prod.mk.injEq, List.cons.injEq, and_true] at h
  obtain ⟨⟨h1, h2, h3, h4, h5, h6⟩, h7, h8, h9⟩ := h
  exact ⟨h1, h2, h3, h4, h5, h6, h7, h8, h9⟩

theorem set_note_seq (s : State) (chan oct note : Nat) :
    seq_view (set_note s chan oct note) = seq_view s
    ∧ (set_note s chan oct note).speed = s.speed := by
  unfold set_note
  split_ifs <;> exact ⟨rfl, rfl⟩

theorem set_linear_freq_seq (s : State) (chan : Nat) (l : Int) :
    seq_view (set_linear_freq s chan l) = seq_view s
    ∧ (set_linear_freq s chan l).speed = s.speed
    ∧ (set_linear_freq s chan l).toneslide_freq = s.toneslide_freq
    ∧ (set_linear_freq s chan l).toneslide_speed = s.toneslide_speed :=
  ⟨rfl, rfl, rfl, rfl⟩

theorem set_volume_seq (s : State) (chan v : Nat) :
    seq_view (set_volume s chan v) = seq_view s
    ∧ (set_volume s chan v).speed = s.speed
    ∧ (set_volume s chan v).toneslide_freq = s.toneslide_freq
    ∧ (set_volume s chan v).toneslide_speed = s.toneslide_speed :=
  ⟨rfl, rfl, rfl, rfl⟩

theorem load_inst_seq (s : State) (i chan : Nat) :
    seq_view (load_inst s i chan) = seq_view s ∧ (load_inst s i chan).speed = s.speed := by
  simp [load_inst, al_write, seq_view, cursor]

theorem do_cmd_seq (s : State) (chan cmd p : Nat) :
    seq_view (do_cmd s chan cmd p).1 = seq_view s := by
  unfold do_cmd
  split_ifs <;> rfl

theorem do_note_seq (s : State) (chan oct note cmd p inst : Nat) :
    seq_view (do_note s chan oct note cmd p inst).1 = seq_view s := by
  unfold do_note
  split_ifs
  · rfl
  · rfl
  · rw [do_cmd_seq, (set_note_seq _ _ _ _).1, (load_inst_seq _ _ _).1, (set_note_seq _ _ _ _).1]
  · rw [do_cmd_seq, (set_note_seq _ _ _ _).1, (set_note_seq _ _ _ _).1]
  · exact do_cmd_seq _ _ _ _

/-- The value `do_note` returns. -/
theorem do_note_snd (s : State) (chan oct note cmd p inst : Nat) :
    (do_note s chan oct note cmd p inst).2 = if cmd = 13 then 1 + p else 0 := by
  unfold do_note
  by_cases hn : note ≠ 0
  · rw [if_pos hn]
    by_cases h3 : cmd = CMD_TONESLIDE
    · rw [if_pos h3]
      have : cmd ≠ 13 := by rw [h3]; decide
      rw [if_neg this]
    · rw [if_neg h3]
      exact do_cmd_result _ _ _ _
  · rw [if_neg hn]
    exact do_cmd_result _ _ _ _

theorem do_cmd_speed (s : State) (chan cmd p : Nat) :
    (do_cmd s chan cmd p).1.speed = if cmd = 15 then p else s.speed := by
  unfold do_cmd
  simp only [CMD_PORTUP, CMD_PORTDN, CMD_TONESLIDE, CMD_TONEVOLSLIDE, CMD_VOLSLIDE, CMD_SETVOL,
    CMD_JMPLINE, CMD_SETSPEED]
  by_cases h : cmd = 15
  · subst h; simp
  · rw [if_neg h]
    split_ifs <;> rfl

/-- The only event that changes `speed` is the set-speed command. -/
theorem do_note_speed (s : State) (chan oct note cmd p inst : Nat) :
    (do_note s chan oct note cmd p inst).1.speed = if cmd = 15 then p else s.speed := by
  by_cases h15 : cmd = 15
  · subst h15
    have h3 : ¬ (15 = CMD_TONESLIDE) := by decide
    rw [if_pos rfl]
    unfold do_note
    simp only [if_neg h3]
    split_ifs <;> rw [do_cmd_speed, if_pos rfl]
  · rw [if_neg h15]
    unfold do_note
    split_ifs
    · rfl
    · rfl
    · rw [do_cmd_speed, if_neg h15, (set_note_seq _ _ _ _).2, (load_inst_seq _ _ _).2,
        (set_note_seq _ _ _ _).2]
    · rw [do_cmd_speed, if_neg h15, (set_note_seq _ _ _ _).2, (set_note_seq _ _ _ _).2]
    · rw [do_cmd_speed, if_neg h15]

theorem effect_portslide_seq (s : State) (chan : Nat) :
    seq_view (effect_portslide s chan) = seq_view s
    ∧ (effect_portslide s chan).speed = s.speed
    ∧ (effect_portslide s chan).toneslide_freq = s.toneslide_freq
    ∧ (effect_portslide s chan).toneslide_speed = s.toneslide_speed := by
  unfold effect_portslide
  split_ifs
  · exact set_linear_freq_seq s chan _
  · exact ⟨rfl, rfl, rfl, rfl⟩

theorem effect_toneslide_seq (s : State) (chan : Nat) :
    seq_view (effect_toneslide s chan) = seq_view s
    ∧ (effect_toneslide s chan).speed = s.speed
    ∧ (effect_toneslide s chan).toneslide_freq = s.toneslide_freq
    ∧ (effect_toneslide s chan).toneslide_speed = s.toneslide_speed := by
  unfold effect_toneslide
  simp only []
  split_ifs
  · exact set_linear_freq_seq (set_effects s chan _) chan _
  · exact set_linear_freq_seq s chan _
  · exact set_linear_freq_seq (set_effects s chan _) chan _
  · exact set_linear_freq_seq s chan _
  · exact set_linear_freq_seq (set_effects s chan _) chan _
  · exact ⟨rfl, rfl, rfl, rfl⟩

theorem effect_volslide_seq (s : State) (chan : Nat) :
    seq_view (effect_volslide s chan) = seq_view s
    ∧ (effect_volslide s chan).speed = s.speed
    ∧ (effect_volslide s chan).toneslide_freq = s.toneslide_freq
    ∧ (effect_volslide s chan).toneslide_speed = s.toneslide_speed := by
  unfold effect_volslide
  split_ifs
  · exact set_volume_seq s chan _
  · exact ⟨rfl, rfl, rfl, rfl⟩

theorem doeffects_chan_seq (s : State) (chan : Nat) :
    seq_view (doeffects_chan s chan) = seq_view s
    ∧ (doeffects_chan s chan).speed = s.speed
    ∧ (doeffects_chan s chan).toneslide_freq = s.toneslide_freq
    ∧ (doeffects_chan s chan).toneslide_speed = s.toneslide_speed := by
  unfold doeffects_chan
  obtain ⟨a1, a2, a3, a4⟩ := effect_portslide_seq s chan
  obtain ⟨b1, b2, b3, b4⟩ := effect_toneslide_seq (effect_portslide s chan) chan
  obtain ⟨c1, c2, c3, c4⟩ := effect_volslide_seq (effect_toneslide (effect_portslide s chan) chan) chan
  exact ⟨c1.trans (b1.trans a1), c2.trans (b2.trans a2), c3.trans (b3.trans a3),
    c4.trans (b4.trans a4)⟩

theorem foldl_doeffects_seq (l : List Nat) (s : State) :
    seq_view (l.foldl doeffects_chan s) = seq_view s
    ∧ (l.foldl doeffects_chan s).speed = s.speed
    ∧ (l.foldl doeffects_chan s).toneslide_freq = s.toneslide_freq
    ∧ (l.foldl doeffects_chan s).toneslide_speed = s.toneslide_speed := by
  induction l generalizing s with
  | nil => exact ⟨rfl, rfl, rfl, rfl⟩
  | cons a l ih =>
    rw [List.foldl_cons]
    obtain ⟨a1, a2, a3, a4⟩ := doeffects_chan_seq s a
    obtain ⟨b1, b2, b3, b4⟩ := ih (doeffects_chan s a)
    exact ⟨b1.trans a1, b2.trans a2, b3.trans a3, b4.trans a4⟩

/-- The effects engine leaves the cursor, the tables, the speed and the stored
tone-slide targets and steps alone. -/
theorem doeffects_seq (s : State) :
    seq_view (doeffects s) = seq_view s
    ∧ (doeffects s).speed = s.speed
    ∧ (doeffects s).toneslide_freq = s.toneslide_freq
    ∧ (doeffects s).toneslide_speed = s.toneslide_speed :=
  foldl_doeffects_seq _ s

/-- On a channel with no effect armed the body of the loop of `doeffects` does
nothing. -/
theorem doeffects_chan_idle (s : State) (chan : Nat) (h : s.effects chan = ⟨0, 0, 0⟩) :
    doeffects_chan s chan = s := by
  simp [doeffects_chan, effect_portslide, effect_toneslide, effect_volslide, h]

theorem foldl_doeffects_idle (l : List Nat) (s : State) (h : ∀ c ∈ l, s.effects c = ⟨0, 0, 0⟩) :
    l.foldl doeffects_chan s = s := by
  induction l with
  | nil => rfl
  | cons a l ih =>
    rw [List.foldl_cons, doeffects_chan_idle s a (h a (List.mem_cons_self _ _))]
    exact ih (fun c hc => h c (List.mem_cons_of_mem _ hc))

/-- With no effect armed on any of the 9 channels `doeffects` does nothing. -/
theorem doeffects_idle (s : State) (h : ∀ c, c < 9 → s.effects c = ⟨0, 0, 0⟩) :
    doeffects s = s :=
  foldl_doeffects_idle _ s (fun c hc => h c (List.mem_range.mp hc))

theorem foldl_set_effects (l : List Nat) (s : State) :
    l.foldl (fun st chan => set_effects st chan ⟨0, 0, 0⟩) s
      = { s with effects := fun c => if c ∈ l then ⟨0, 0, 0⟩ else s.effects c } := by
  induction l generalizing s with
  | nil => simp
  | cons a l ih =>
    rw [List.foldl_cons, ih]
    simp only [set_effects]
    congr 1
    funext c
    by_cases h1 : c ∈ l
    · simp [h1]
    · by_cases h2 : c = a
      · simp [h1, h2, upd]
      · simp [h1, h2, upd]

/-- The reset loop of `play` clears the three effect fields of channels 0..8
and changes nothing else. -/
theorem reset_effects_eq (s : State) :
    reset_effects s
      = { s with effects := fun c => if c < 9 then ⟨0, 0, 0⟩ else s.effects c } := by
  rw [reset_effects, foldl_set_effects]
  simp only [CHANS, List.mem_range]

theorem marker_target : ∀ x : Nat, x < 256 → x &&& 0x80 ≠ 0 →
    toUchar ((x : Int) - 0x80) = x &&& 0x7F := by
  decide

theorem not_marker : ∀ x < 256, x &&& 0x80 = 0 → x < 0x80 := by decide

/-- The jump loop only moves the order position and the current pattern. -/
theorem order_jumps_frame (f : Nat) (s u : State) (h : order_jumps f s = some u) :
    ∃ co cp, u = { s with curorder := co, curpat := cp } := by
  induction f generalizing s with
  | zero => simp [order_jumps] at h
  | succ f ih =>
    rw [order_jumps] at h
    split at h
    · obtain ⟨co, cp, e⟩ := ih _ h
      exact ⟨co, cp, e⟩
    · simp only [Option.some.injEq] at h
      exact ⟨s.curorder, s.curpat, h.symm⟩

theorem next_pattern_frame (f : Nat) (s u : State) (h : next_pattern f s = some u) :
    ∃ co cp pp, u = { s with curorder := co, curpat := cp, patpos := pp } := by
  unfold next_pattern at h
  simp only [Option.map_eq_some'] at h
  obtain ⟨a, h1, h2⟩ := h
  obtain ⟨co, cp, e⟩ := order_jumps_frame f _ a h1
  subst e
  exact ⟨co, cp, _, h2.symm⟩

theorem pattern_end_frame (f line : Nat) (s u : State) (h : pattern_end f line s = some u) :
    ∃ co cp pp cl, u = { s with curorder := co, curpat := cp, patpos := pp, curline := cl } := by
  unfold pattern_end at h
  split at h
  · simp only [Option.map_eq_some'] at h
    obtain ⟨a, h1, h2⟩ := h
    obtain ⟨co, cp, pp, e⟩ := next_pattern_frame f s a h1
    subst e
    exact ⟨co, cp, pp, 0, h2.symm⟩
  · simp only [Option.some.injEq] at h
    exact ⟨s.curorder, s.curpat, s.patpos, s.curline, h.symm⟩

theorem line_jump_frame (f : Nat) (s u : State) (nl : Nat) (h : line_jump f s nl = some u) :
    ∃ co cp pp cl, u = { s with curorder := co, curpat := cp, patpos := pp, curline := cl } := by
  unfold line_jump at h
  simp only [Option.bind_eq_some, Option.map_eq_some'] at h
  obtain ⟨a, h1, p, _, h3⟩ := h
  obtain ⟨co, cp, pp, e⟩ := next_pattern_frame f s a h1
  subst e
  exact ⟨co, cp, p, _, h3.symm⟩

/-- The jump loop of the code follows the markers the way `resolve_markers`
does, and ends when `resolve_markers` does. -/
theorem order_jumps_resolve (k : Nat) (s : State) (p : Nat) (hb : ∀ i, s.order i < 256)
    (hcp : s.curpat = s.order s.curorder)
    (h : resolve_markers s.order k s.curorder = some p) (fuel : Nat) (hf : k < fuel) :
    order_jumps fuel s = some { s with curorder := p, curpat := s.order p }
    ∧ s.order p &&& 0x80 = 0 := by
  induction k generalizing s fuel with
  | zero =>
    obtain ⟨g, rfl⟩ : ∃ g, fuel = g + 1 := ⟨fuel - 1, by omega⟩
    rw [resolve_markers] at h
    split at h
    · exact absurd h (by simp)
    · rename_i hc
      simp only [Option.some.injEq] at h
      subst h
      have hc' : ¬ (s.curpat &&& 0x80 ≠ 0) := by rw [hcp]; exact hc
      refine ⟨?_, by simpa using hc⟩
      rw [order_jumps, if_neg hc', ← hcp]
  | succ k ih =>
    obtain ⟨g, rfl⟩ : ∃ g, fuel = g + 1 := ⟨fuel - 1, by omega⟩
    rw [resolve_markers] at h
    split at h
    · rename_i hc
      have hc' : s.curpat &&& 0x80 ≠ 0 := by rw [hcp]; exact hc
      rw [order_jumps, if_pos hc']
      have ht : toUchar ((s.curpat : Int) - 0x80) = s.order s.curorder &&& 0x7F := by
        rw [hcp]; exact marker_target _ (hb _) hc
      simp only [ht]
      exact ih { s with curorder := s.order s.curorder &&& 0x7F,
                        curpat := s.order (s.order s.curorder &&& 0x7F) } hb rfl h g (by omega)
    · rename_i hc
      simp only [Option.some.injEq] at h
      subst h
      have hc' : ¬ (s.curpat &&& 0x80 ≠ 0) := by rw [hcp]; exact hc
      refine ⟨?_, by simpa using hc⟩
      rw [order_jumps, if_neg hc', ← hcp]

theorem next_pattern_resolve (k : Nat) (s : State) (p : Nat) (hb : ∀ i, s.order i < 256)
    (h : resolve_markers s.order k ((s.curorder + 1) % 256) = some p) (fuel : Nat)
    (hf : k < fuel) :
    next_pattern fuel s
        = some { s with curorder := p, curpat := s.order p, patpos := s.patoff (s.order p) }
    ∧ s.order p < 0x80 := by
  obtain ⟨h1, h2⟩ := order_jumps_resolve k
    { s with curorder := (s.curorder + 1) % 256, curpat := s.order ((s.curorder + 1) % 256) }
    p hb rfl h fuel hf
  refine ⟨?_, not_marker _ (hb p) h2⟩
  unfold next_pattern
  simp only [h1]
  rfl

theorem play_events_mono (f f' : Nat) (s : State) (r : State × Bool) (hf : f ≤ f')
    (h : play_events f s = some r) : play_events f' s = some r := by
  unfold play_events at h ⊢
  simp only [] at h ⊢
  split at h
  · rename_i hc
    rw [if_pos hc]
    exact line_events_mono f f' f f' _ r hf hf h
  · rename_i hc
    rw [if_neg hc]
    exact h

/-- The body of `if (spdcnt-- == 0)` is the event phase followed by the
end-of-pattern check and the reload of the countdown. -/
theorem play_line_eq (fuel : Nat) (s : State) :
    play_line fuel s = (play_events fuel s).bind (fun r =>
      if r.2 then some (reload_spdcnt r.1)
      else (pattern_end fuel (s.data s.patpos) r.1).map reload_spdcnt) := by
  have hd : (reset_effects s).data (reset_effects s).patpos = s.data s.patpos := by
    rw [reset_effects_eq]
  unfold play_line play_events
  simp only [hd]

/-- A line tick of `play`: the countdown was 0 and the cursor is not the
sentinel. -/
theorem play_line_tick (fuel : Nat) (s : State) (hp : s.patpos ≠ 0xFFFF) (hc : s.spdcnt = 0) :
    play fuel s
      = (play_line fuel { s with spdcnt := toUchar ((s.spdcnt : Int) - 1) }).map doeffects := by
  unfold play
  rw [if_neg hp]
  simp only [hc, decide_True, if_true]

/-- A hold tick of `play`: the countdown was not 0 and the cursor is not the
sentinel. -/
theorem play_hold_tick (fuel : Nat) (s : State) (hp : s.patpos ≠ 0xFFFF) (hc : s.spdcnt ≠ 0) :
    play fuel s = some (hold_tick s) := by
  unfold play hold_tick
  rw [if_neg hp]
  simp only [hc, decide_False]
  rfl

/-- A line whose events are all dispatched without a jump leaves everything
the sequencer owns, the stream cursor apart, as it was. -/
theorem line_events_frame (j f : Nat) (s t : State) (h : line_events j f s = some (t, false)) :
    t.curorder = s.curorder ∧ t.curpat = s.curpat ∧ t.curline = s.curline
    ∧ t.spdcnt = s.spdcnt ∧ t.running = s.running
    ∧ t.order = s.order ∧ t.patoff = s.patoff ∧ t.data = s.data := by
  induction f generalizing s with
  | zero => simp [line_events] at h
  | succ f ih =>
    rw [line_events] at h
    obtain ⟨a1, a2, -, a4, a5, a6, a7, a8, a9⟩ := seq_view_eq _ _
      (do_note_seq { s with patpos := (read_event s.data s.patpos).next }
        ((read_event s.data s.patpos).chan &&& 0x7F) (read_event s.data s.patpos).oct
        (read_event s.data s.patpos).note (read_event s.data s.patpos).cmd
        (read_event s.data s.patpos).param (read_event s.data s.patpos).inst)
    split at h
    · simp at h
    · split at h
      · obtain ⟨b1, b2, b4, b5, b6, b7, b8, b9⟩ := ih _ h
        exact ⟨b1.trans a1, b2.trans a2, b4.trans a4, b5.trans a5, b6.trans a6, b7.trans a7,
          b8.trans a8, b9.trans a9⟩
      · simp only [Option.some.injEq, Prod.mk.injEq, and_true] at h
        subst h
        exact ⟨a1, a2, a4, a5, a6, a7, a8, a9⟩

theorem play_events_frame (f : Nat) (s t : State) (h : play_events f s = some (t, false)) :
    t.curorder = s.curorder ∧ t.curpat = s.curpat ∧ t.curline = (s.curline + 1) % 256
    ∧ t.spdcnt = s.spdcnt ∧ t.running = s.running
    ∧ t.order = s.order ∧ t.patoff = s.patoff ∧ t.data = s.data := by
  unfold play_events at h
  rw [reset_effects_eq] at h
  simp only [] at h
  split at h
  · exact line_events_frame _ _ _ _ h
  · simp only [Option.some.injEq, Prod.mk.injEq, and_true] at h
    subst h
    exact ⟨rfl, rfl, rfl, rfl, rfl, rfl, rfl, rfl⟩

theorem tab_lt (l : List Nat) (h : ∀ x ∈ l, x < 256) (i : Nat) : tab l i < 256 := by
  unfold tab
  by_cases hi : i < l.length
  · rw [List.getD_eq_getElem _ _ hi]
    exact h _ (List.getElem_mem _)
  · rw [List.getD_eq_default _ _ (by omega)]
    norm_num


/-- The loop over the events of a line dispatches the events `dispatched`
lists, in order, and then either ends or takes the line jump. -/
theorem line_events_dispatched (j f : Nat) (s t : State) (b : Bool)
    (h : line_events j f s = some (t, b)) :
    ∃ evs, dispatched s.data f s.patpos = some evs
      ∧ ((b = false ∧ t = run_events s evs)
        ∨ (b = true ∧ ∃ nl, line_jump j (run_events s evs) nl = some t)) := by
  induction f generalizing s with
  | zero => simp [line_events] at h
  | succ f ih =>
    have hr2 := do_note_snd { s with patpos := (read_event s.data s.patpos).next }
        ((read_event s.data s.patpos).chan &&& 0x7F) (read_event s.data s.patpos).oct
        (read_event s.data s.patpos).note (read_event s.data s.patpos).cmd
        (read_event s.data s.patpos).param (read_event s.data s.patpos).inst
    obtain ⟨-, -, a3, -, -, -, -, -, a9⟩ := seq_view_eq _ _
      (do_note_seq { s with patpos := (read_event s.data s.patpos).next }
        ((read_event s.data s.patpos).chan &&& 0x7F) (read_event s.data s.patpos).oct
        (read_event s.data s.patpos).note (read_event s.data s.patpos).cmd
        (read_event s.data s.patpos).param (read_event s.data s.patpos).inst)
    rw [line_events] at h
    rw [dispatched]
    simp only [CMD_JMPLINE]
    split at h
    · rename_i hpos
      have hcmd : (read_event s.data s.patpos).cmd = 13 := by
        by_contra hne
        rw [hr2, if_neg hne] at hpos
        exact absurd hpos (by decide)
      rw [if_pos (Or.inl hcmd)]
      simp only [Option.map_eq_some', Prod.mk.injEq] at h
      obtain ⟨a, h1, h2, h3⟩ := h
      subst h2
      exact ⟨_, rfl, Or.inr ⟨h3.symm, _, h1⟩⟩
    · rename_i hpos
      have hcmd : ¬ (read_event s.data s.patpos).cmd = 13 := by
        intro he
        rw [hr2, if_pos he] at hpos
        omega
      split at h
      · rename_i hch
        have hcond : ¬ ((read_event s.data s.patpos).cmd = 13
            ∨ (read_event s.data s.patpos).chan &&& 0x80 ≠ 0) := by
          rintro (h1 | h1)
          · exact hcmd h1
          · exact h1 hch
        rw [if_neg hcond]
        obtain ⟨evs, e1, e2⟩ := ih _ h
        rw [a9, a3] at e1
        simp only at e1
        exact ⟨_ :: evs, by rw [e1]; rfl, e2⟩
      · rename_i hch
        rw [if_pos (Or.inr hch)]
        simp only [Option.some.injEq, Prod.mk.injEq] at h
        obtain ⟨h1, h2⟩ := h
        exact ⟨_, rfl, Or.inl ⟨h2.symm, h1.symm⟩⟩

theorem run_events_speed (evs : List EVENT) (s : State) :
    (run_events s evs).speed
      = evs.foldl (fun sp ev => if ev.cmd = 15 then ev.param else sp) s.speed := by
  induction evs generalizing s with
  | nil => rfl
  | cons ev evs ih =>
    simp only [run_events, List.foldl_cons] at ih ⊢
    rw [ih, dispatch, do_note_speed]

/-- The speed after a list of events is the parameter of the last set-speed
event in it. -/
theorem foldl_speed_last (pre post : List EVENT) (ev : EVENT) (sp : Nat) (hcmd : ev.cmd = 15)
    (hpost : ∀ e ∈ post, e.cmd ≠ 15) :
    (pre ++ ev :: post).foldl (fun sp ev => if ev.cmd = 15 then ev.param else sp) sp
      = ev.param := by
  rw [List.foldl_append, List.foldl_cons, if_pos hcmd]
  generalize ev.param = q
  induction post with
  | nil => rfl
  | cons e post ih =>
    rw [List.foldl_cons, if_neg (hpost e (List.mem_cons_self _ _))]
    exact ih (fun x hx => hpost x (List.mem_cons_of_mem _ hx))

theorem do_cmd_effects (s : State) (a cmd p c : Nat) (h : a ≠ c ∨ cmd ∉ arming_cmds) :
    (do_cmd s a cmd p).1.effects c = s.effects c := by
  unfold do_cmd
  simp only [arming_cmds, CMD_PORTUP, CMD_PORTDN, CMD_TONESLIDE, CMD_TONEVOLSLIDE, CMD_VOLSLIDE,
    CMD_SETVOL, CMD_JMPLINE, CMD_SETSPEED, List.mem_cons, List.mem_singleton, not_or,
    List.not_mem_nil, or_false] at h ⊢
  rcases h with h | ⟨h1, h2, h3, h5, h10⟩
  · have hca : c ≠ a := fun e => h e.symm
    split_ifs <;> simp [set_effects, upd, hca, set_volume, al_write]
  · have h510 : ¬ (cmd = 5 ∨ cmd = 10) := by omega
    rw [if_neg h1, if_neg h2, if_neg h3, if_neg h510]
    split_ifs <;> rfl

theorem do_note_effects (s : State) (a oct note cmd p inst c : Nat)
    (h : a ≠ c ∨ cmd ∉ arming_cmds) :
    (do_note s a oct note cmd p inst).1.effects c = s.effects c := by
  by_cases h3 : cmd = CMD_TONESLIDE
  · have hca : c ≠ a := by
      rcases h with h | h
      · exact fun e => h e.symm
      · exact absurd (by rw [h3]; decide) h
    subst h3
    unfold do_note
    by_cases hn : note ≠ 0
    · rw [if_pos hn, if_pos rfl]
      split_ifs <;> simp [set_effects, upd, hca]
    · rw [if_neg hn]
      exact do_cmd_effects _ _ _ _ _ (Or.inl (fun e => hca e.symm))
  · obtain ⟨t, e1, e2, -⟩ := do_note_eq_do_cmd s a oct note cmd p inst h3
    rw [e1, do_cmd_effects _ _ _ _ _ h, e2]

theorem run_events_effects (evs : List EVENT) (s : State) (c : Nat)
    (h : ∀ ev ∈ evs, ev.chan &&& 0x7F = c → ev.cmd ∉ arming_cmds) :
    (run_events s evs).effects c = s.effects c := by
  induction evs generalizing s with
  | nil => rfl
  | cons ev evs ih =>
    simp only [run_events, List.foldl_cons] at ih ⊢
    rw [ih _ (fun e he => h e (List.mem_cons_of_mem _ he)), dispatch, do_note_effects]
    by_cases hc : ev.chan &&& 0x7F = c
    · exact Or.inr (h ev (List.mem_cons_self _ _) hc)
    · exact Or.inl hc

theorem doeffects_effects_idle (s : State) (c : Nat) (hc : c < 9) (h : s.effects c = ⟨0, 0, 0⟩) :
    (doeffects s).effects c = ⟨0, 0, 0⟩ := by
  obtain ⟨t, h1, h2⟩ := doeffects_chan_view s c hc
  obtain ⟨-, -, -, e1, -, -⟩ := chan_state_eq _ _ c h1
  rw [doeffects_chan_idle t c (e1.trans h)] at h2
  obtain ⟨-, -, -, e2, -, -⟩ := chan_state_eq _ _ c (h2.trans h1)
  exact e2.trans h

/-- The shape of a line tick of `play`: the effect reset, `curline++`, the
events `tick_events` lists, a move of the cursor (a line jump, the advance to
the next pattern, or none), the reload of the countdown, and `doeffects`. -/
theorem play_tick_shape (fuel : Nat) (s t : State) (hp : s.patpos ≠ 0xFFFF) (hc : s.spdcnt = 0)
    (h : play fuel s = some t) :
    ∃ evs, tick_events fuel s = some evs
      ∧ ∃ pp0 co cp pp cl, t = doeffects (reload_spdcnt
          { run_events { reset_effects s with spdcnt := toUchar ((s.spdcnt : Int) - 1),
                                              curline := (s.curline + 1) % 256,
                                              patpos := pp0 } evs
            with curorder := co, curpat := cp, patpos := pp, curline := cl }) := by
  rw [play_line_tick fuel s hp hc, play_line_eq] at h
  simp only [Option.map_eq_some', Option.bind_eq_some] at h
  obtain ⟨v, ⟨⟨u, b⟩, hev, hv⟩, ht⟩ := h
  subst ht
  unfold play_events at hev
  rw [reset_effects_eq] at hev
  simp only [] at hev
  unfold tick_events
  rw [reset_effects_eq]
  split at hev
  · rename_i hm
    have hm' : s.curline = s.data s.patpos &&& 0x7F := by simpa using hm
    rw [if_pos hm']
    obtain ⟨evs, e1, e2⟩ := line_events_dispatched _ _ _ _ _ hev
    refine ⟨evs, e1, (s.patpos + 1) % 65536, ?_⟩
    rcases e2 with ⟨hb, hu⟩ | ⟨hb, nl, hj⟩
    · subst hb
      simp only [Bool.false_eq_true, if_false, Option.map_eq_some'] at hv
      obtain ⟨w, hw, hv⟩ := hv
      obtain ⟨co, cp, pp, cl, e⟩ := pattern_end_frame _ _ _ _ hw
      subst hv e hu
      exact ⟨co, cp, pp, cl, rfl⟩
    · subst hb
      simp only [if_true, Option.some.injEq] at hv
      obtain ⟨co, cp, pp, cl, e⟩ := line_jump_frame _ _ _ _ hj
      subst hv e
      exact ⟨co, cp, pp, cl, rfl⟩
  · rename_i hm
    have hm' : ¬ s.curline = s.data s.patpos &&& 0x7F := by simpa using hm
    rw [if_neg hm']
    simp only [Option.some.injEq, Prod.mk.injEq] at hev
    obtain ⟨hu, hb⟩ := hev
    subst hb
    simp only [Bool.false_eq_true, if_false, Option.map_eq_some'] at hv
    obtain ⟨w, hw, hv⟩ := hv
    obtain ⟨co, cp, pp, cl, e⟩ := pattern_end_frame _ _ _ _ hw
    subst hv e hu
    exact ⟨[], rfl, s.patpos, co, cp, pp, cl, rfl⟩

theorem hold_tick_seq (s : State) :
    (hold_tick s).patpos = s.patpos ∧ (hold_tick s).curorder = s.curorder
    ∧ (hold_tick s).curpat = s.curpat ∧ (hold_tick s).curline = s.curline
    ∧ (hold_tick s).speed = s.speed
    ∧ (hold_tick s).spdcnt = toUchar ((s.spdcnt : Int) - 1) := by
  obtain ⟨h1, h2, -⟩ := doeffects_seq { s with spdcnt := toUchar ((s.spdcnt : Int) - 1) }
  obtain ⟨a1, a2, a3, a4, a5, -⟩ := seq_view_eq _ _ h1
  exact ⟨a3, a1, a2, a4, h2, a5⟩

/-- While the countdown lasts, every tick is a hold tick. -/
theorem hold_ticks_iter (fuel : Nat) (j : Nat) (t : State) (hp : t.patpos ≠ 0xFFFF)
    (hj : j ≤ t.spdcnt) (hlt : t.spdcnt < 256) :
    play_n fuel j t = some (hold_tick^[j] t)
    ∧ (hold_tick^[j] t).patpos = t.patpos ∧ (hold_tick^[j] t).curorder = t.curorder
    ∧ (hold_tick^[j] t).curpat = t.curpat ∧ (hold_tick^[j] t).curline = t.curline
    ∧ (hold_tick^[j] t).speed = t.speed
    ∧ (hold_tick^[j] t).spdcnt = t.spdcnt - j := by
  induction j generalizing t with
  | zero => exact ⟨rfl, rfl, rfl, rfl, rfl, rfl, rfl⟩
  | succ j ih =>
    obtain ⟨a1, a2, a3, a4, a5, a6⟩ := hold_tick_seq t
    have hc : t.spdcnt ≠ 0 := by omega
    have h6 : (hold_tick t).spdcnt = t.spdcnt - 1 := by
      rw [a6]; unfold toUchar; omega
    obtain ⟨b0, b1, b2, b3, b4, b5, b6⟩ := ih (hold_tick t) (by rw [a1]; exact hp)
      (by rw [h6]; omega) (by rw [h6]; omega)
    rw [Function.iterate_succ_apply, play_n, play_hold_tick fuel t hp hc]
    refine ⟨b0, b1.trans a1, b2.trans a2, b3.trans a3, b4.trans a4, b5.trans a5, ?_⟩
    rw [b6, h6]
    omega

theorem reset_effects_congr (s : State) (e : Nat → EFFECTS)
    (he : ∀ c, 9 ≤ c → e c = s.effects c) :
    reset_effects { s with effects := e } = reset_effects s := by
  rw [reset_effects_eq, reset_effects_eq]
  have : (fun c => if c < 9 then (⟨0, 0, 0⟩ : EFFECTS) else e c)
      = fun c => if c < 9 then ⟨0, 0, 0⟩ else s.effects c := by
    funext c
    split_ifs with h
    · rfl
    · exact he c (by omega)
  simp only [this]

theorem play_line_congr (fuel : Nat) (s : State) (e : Nat → EFFECTS)
    (he : ∀ c, 9 ≤ c → e c = s.effects c) :
    play_line fuel { s with effects := e } = play_line fuel s := by
  unfold play_line
  rw [reset_effects_congr s e he]

theorem inst_field (n0 n1 : Nat) (h1 : n1 < 256) :
    ((n1 >>> 4) ||| ((n0 &&& 0x80) >>> 3)) % 256 = (n1 >>> 4) ||| ((n0 &&& 0x80) >>> 3) := by
  apply Nat.mod_eq_of_lt
  have ha : n1 >>> 4 < 2 ^ 8 := by
    rw [Nat.shiftRight_eq_div_pow]
    omega
  have hb : (n0 &&& 0x80) >>> 3 < 2 ^ 8 := by
    rw [Nat.shiftRight_eq_div_pow]
    have : n0 &&& 0x80 ≤ 0x80 := Nat.and_le_right
    omega
  exact Nat.or_lt_two_pow ha hb

/-- The event at the cursor, field by field. -/
theorem read_event_eq (data : Nat → Nat) (p : Nat) (h1 : data ((p + 2) % 65536) < 256) :
    read_event data p
      = { chan := data p,
          oct := (data ((p + 1) % 65536) >>> 4) &&& 0x7,
          note := data ((p + 1) % 65536) &&& 0xF,
          inst := (data ((p + 2) % 65536) >>> 4) ||| ((data ((p + 1) % 65536) &&& 0x80) >>> 3),
          cmd := data ((p + 2) % 65536) &&& 0xF,
          param := if data ((p + 2) % 65536) &&& 0xF ≠ 0 then data ((p + 3) % 65536) else 0,
          next := (p + (if data ((p + 2) % 65536) &&& 0xF ≠ 0 then 4 else 3)) % 65536 } := by
  have e2 : ((p + 1) % 65536 + 1) % 65536 = (p + 2) % 65536 := by omega
  have e3 : ((p + 2) % 65536 + 1) % 65536 = (p + 3) % 65536 := by omega
  have e4 : ((p + 3) % 65536 + 1) % 65536 = (p + 4) % 65536 := by omega
  unfold read_event
  simp only [e2, e3, e4, inst_field _ _ h1]
  split_ifs <;> rfl

/-! ## The write log and the shadow -/

theorem last_write_foldl (w : List (Nat × Nat)) (reg : Nat) (acc : Option Nat) :
    w.foldl (fun acc x => if x.1 = reg then some x.2 else acc) acc
      = match last_write w reg with
        | some v => some v
        | none => acc := by
  induction w generalizing acc with
  | nil => rfl
  | cons x w ih =>
    rw [last_write, List.foldl_cons, List.foldl_cons, ih, ih (if x.1 = reg then some x.2 else none)]
    by_cases hx : x.1 = reg
    · simp only [hx, if_true]
      cases last_write w reg <;> rfl
    · simp only [hx, if_false]
      cases last_write w reg <;> rfl

/-- The value last written to a register after one more write. -/
theorem last_write_snoc (w : List (Nat × Nat)) (r v reg : Nat) :
    last_write (w ++ [(r, v)]) reg = if r = reg then some v else last_write w reg := by
  rw [last_write, List.foldl_append]
  rfl

theorem choff_facts : ∀ chan < 9, ∀ c < 9,
    (al_choff chan = al_choff c → chan = c) ∧ al_choff chan ≠ al_choff c + 3
    ∧ al_choff chan < 19 := by
  decide

/-- Writes to the frequency registers of one channel keep the synchronisation
when the shadow of that channel holds the bytes written. -/
theorem in_sync_freq (s t : State) (chan lo hi : Nat) (hc : chan < 9) (hs : in_sync s)
    (hw : t.writes = s.writes ++ [(0xA0 + chan, lo), (0xB0 + chan, hi)])
    (hlo : t.prev_freqlow = upd s.prev_freqlow chan lo)
    (hhi : t.prev_freqhigh = upd s.prev_freqhigh chan hi)
    (hv : t.prev_vol = s.prev_vol) : in_sync t := by
  intro c hc9
  obtain ⟨s1, s2, s3⟩ := hs c hc9
  obtain ⟨-, -, f3⟩ := choff_facts c hc9 c hc9
  have e : s.writes ++ [(0xA0 + chan, lo), (0xB0 + chan, hi)]
      = (s.writes ++ [(0xA0 + chan, lo)]) ++ [(0xB0 + chan, hi)] := by simp
  rw [hw, hlo, hhi, hv, e]
  simp only [last_write_snoc]
  by_cases h : c = chan
  · subst h
    rw [if_neg (by omega), if_pos rfl, if_pos rfl, if_neg (by omega), if_neg (by omega),
      upd_same, upd_same]
    exact ⟨rfl, rfl, s3⟩
  · rw [if_neg (by omega), if_neg (by omega), if_neg (by omega), if_neg (by omega),
      if_neg (by omega), if_neg (by omega), upd_other _ _ _ _ h, upd_other _ _ _ _ h]
    exact ⟨s1, s2, s3⟩

theorem in_sync_high (s t : State) (chan hi : Nat) (hc : chan < 9) (hs : in_sync s)
    (hw : t.writes = s.writes ++ [(0xB0 + chan, hi)])
    (hlo : t.prev_freqlow = s.prev_freqlow)
    (hhi : t.prev_freqhigh = upd s.prev_freqhigh chan hi)
    (hv : t.prev_vol = s.prev_vol) : in_sync t := by
  intro c hc9
  obtain ⟨s1, s2, s3⟩ := hs c hc9
  obtain ⟨-, -, f3⟩ := choff_facts c hc9 c hc9
  rw [hw, hlo, hhi, hv]
  simp only [last_write_snoc]
  by_cases h : c = chan
  · subst h
    rw [if_neg (by omega), if_pos rfl, if_neg (by omega), upd_same]
    exact ⟨s1, rfl, s3⟩
  · rw [if_neg (by omega), if_neg (by omega), if_neg (by omega), upd_other _ _ _ _ h]
    exact ⟨s1, s2, s3⟩

theorem in_sync_vol (s t : State) (chan v : Nat) (hc : chan < 9) (hs : in_sync s)
    (hw : t.writes = s.writes ++ [(0x43 + al_choff chan, v)])
    (hlo : t.prev_freqlow = s.prev_freqlow)
    (hhi : t.prev_freqhigh = s.prev_freqhigh)
    (hv : t.prev_vol = upd s.prev_vol chan v) : in_sync t := by
  intro c hc9
  obtain ⟨s1, s2, s3⟩ := hs c hc9
  obtain ⟨f1, -, f3⟩ := choff_facts chan hc c hc9
  rw [hw, hlo, hhi, hv]
  simp only [last_write_snoc]
  by_cases h : c = chan
  · subst h
    rw [if_neg (by omega), if_neg (by omega), if_pos rfl, upd_same]
    exact ⟨s1, s2, rfl⟩
  · have hne : ¬ (0x43 + al_choff chan = 0x43 + al_choff c) := fun e => h (f1 (by omega)).symm
    rw [if_neg (by omega), if_neg (by omega), if_neg hne, upd_other _ _ _ _ h]
    exact ⟨s1, s2, s3⟩

/-- A write to a register that no shadow byte belongs to keeps the
synchronisation. -/
theorem in_sync_skip (s t : State) (r v : Nat) (hs : in_sync s)
    (hr : ∀ c, c < 9 → r ≠ 0xA0 + c ∧ r ≠ 0xB0 + c ∧ r ≠ 0x43 + al_choff c)
    (hw : t.writes = s.writes ++ [(r, v)])
    (hlo : t.prev_freqlow = s.prev_freqlow)
    (hhi : t.prev_freqhigh = s.prev_freqhigh)
    (hv : t.prev_vol = s.prev_vol) : in_sync t := by
  intro c hc9
  obtain ⟨r1, r2, r3⟩ := hr c hc9
  rw [hw, hlo, hhi, hv]
  simp only [last_write_snoc, if_neg r1, if_neg r2, if_neg r3]
  exact hs c hc9

theorem in_sync_al_write (s : State) (r v : Nat) (hs : in_sync s)
    (hr : ∀ c, c < 9 → r % 256 ≠ 0xA0 + c ∧ r % 256 ≠ 0xB0 + c ∧ r % 256 ≠ 0x43 + al_choff c) :
    in_sync (al_write s r v) :=
  in_sync_skip s _ (r % 256) (v % 256) hs hr rfl rfl rfl rfl

theorem set_note_in_sync (s : State) (chan oct note : Nat) (hc : chan < 9) (hs : in_sync s) :
    in_sync (set_note s chan oct note) := by
  have ha : (0xA0 + chan) % 256 = 0xA0 + chan := by omega
  have hb : (0xB0 + chan) % 256 = 0xB0 + chan := by omega
  by_cases h0 : note = 0
  · rw [set_note, if_pos h0]
    exact hs
  · by_cases h13 : note < 13
    · refine in_sync_freq s _ chan
        ((0x2000 ||| (((oct <<< 10) % 65536 + notefreq (note - 1)) % 65536)) % 256)
        (((0x2000 ||| (((oct <<< 10) % 65536 + notefreq (note - 1)) % 65536)) >>> 8) % 256)
        hc hs ?_ ?_ ?_ ?_ <;>
      simp [set_note, h0, h13, al_write, ha, hb]
    · rw [set_note_keyoff_eq s chan oct note (by omega), hb]
      exact in_sync_high s _ chan _ hc hs rfl rfl rfl rfl

theorem set_linear_freq_in_sync (s : State) (chan : Nat) (l : Int) (hc : chan < 9)
    (hs : in_sync s) : in_sync (set_linear_freq s chan l) := by
  have ha : (0xA0 + chan) % 256 = 0xA0 + chan := by omega
  have hb : (0xB0 + chan) % 256 = 0xB0 + chan := by omega
  refine in_sync_freq s _ chan ((set_linear_freq s chan l).prev_freqlow chan)
    ((set_linear_freq s chan l).prev_freqhigh chan) hc hs ?_ ?_ ?_ ?_ <;>
  simp [set_linear_freq, al_write, ha, hb, upd_same]

theorem set_volume_in_sync (s : State) (chan v : Nat) (hc : chan < 9) (hs : in_sync s) :
    in_sync (set_volume s chan v) := by
  obtain ⟨-, -, f3⟩ := choff_facts chan hc chan hc
  have ha : (0x43 + al_choff chan) % 256 = 0x43 + al_choff chan := by omega
  refine in_sync_vol s _ chan ((set_volume s chan v).prev_vol chan) hc hs ?_ ?_ ?_ ?_ <;>
  simp [set_volume, al_write, ha, upd_same]

theorem load_inst_in_sync (s : State) (i chan : Nat) (hc : chan < 9) (hs : in_sync s)
    (h43 : (s.insts i).r43 < 256) : in_sync (load_inst s i chan) := by
  have hf : ∀ c, c < 9 → al_choff chan ≠ al_choff c + 3 ∧ al_choff chan < 19 ∧ al_choff c < 19 :=
    fun c hc9 => ⟨(choff_facts chan hc c hc9).2.1, (choff_facts chan hc c hc9).2.2,
      (choff_facts c hc9 c hc9).2.2⟩
  have ha : (0x43 + al_choff chan) % 256 = 0x43 + al_choff chan := by
    have := (hf chan hc).2.1
    omega
  unfold load_inst
  simp only []
  refine in_sync_al_write _ _ _ ?_ (fun c hc9 => by have := hf c hc9; omega)
  refine in_sync_al_write _ _ _ ?_ (fun c hc9 => by have := hf c hc9; omega)
  refine in_sync_al_write _ _ _ ?_ (fun c hc9 => by have := hf c hc9; omega)
  refine in_sync_al_write _ _ _ ?_ (fun c hc9 => by have := hf c hc9; omega)
  refine in_sync_al_write _ _ _ ?_ (fun c hc9 => by have := hf c hc9; omega)
  refine in_sync_al_write _ _ _ ?_ (fun c hc9 => by have := hf c hc9; omega)
  refine in_sync_al_write _ _ _ ?_ (fun c hc9 => by have := hf c hc9; omega)
  refine in_sync_al_write _ _ _ ?_ (fun c hc9 => by have := hf c hc9; omega)
  refine in_sync_vol
    (al_write (al_write s (0x23 + al_choff chan) (s.insts i).r23) (0x20 + al_choff chan)
      (s.insts i).r20) _ chan (s.insts i).r43 hc ?_ ?_ rfl rfl rfl
  · refine in_sync_al_write _ _ _ ?_ (fun c hc9 => by have := hf c hc9; omega)
    exact in_sync_al_write _ _ _ hs (fun c hc9 => by have := hf c hc9; omega)
  · simp only [al_write, ha, Nat.mod_eq_of_lt h43]

/-- The word the claim names: key-on bit, octave field, F-number. -/
theorem note_word_or (oct f : Nat) (ho : oct ≤ 7) (hf : f < 1024) :
    0x2000 ||| (oct <<< 10) ||| f = 8192 + 1024 * oct + f := by
  rw [shl_10]
  have h1 : (0x2000 : Nat) ||| oct * 1024 = 2 ^ 13 * 1 + oct * 1024 := by
    have := or_disjoint 13 1 (oct * 1024) (by norm_num; omega)
    simpa using this
  have h2 : 2 ^ 13 * 1 + oct * 1024 = 2 ^ 10 * (8 + oct) := by norm_num; omega
  rw [h1, h2, or_disjoint 10 _ _ (by norm_num; omega)]
  norm_num
  omega

theorem in_sync_al_clr : in_sync (al_clr init) := by
  unfold in_sync
  decide

/-! ## The frequency writes of one channel -/

theorem freq_writes_snoc (w : List (Nat × Nat)) (r v chan : Nat) :
    freq_writes (w ++ [(r, v)]) chan
      = if r = 0xA0 + chan ∨ r = 0xB0 + chan then freq_writes w chan ++ [(r, v)]
        else freq_writes w chan := by
  unfold freq_writes
  rw [List.filter_append]
  by_cases h : r = 0xA0 + chan ∨ r = 0xB0 + chan
  · rw [if_pos h]
    simp [List.filter, h]
  · rw [if_neg h]
    simp [List.filter, h]

theorem set_linear_freq_writes (s : State) (chan : Nat) (l : Int) (hc : chan < 9) :
    (set_linear_freq s chan l).writes
      = s.writes ++ [(0xA0 + chan, (set_linear_freq s chan l).prev_freqlow chan)]
          ++ [(0xB0 + chan, (set_linear_freq s chan l).prev_freqhigh chan)] := by
  have ha : (0xA0 + chan) % 256 = 0xA0 + chan := by omega
  have hb : (0xB0 + chan) % 256 = 0xB0 + chan := by omega
  simp [set_linear_freq, al_write, ha, hb, upd_same]

theorem set_linear_freq_fw (s : State) (c chan : Nat) (l : Int) (hc : c < 9) (hch : chan < 9) :
    freq_writes (set_linear_freq s c l).writes chan
      = if c = chan then
          freq_writes s.writes chan ++ [(0xA0 + chan, (set_linear_freq s c l).prev_freqlow chan),
            (0xB0 + chan, (set_linear_freq s c l).prev_freqhigh chan)]
        else freq_writes s.writes chan := by
  rw [set_linear_freq_writes s c l hc, freq_writes_snoc, freq_writes_snoc]
  by_cases h : c = chan
  · subst h
    rw [if_pos (Or.inr rfl), if_pos (Or.inl rfl), if_pos rfl]
    simp
  · rw [if_neg (by omega), if_neg (by omega), if_neg h]

theorem set_volume_fw (s : State) (c v chan : Nat) (hc : c < 9) (hch : chan < 9) :
    freq_writes (set_volume s c v).writes chan = freq_writes s.writes chan := by
  have hf := al_choff_lt c hc
  have hw : (set_volume s c v).writes
      = s.writes ++ [((0x43 + al_choff c) % 256, (set_volume s c v).prev_vol c % 256)] := by
    simp [set_volume, al_write, upd_same]
  rw [hw, freq_writes_snoc, if_neg (by omega)]

theorem effect_portslide_fw (s : State) (c chan : Nat) (hc : c < 9) (hch : chan < 9)
    (h : c ≠ chan) :
    freq_writes (effect_portslide s c).writes chan = freq_writes s.writes chan := by
  unfold effect_portslide
  split_ifs
  · rw [set_linear_freq_fw _ _ _ _ hc hch, if_neg h]
  · rfl

theorem effect_toneslide_fw (s : State) (c chan : Nat) (hc : c < 9) (hch : chan < 9)
    (h : c ≠ chan) :
    freq_writes (effect_toneslide s c).writes chan = freq_writes s.writes chan := by
  unfold effect_toneslide
  simp only []
  split_ifs <;>
    first
    | rfl
    | (rw [set_linear_freq_fw _ _ _ _ hc hch, if_neg h]; try rfl)

theorem effect_volslide_fw (s : State) (c chan : Nat) (hc : c < 9) (hch : chan < 9) :
    freq_writes (effect_volslide s c).writes chan = freq_writes s.writes chan := by
  unfold effect_volslide
  split_ifs
  · exact set_volume_fw _ _ _ _ hc hch
  · rfl

theorem doeffects_chan_fw (s : State) (c chan : Nat) (hc : c < 9) (hch : chan < 9)
    (h : c ≠ chan) :
    freq_writes (doeffects_chan s c).writes chan = freq_writes s.writes chan := by
  unfold doeffects_chan
  rw [effect_volslide_fw _ _ _ hc hch, effect_toneslide_fw _ _ _ hc hch h,
    effect_portslide_fw _ _ _ hc hch h]

theorem foldl_doeffects_fw (l : List Nat) (s : State) (chan : Nat) (hl : ∀ a ∈ l, a < 9)
    (hch : chan < 9) (h : chan ∉ l) :
    freq_writes (l.foldl doeffects_chan s).writes chan = freq_writes s.writes chan := by
  induction l generalizing s with
  | nil => rfl
  | cons a l ih =>
    have ha : a ≠ chan := fun e => h (e ▸ List.mem_cons_self _ _)
    rw [List.foldl_cons, ih _ (fun x hx => hl x (List.mem_cons_of_mem _ hx))
      (fun e => h (List.mem_cons_of_mem _ e)),
      doeffects_chan_fw _ _ _ (hl a (List.mem_cons_self _ _)) hch ha]

/-- What `doeffects` does to a channel and writes to its frequency registers is
what the loop body for that channel does and writes, entered in a state in
which the channel and its frequency writes are as at the start. -/
theorem foldl_doeffects_chan_fw (l : List Nat) (hnd : l.Nodup) (hl : ∀ a ∈ l, a < 9) (s : State)
    (chan : Nat) (hmem : chan ∈ l) :
    ∃ t, chan_state t chan = chan_state s chan
      ∧ freq_writes t.writes chan = freq_writes s.writes chan
      ∧ chan_state (l.foldl doeffects_chan s) chan = chan_state (doeffects_chan t chan) chan
      ∧ freq_writes (l.foldl doeffects_chan s).writes chan
          = freq_writes (doeffects_chan t chan).writes chan := by
  induction l generalizing s with
  | nil => exact absurd hmem (List.not_mem_nil _)
  | cons a l ih =>
    rw [List.foldl_cons]
    obtain ⟨hal, hnl⟩ := List.nodup_cons.mp hnd
    have hl' : ∀ x ∈ l, x < 9 := fun x hx => hl x (List.mem_cons_of_mem _ hx)
    by_cases ha : chan = a
    · subst ha
      exact ⟨s, rfl, rfl, foldl_doeffects_other l _ chan hal,
        foldl_doeffects_fw l _ chan hl' (hl chan (List.mem_cons_self _ _)) hal⟩
    · have hm : chan ∈ l := by
        rcases List.mem_cons.mp hmem with h | h
        · exact absurd h ha
        · exact h
      have hch : chan < 9 := hl' chan hm
      obtain ⟨t, h1, h2, h3, h4⟩ := ih hnl hl' (doeffects_chan s a) hm
      exact ⟨t, h1.trans (doeffects_chan_other s a chan ha),
        h2.trans (doeffects_chan_fw s a chan (hl a (List.mem_cons_self _ _)) hch
          (fun e => ha e.symm)), h3, h4⟩

theorem doeffects_chan_view_fw (s : State) (chan : Nat) (hc : chan < 9) :
    ∃ t, chan_state t chan = chan_state s chan
      ∧ freq_writes t.writes chan = freq_writes s.writes chan
      ∧ chan_state (doeffects s) chan = chan_state (doeffects_chan t chan) chan
      ∧ freq_writes (doeffects s).writes chan = freq_writes (doeffects_chan t chan).writes chan :=
  foldl_doeffects_chan_fw (List.range CHANS) (List.nodup_range _)
    (fun _ ha => List.mem_range.mp ha) s chan (List.mem_range.mpr hc)

theorem toShort_range (x : Int) : -32768 ≤ toShort x ∧ toShort x < 32768 := by
  unfold toShort
  omega

theorem get_linear_freq_range (s : State) (chan : Nat) :
    -32768 ≤ get_linear_freq s chan ∧ get_linear_freq s chan < 32768 := by
  unfold get_linear_freq
  exact toShort_range _

theorem doeffects_chan_equal (t : State) (chan : Nat) (hc : chan < 9)
    (hp : (t.effects chan).portslide = 0) (ht : (t.effects chan).toneslide ≠ 0)
    (heq : get_linear_freq t chan = (t.toneslide_freq chan : Int)) :
    ((doeffects_chan t chan).effects chan).toneslide = 0
    ∧ (doeffects_chan t chan).prev_freqlow chan
        = (set_linear_freq t chan (get_linear_freq t chan)).prev_freqlow chan
    ∧ (doeffects_chan t chan).prev_freqhigh chan
        = (set_linear_freq t chan (get_linear_freq t chan)).prev_freqhigh chan
    ∧ freq_writes (doeffects_chan t chan).writes chan
        = freq_writes t.writes chan
          ++ [(0xA0 + chan, (set_linear_freq t chan (get_linear_freq t chan)).prev_freqlow chan),
              (0xB0 + chan, (set_linear_freq t chan (get_linear_freq t chan)).prev_freqhigh chan)] := by
  have hu : toUshort (get_linear_freq t chan) = t.toneslide_freq chan := by
    have hr' := get_linear_freq_range t chan
    rw [heq] at hr' ⊢
    unfold toUshort
    omega
  have e1 : effect_portslide t chan = t := by
    unfold effect_portslide
    rw [if_neg (by simpa using hp)]
  have e2 : effect_toneslide t chan
      = set_linear_freq (set_effects t chan { (t.effects chan) with toneslide := 0 }) chan
          (get_linear_freq t chan) := by
    unfold effect_toneslide
    simp only [hu]
    rw [if_pos ht, if_neg (lt_irrefl _), if_neg (lt_irrefl _)]
  have hfw := set_linear_freq_fw (set_effects t chan { (t.effects chan) with toneslide := 0 })
    chan chan (get_linear_freq t chan) hc hc
  rw [if_pos rfl] at hfw
  have hk := set_linear_freq_keeps (set_effects t chan { (t.effects chan) with toneslide := 0 })
    chan (get_linear_freq t chan)
  have hfl : (set_linear_freq (set_effects t chan { (t.effects chan) with toneslide := 0 }) chan
      (get_linear_freq t chan)).prev_freqlow
        = (set_linear_freq t chan (get_linear_freq t chan)).prev_freqlow := rfl
  have hfh : (set_linear_freq (set_effects t chan { (t.effects chan) with toneslide := 0 }) chan
      (get_linear_freq t chan)).prev_freqhigh
        = (set_linear_freq t chan (get_linear_freq t chan)).prev_freqhigh := rfl
  have hf0 : ((set_linear_freq (set_effects t chan { (t.effects chan) with toneslide := 0 }) chan
      (get_linear_freq t chan)).effects chan).toneslide = 0 := by
    rw [hk.1]
    simp [set_effects, upd_same]
  unfold doeffects_chan
  rw [e1, e2]
  rw [hfl, hfh] at hfw
  unfold effect_volslide
  split_ifs
  · obtain ⟨v1, v2, v3, -⟩ := set_volume_keeps
      (set_linear_freq (set_effects t chan { (t.effects chan) with toneslide := 0 }) chan
        (get_linear_freq t chan)) chan
      (toUchar (if toShort (↑(get_volume (set_linear_freq (set_effects t chan
          { (t.effects chan) with toneslide := 0 }) chan (get_linear_freq t chan)) chan)
          + ((set_linear_freq (set_effects t chan { (t.effects chan) with toneslide := 0 }) chan
              (get_linear_freq t chan)).effects chan).volslide) < 0 then 0
        else toShort (↑(get_volume (set_linear_freq (set_effects t chan
          { (t.effects chan) with toneslide := 0 }) chan (get_linear_freq t chan)) chan)
          + ((set_linear_freq (set_effects t chan { (t.effects chan) with toneslide := 0 }) chan
              (get_linear_freq t chan)).effects chan).volslide)))
    exact ⟨by rw [v1]; exact hf0, by rw [v2, hfl], by rw [v3, hfh],
      by rw [set_volume_fw _ _ _ _ hc hc]; exact hfw⟩
  · exact ⟨hf0, by rw [hfl], by rw [hfh], hfw⟩

/-- A shadow word whose F-number lies in the octave range is the word that
`set_linear_freq` assembles from its linear frequency. -/
theorem normal_word (lo hi : Nat) (hlo : lo < 256)
    (h1 : 342 ≤ (256 * hi + lo) % 1024) (h2 : (256 * hi + lo) % 1024 < 686) :
    8192 * (hi / 32)
        + 1024 * (((256 * hi + lo) / 1024 % 8 * 344 + (256 * hi + lo) % 1024 - 342) / 344)
        + (((256 * hi + lo) / 1024 % 8 * 344 + (256 * hi + lo) % 1024 - 342) % 344 + 342)
      = 256 * hi + lo := by
  have ho : (256 * hi + lo) / 1024 % 8 < 8 := Nat.mod_lt _ (by norm_num)
  have hw : 256 * hi + lo
      = 8192 * (hi / 32) + 1024 * ((256 * hi + lo) / 1024 % 8) + (256 * hi + lo) % 1024 := by
    omega
  generalize (256 * hi + lo) / 1024 % 8 = o at *
  generalize (256 * hi + lo) % 1024 = f at *
  have e1 : (o * 344 + f - 342) / 344 = o := by omega
  have e2 : (o * 344 + f - 342) % 344 = f - 342 := by omega
  rw [e1, e2]
  omega

/-! ## The claims C21 to C30 -/

/-- C21: on a line tick of `play` (countdown 0, cursor not the sentinel) whose
event phase ends without a line jump.  If the line byte at the cursor has bit 7
set or the incremented line counter is at least 0x80: whenever the chain of
jump markers from the next order position (the position plus one, as a
`uchar`) reaches a non-jump entry at position `p` after `k` replacements of the
position by the low 7 bits of the marker there, every fuel above `k` that is
also enough for the event phase makes the tick end with order position `p`,
current pattern `order[p]` below 0x80, the cursor at `patoff[order[p]]` and
line counter 0.  Otherwise the tick ends with order position and current
pattern unchanged. -/
theorem pattern_end_advance (f0 : Nat) (s : State) (hp : s.patpos ≠ 0xFFFF) (hc : s.spdcnt = 0)
    (hb : ∀ i, s.order i < 256)
    (hev : (play_events f0 { s with spdcnt := toUchar ((s.spdcnt : Int) - 1) }).map
        (fun r => r.2) = some false) :
    (s.data s.patpos &&& 0x80 ≠ 0 ∨ (s.curline + 1) % 256 ≥ 0x80 →
      ∀ k p, resolve_markers s.order k ((s.curorder + 1) % 256) = some p →
        ∀ fuel, f0 ≤ fuel → k < fuel →
          ∃ s', play fuel s = some s' ∧ s'.curorder = p ∧ s'.curpat = s.order p
            ∧ s.order p < 0x80 ∧ s'.patpos = s.patoff (s.order p) ∧ s'.curline = 0)
    ∧ (¬ (s.data s.patpos &&& 0x80 ≠ 0 ∨ (s.curline + 1) % 256 ≥ 0x80) →
      ∀ fuel, f0 ≤ fuel →
        ∃ s', play fuel s = some s' ∧ s'.curorder = s.curorder ∧ s'.curpat = s.curpat) := by
  simp only [Option.map_eq_some'] at hev
  obtain ⟨⟨t, b⟩, hev, hb2⟩ := hev
  simp only at hb2
  subst hb2
  obtain ⟨t1, t2, t3, -, -, t6, t7, -⟩ := play_events_frame _ _ _ hev
  simp only at t1 t2 t3 t6 t7
  have hplay : ∀ fuel, f0 ≤ fuel → play fuel s
      = ((pattern_end fuel (s.data s.patpos) t).map reload_spdcnt).map doeffects := by
    intro fuel hf
    rw [play_line_tick fuel s hp hc, play_line_eq, play_events_mono f0 fuel _ _ hf hev]
    rfl
  constructor
  · intro hcond k p hres fuel hf hk
    have hcond' : s.data s.patpos &&& 0x80 ≠ 0 ∨ t.curline ≥ 0x80 := by rw [t3]; exact hcond
    rw [← t6, ← t1] at hres
    obtain ⟨n1, n2⟩ := next_pattern_resolve k t p (by rw [t6]; exact hb) hres fuel hk
    rw [t6] at n2
    refine ⟨doeffects (reload_spdcnt
        { t with curorder := p, curpat := t.order p, patpos := t.patoff (t.order p),
                 curline := 0 }), ?_, ?_⟩
    · rw [hplay fuel hf, pattern_end, if_pos hcond', n1]
      rfl
    · obtain ⟨u1, u2, u3, u4, -⟩ := seq_view_eq _ _ (doeffects_seq (reload_spdcnt
        { t with curorder := p, curpat := t.order p, patpos := t.patoff (t.order p),
                 curline := 0 })).1
      refine ⟨u1, ?_, n2, ?_, u4⟩
      · rw [u2, ← t6]; rfl
      · rw [u3, ← t6, ← t7]; rfl
  · intro hcond fuel hf
    have hcond' : ¬ (s.data s.patpos &&& 0x80 ≠ 0 ∨ t.curline ≥ 0x80) := by rw [t3]; exact hcond
    refine ⟨doeffects (reload_spdcnt t), ?_, ?_⟩
    · rw [hplay fuel hf, pattern_end, if_neg hcond']
      rfl
    · obtain ⟨u1, u2, -⟩ := seq_view_eq _ _ (doeffects_seq (reload_spdcnt t)).1
      exact ⟨u1.trans t1, u2.trans t2⟩

/-- C21, witness: the module with order list `[0, 0x82, 1]`, whose first line is
the last line of pattern 0; the marker at position 1 leads to position 2. -/
theorem pattern_end_advance_witness :
    ∃ s', play 2 (two_pattern_module [0, 0x82, 1]) = some s' ∧ s'.curorder = 2
      ∧ s'.curpat = (two_pattern_module [0, 0x82, 1]).order 2
      ∧ (two_pattern_module [0, 0x82, 1]).order 2 < 0x80
      ∧ s'.patpos = (two_pattern_module [0, 0x82, 1]).patoff
          ((two_pattern_module [0, 0x82, 1]).order 2)
      ∧ s'.curline = 0 :=
  (pattern_end_advance 1 (two_pattern_module [0, 0x82, 1]) (by decide) (by decide)
    (tab_lt _ (by decide)) (by decide)).1 (by decide) 1 2 (by decide) 2 (by decide) (by decide)

/-- The blank tick of a line that is not flagged as the last one: on a line
tick of `play` (countdown 0, cursor not the sentinel) where the line byte at
the cursor has bit 7 clear, the logical line counter plus one is below 0x80 and
the counter differs from the line number in bits 0-6 of the line byte, the tick
changes exactly this: the effect fields of channels 0..8 are reset, the line
counter increases by 1 and the countdown is reloaded to `speed - 1` (as a
`uchar`).  No event is dispatched and nothing is written; stream cursor, order
position and current pattern are unchanged. -/
theorem blank_line_tick (fuel : Nat) (s : State) (hp : s.patpos ≠ 0xFFFF) (hc : s.spdcnt = 0)
    (hl : s.curline + 1 < 0x80) (hne : s.curline ≠ s.data s.patpos &&& 0x7F)
    (hbit : s.data s.patpos &&& 0x80 = 0) :
    play fuel s = some { s with
      effects := fun c => if c < 9 then ⟨0, 0, 0⟩ else s.effects c,
      curline := s.curline + 1,
      spdcnt := toUchar ((s.speed : Int) - 1) } := by
  have hm : (s.curline + 1) % 256 = s.curline + 1 := by omega
  have hcond : ¬ (s.data s.patpos &&& 0x80 ≠ 0 ∨ s.curline + 1 ≥ 0x80) := by
    simp only [hbit]
    omega
  rw [play_line_tick fuel s hp hc, play_line_eq]
  unfold play_events
  rw [reset_effects_eq]
  simp only [hne, decide_False, hm, Bool.false_eq_true, if_false, Option.some_bind,
    pattern_end, if_neg hcond, Option.map_some', reload_spdcnt]
  rw [doeffects_idle]
  intro c hc9
  simp only [hc9, if_true]

/-- The blank tick at `blank_line_state`: speed 1, line counter 1, the cursor on
the line byte 0x02. -/
theorem blank_line_tick_witness :
    play 0 blank_line_state = some { blank_line_state with
      effects := fun c => if c < 9 then ⟨0, 0, 0⟩ else blank_line_state.effects c,
      curline := blank_line_state.curline + 1,
      spdcnt := toUchar ((blank_line_state.speed : Int) - 1) } :=
  blank_line_tick 0 blank_line_state (by decide) (by decide) (by decide) (by decide) (by decide)

/-- C22, the code at a failing input: `sparse_module`, speed 1, whose pattern 0
has line 0, line 2 and the last line 4 (line byte 0x84 at offset 8, one event
with note 7).  After the first tick the cursor is on the line byte 0x02 of
line 2 with the line counter 1, and the second tick is blank: cursor, order
position and pattern stay, the counter becomes 2.  After the third tick the
cursor is on the line byte 0x84 with the line counter 3, different from 4 and
below the ceiling.  The fourth tick is not blank in that way: it advances to
order position 1, pattern 1 at offset 12, line counter 0, and writes nothing;
the fifth tick plays pattern 1, so the event of line 4 is never dispatched. -/
theorem blank_last_line_advances :
    (play_n 1 1 sparse_module).map cursor = some [0, 0, 4, 1, 0, 1]
    ∧ sparse_module.data 4 = 0x02
    ∧ (play_n 1 2 sparse_module).map cursor = some [0, 0, 4, 2, 0, 1]
    ∧ (play_n 1 3 sparse_module).map cursor = some [0, 0, 8, 3, 0, 1]
    ∧ sparse_module.data 8 = 0x84
    ∧ (read_event sparse_module.data 9).note = 7
    ∧ (play_n 2 4 sparse_module).map cursor = some [1, 1, 12, 0, 0, 1]
    ∧ (play_n 2 4 sparse_module).map (fun s => s.writes)
        = (play_n 2 3 sparse_module).map (fun s => s.writes)
    ∧ (play_n 2 3 sparse_module).map (fun s => s.writes.length) = some 17
    ∧ (play_n 2 5 sparse_module).map cursor = some [2, 0, 0, 0, 0, 1]
    ∧ (play_n 2 5 sparse_module).map (fun s => s.writes.length) = some 20 := by
  decide

/-- C23, the code at a failing input.  Pattern 0 of `scan_module b` jumps to
line 2 of the next pattern (`do_note` returns 3); pattern 1 starts at offset 5
with the line byte `b`.  With `b = 0x81`, the last line of the pattern with
line number 1, the scan assigns the sentinel and then increments the cursor,
which wraps to 0, and goes on in the bytes of pattern 0: with any fuel of at
least 2 the tick ends with the cursor at offset 1, not 0xFFFF, and after the
next tick `running` is still 1.  With `b = 0x01`, a line that is not the last
one, the tick ends in the same way, while with `b = 0x00` the cursor stays
inside pattern 1. -/
theorem scan_sentinel_wraps (fuel : Nat) :
    (read_event (scan_module 0x81).data 1).cmd = 13
    ∧ (read_event (scan_module 0x81).data 1).param = 2
    ∧ (scan_module 0x81).patoff 1 = 5 ∧ (scan_module 0x81).data 5 = 0x81
    ∧ (play (fuel + 2) (scan_module 0x81)).map cursor = some [1, 1, 1, 3, 5, 1]
    ∧ (play_n (fuel + 2) 2 (scan_module 0x81)).map cursor = some [1, 1, 1, 3, 4, 1]
    ∧ (play (fuel + 2) (scan_module 0x01)).map cursor = some [1, 1, 1, 3, 5, 1]
    ∧ (play (fuel + 2) (scan_module 0x00)).map cursor = some [1, 1, 7, 3, 5, 1] := by
  refine ⟨by decide, by decide, by decide, by decide, ?_, ?_, ?_, ?_⟩
  · exact map_of_mono cursor (play 2 (scan_module 0x81)) _
      (fun r h => play_mono 2 (fuel + 2) _ r (by omega) h) _ (by decide)
  · exact map_of_mono cursor (play_n 2 2 (scan_module 0x81)) _
      (fun r h => play_n_mono 2 (fuel + 2) 2 _ r (by omega) h) _ (by decide)
  · exact map_of_mono cursor (play 2 (scan_module 0x01)) _
      (fun r h => play_mono 2 (fuel + 2) _ r (by omega) h) _ (by decide)
  · exact map_of_mono cursor (play 2 (scan_module 0x00)) _
      (fun r h => play_mono 2 (fuel + 2) _ r (by omega) h) _ (by decide)

/-- C24, the code at a failing input: the line `00 80 13 10` at offset 5 of
`jump_module` is well formed, one event of 3 bytes whose channel byte has bit
7 set, and the next line byte is at offset 9.  The event decode of `play`,
entered after the line byte at offset 6, ends with the cursor at offset 9; the
skip loop of the line-jump scan, entered at offset 6 as well, ends with the
cursor at offset 7. -/
theorem skip_stops_early (fuel : Nat) :
    jump_module.data 5 = 0x00 ∧ jump_module.data 6 = 0x80 ∧ jump_module.data 7 = 0x13
    ∧ jump_module.data 8 = 0x10 ∧ jump_module.data 9 = 0x81
    ∧ (line_events (fuel + 1) (fuel + 1) { jump_module with patpos := 6 }).map
        (fun r => r.1.patpos) = some 9
    ∧ skip_events jump_module.data (fuel + 1) 6 = some 7 := by
  refine ⟨by decide, by decide, by decide, by decide, by decide, ?_, ?_⟩
  · have h : (line_events 1 1 { jump_module with patpos := 6 }).map (fun r => r.1.patpos)
        = some 9 := by decide
    simp only [Option.map_eq_some'] at h ⊢
    obtain ⟨r, h1, h2⟩ := h
    exact ⟨r, line_events_mono 1 (fuel + 1) 1 (fuel + 1) _ r (by omega) (by omega) h1, h2⟩
  · exact skip_events_mono jump_module.data 1 (fuel + 1) 6 7 (by omega) (by decide)

/-- C25: let `t` be the state after a line tick of `play` (countdown 0, cursor
not the sentinel).  The countdown of `t` is `speed - 1` as a `uchar`, computed
from the speed the events of the line left.  If the cursor of `t` is not the
sentinel and the speed of `t` is 1..255, then for every `j` below the speed the
next `j` ticks are hold ticks (`hold_tick`: the countdown is decremented and
`doeffects` runs, with no reset of the effect fields): they leave cursor, order
position, pattern, line counter and speed as in `t` and the countdown at
`speed - 1 - j`; the tick after `speed - 1` hold ticks runs the line body
`play_line`.  If an event dispatched on the line is a set-speed command and no
later dispatched event of the line is one, its parameter `p` is the speed of
`t` and the countdown of `t` is `p - 1` as a `uchar`. -/
theorem speed_countdown (fuel : Nat) (s t : State) (hp : s.patpos ≠ 0xFFFF) (hc : s.spdcnt = 0)
    (h : play fuel s = some t) :
    t.spdcnt = toUchar ((t.speed : Int) - 1)
    ∧ (t.patpos ≠ 0xFFFF → 1 ≤ t.speed → t.speed ≤ 255 →
        (∀ j, j < t.speed →
          play_n fuel j t = some (hold_tick^[j] t)
          ∧ (hold_tick^[j] t).patpos = t.patpos ∧ (hold_tick^[j] t).curorder = t.curorder
          ∧ (hold_tick^[j] t).curpat = t.curpat ∧ (hold_tick^[j] t).curline = t.curline
          ∧ (hold_tick^[j] t).speed = t.speed
          ∧ (hold_tick^[j] t).spdcnt = t.speed - 1 - j)
        ∧ play fuel (hold_tick^[t.speed - 1] t)
            = (play_line fuel { hold_tick^[t.speed - 1] t with
                spdcnt := toUchar (((hold_tick^[t.speed - 1] t).spdcnt : Int) - 1) }).map
                doeffects)
    ∧ ∃ evs, tick_events fuel s = some evs
        ∧ ∀ pre ev post, evs = pre ++ ev :: post → ev.cmd = CMD_SETSPEED →
            (∀ e ∈ post, e.cmd ≠ CMD_SETSPEED) →
            t.speed = ev.param ∧ t.spdcnt = toUchar ((ev.param : Int) - 1) := by
  obtain ⟨evs, hev, pp0, co, cp, pp, cl, ht⟩ := play_tick_shape fuel s t hp hc h
  have hspeed : t.speed = evs.foldl (fun sp ev => if ev.cmd = 15 then ev.param else sp) s.speed := by
    rw [ht, (doeffects_seq _).2.1]
    show (run_events _ evs).speed = _
    rw [run_events_speed, reset_effects_eq]
  have hcnt : t.spdcnt = toUchar ((t.speed : Int) - 1) := by
    have e1 : t.spdcnt = toUchar (((run_events { reset_effects s with
        spdcnt := toUchar ((s.spdcnt : Int) - 1), curline := (s.curline + 1) % 256,
        patpos := pp0 } evs).speed : Int) - 1) := by
      rw [ht, (seq_view_eq _ _ (doeffects_seq _).1).2.2.2.2.1]
      rfl
    have e2 : t.speed = (run_events { reset_effects s with
        spdcnt := toUchar ((s.spdcnt : Int) - 1), curline := (s.curline + 1) % 256,
        patpos := pp0 } evs).speed := by
      rw [ht, (doeffects_seq _).2.1]
      rfl
    rw [e1, e2]
  refine ⟨hcnt, ?_, evs, hev, ?_⟩
  · intro hpt h1 h2
    have hsc : t.spdcnt = t.speed - 1 := by
      rw [hcnt]; unfold toUchar; omega
    constructor
    · intro j hj
      obtain ⟨b0, b1, b2, b3, b4, b5, b6⟩ := hold_ticks_iter fuel j t hpt (by omega) (by omega)
      exact ⟨b0, b1, b2, b3, b4, b5, by rw [b6, hsc]⟩
    · obtain ⟨-, b1, -, -, -, -, b6⟩ := hold_ticks_iter fuel (t.speed - 1) t hpt (by omega)
        (by omega)
      exact play_line_tick fuel _ (by rw [b1]; exact hpt) (by rw [b6, hsc]; omega)
  · intro pre ev post he hcmd hpost
    have : t.speed = ev.param := by
      rw [hspeed, he]
      exact foldl_speed_last pre post ev s.speed hcmd hpost
    exact ⟨this, by rw [hcnt, this]⟩

/-- C25, witness: the first tick of `speed_module`, whose only event sets the
speed to 3, ends with speed 3 and the countdown 2. -/
theorem speed_countdown_witness :
    ∃ t, play 1 speed_module = some t ∧ t.speed = 3 ∧ t.spdcnt = 2 := by
  have hs : (play 1 speed_module).isSome = true := by decide
  cases hm : play 1 speed_module with
  | none => rw [hm] at hs; exact absurd hs (by decide)
  | some t =>
    obtain ⟨-, -, evs, hev, hall⟩ := speed_countdown 1 speed_module t (by decide) (by decide) hm
    have e0 : tick_events 1 speed_module = some [read_event speed_module.data 1] := rfl
    have e1 : evs = [] ++ read_event speed_module.data 1 :: [] :=
      (Option.some.inj (hev.symm.trans e0))
    obtain ⟨a1, a2⟩ := hall [] _ [] e1 (by decide) (by simp)
    exact ⟨t, rfl, a1.trans (by decide), a2.trans (by decide)⟩

/-- C26: on a line tick of `play` (countdown 0, cursor not the sentinel) that
ends in the state `t`.  The reset loop that runs before the events clears the
portamento delta, the tone-slide flag and the volume-slide delta of channels
0..8 and leaves the stored tone-slide targets and steps as they are.  The
effect fields of channels 0..8 before the tick have no influence on the tick.
A channel 0..8 for which no event dispatched on this line carries an arming
command (1, 2, 3, 5 or 10) has all three effect fields 0 after the tick. -/
theorem line_tick_resets_effects (fuel : Nat) (s t : State) (hp : s.patpos ≠ 0xFFFF)
    (hc : s.spdcnt = 0) (h : play fuel s = some t) :
    (∀ c, c < 9 → (reset_effects s).effects c = ⟨0, 0, 0⟩)
    ∧ (reset_effects s).toneslide_freq = s.toneslide_freq
    ∧ (reset_effects s).toneslide_speed = s.toneslide_speed
    ∧ (∀ e : Nat → EFFECTS, (∀ c, 9 ≤ c → e c = s.effects c) →
        play fuel { s with effects := e } = some t)
    ∧ ∃ evs, tick_events fuel s = some evs
        ∧ ∀ c, c < 9 → (∀ ev ∈ evs, ev.chan &&& 0x7F = c → ev.cmd ∉ arming_cmds) →
            t.effects c = ⟨0, 0, 0⟩ := by
  refine ⟨?_, ?_, ?_, ?_, ?_⟩
  · intro c hc9
    rw [reset_effects_eq]
    simp only [hc9, if_true]
  · rw [reset_effects_eq]
  · rw [reset_effects_eq]
  · intro e he
    rw [← h, play_line_tick fuel s hp hc, play_line_tick fuel { s with effects := e } hp hc]
    exact congrArg (Option.map doeffects)
      (play_line_congr fuel { s with spdcnt := toUchar ((s.spdcnt : Int) - 1) } e he)
  · obtain ⟨evs, hev, pp0, co, cp, pp, cl, ht⟩ := play_tick_shape fuel s t hp hc h
    refine ⟨evs, hev, ?_⟩
    intro c hc9 hall
    rw [ht]
    apply doeffects_effects_idle _ c hc9
    show (run_events _ evs).effects c = _
    rw [run_events_effects evs _ c hall, reset_effects_eq]
    simp only [hc9, if_true]

/-- C26, witness: every channel of `armed_line_state` has all three effects
armed; the only event of the line carries no command, and after the tick no
channel 0..8 has an effect armed. -/
theorem line_tick_resets_effects_witness :
    ∃ t, play 1 armed_line_state = some t ∧ ∀ c, c < 9 → t.effects c = ⟨0, 0, 0⟩ := by
  have hs : (play 1 armed_line_state).isSome = true := by decide
  cases hm : play 1 armed_line_state with
  | none => rw [hm] at hs; exact absurd hs (by decide)
  | some t =>
    obtain ⟨-, -, -, -, evs, hev, hall⟩ :=
      line_tick_resets_effects 1 armed_line_state t (by decide) (by decide) hm
    have e0 : tick_events 1 armed_line_state = some [read_event armed_line_state.data 1] := rfl
    have e1 : evs = [read_event armed_line_state.data 1] := Option.some.inj (hev.symm.trans e0)
    refine ⟨t, rfl, fun c hc9 => hall c hc9 ?_⟩
    intro ev hmem _
    rw [e1, List.mem_singleton] at hmem
    rw [hmem]
    decide

/-- C27, as amended: if the tone-slide flag of a channel 0..8 is armed, no
portamento is armed on it and its current linear frequency equals the target,
one run of `doeffects` clears the flag and writes the two frequency registers
of the channel, `0xA0+chan` and then `0xB0+chan`, once each with the shadow
bytes it leaves; these are the shadow bytes before the run when the shadowed
F-number lies in `NOTE_C .. NOTE_C+OCTAVE-1` (342..685). -/
theorem tone_equal_disarms (s : State) (chan : Nat) (hc : chan < 9)
    (hlo : s.prev_freqlow chan < 256) (hhi : s.prev_freqhigh chan < 256)
    (hp : (s.effects chan).portslide = 0) (ht : (s.effects chan).toneslide ≠ 0)
    (heq : get_linear_freq s chan = (s.toneslide_freq chan : Int)) :
    ((doeffects s).effects chan).toneslide = 0
    ∧ freq_writes (doeffects s).writes chan
        = freq_writes s.writes chan
          ++ [(0xA0 + chan, (doeffects s).prev_freqlow chan),
              (0xB0 + chan, (doeffects s).prev_freqhigh chan)]
    ∧ (342 ≤ freq_word s chan % 1024 → freq_word s chan % 1024 < 686 →
        (doeffects s).prev_freqlow chan = s.prev_freqlow chan
        ∧ (doeffects s).prev_freqhigh chan = s.prev_freqhigh chan) := by
  obtain ⟨t, h1, h2, h3, h4⟩ := doeffects_chan_view_fw s chan hc
  obtain ⟨t1, t2, -, t4, -, t6⟩ := chan_state_eq _ _ chan h1
  obtain ⟨d1, d2, -, d4, -, -⟩ := chan_state_eq _ _ chan h3
  have hg : get_linear_freq t chan = get_linear_freq s chan := get_linear_freq_congr s t chan t1 t2
  obtain ⟨a1, a2, a3, a4⟩ := doeffects_chan_equal t chan hc (by rw [t4]; exact hp)
    (by rw [t4]; exact ht) (by rw [hg, t6]; exact heq)
  refine ⟨by rw [d4]; exact a1, ?_, ?_⟩
  · rw [h4, a4, h2, d1, d2, a2, a3]
  · intro n1 n2
    have hl := get_linear_freq_eq s chan hlo hhi
    have hn : get_linear_freq t chan
        = ((freq_word s chan / 1024 % 8 * 344 + freq_word s chan % 1024 - 342 : Nat) : Int) := by
      rw [hg, hl]
      omega
    have hlt : freq_word s chan / 1024 % 8 * 344 + freq_word s chan % 1024 - 342 < 2752 := by
      omega
    obtain ⟨b1, b2⟩ := set_linear_freq_shadow t chan _ (by rw [t2]; exact hhi) hlt
    have hw := normal_word (s.prev_freqlow chan) (s.prev_freqhigh chan) hlo n1 n2
    rw [d1, d2, a2, a3, hn, b1, b2, t2]
    unfold freq_word
    rw [hw]
    omega

/-- C27, witness: channel 0 of `equal_slide_state 2 10`, at linear frequency 66
with the target 66 armed. -/
theorem tone_equal_disarms_witness :
    ((doeffects (equal_slide_state 2 10)).effects 0).toneslide = 0
    ∧ freq_writes (doeffects (equal_slide_state 2 10)).writes 0
        = freq_writes (equal_slide_state 2 10).writes 0
          ++ [(0xA0 + 0, (doeffects (equal_slide_state 2 10)).prev_freqlow 0),
              (0xB0 + 0, (doeffects (equal_slide_state 2 10)).prev_freqhigh 0)]
    ∧ (342 ≤ freq_word (equal_slide_state 2 10) 0 % 1024 →
        freq_word (equal_slide_state 2 10) 0 % 1024 < 686 →
        (doeffects (equal_slide_state 2 10)).prev_freqlow 0 = (equal_slide_state 2 10).prev_freqlow 0
        ∧ (doeffects (equal_slide_state 2 10)).prev_freqhigh 0
            = (equal_slide_state 2 10).prev_freqhigh 0) :=
  tone_equal_disarms (equal_slide_state 2 10) 0 (by decide) (by decide) (by decide) (by decide)
    (by decide) (by decide)

/-- C27, counterexample: channel 0 of `equal_slide_state 2 10` has the
tone-slide flag armed and sounds at linear frequency 66, its target; one run of
`doeffects` writes the frequency registers 0xA0 and 0xB0 of the channel.  With
a portamento of 5 armed as well (and the slide step 2) the run does not clear
the flag.  In `equal_slide_state 11 10` the channel sounds at octave 0, note
12, linear frequency 344, its target, and the run changes both shadow
frequency bytes, from `AE 22` to `56 25`. -/
theorem tone_equal_writes :
    ((equal_slide_state 2 10).effects 0).toneslide = 1
    ∧ get_linear_freq (equal_slide_state 2 10) 0 = 66
    ∧ (equal_slide_state 2 10).toneslide_freq 0 = 66
    ∧ (doeffects (equal_slide_state 2 10)).writes
        = (equal_slide_state 2 10).writes ++ [(0xA0, 0x98), (0xB0, 0x21)]
    ∧ ((do_note (equal_slide_state 2 2) 0 0 0 CMD_PORTUP 5 0).1.effects 0).toneslide = 1
    ∧ get_linear_freq (do_note (equal_slide_state 2 2) 0 0 0 CMD_PORTUP 5 0).1 0 = 66
    ∧ (do_note (equal_slide_state 2 2) 0 0 0 CMD_PORTUP 5 0).1.toneslide_freq 0 = 66
    ∧ ((doeffects (do_note (equal_slide_state 2 2) 0 0 0 CMD_PORTUP 5 0).1).effects 0).toneslide
        = 1
    ∧ ((equal_slide_state 11 10).effects 0).toneslide = 1
    ∧ ((equal_slide_state 11 10).effects 0).portslide = 0
    ∧ get_linear_freq (equal_slide_state 11 10) 0 = 344
    ∧ (equal_slide_state 11 10).toneslide_freq 0 = 344
    ∧ ((equal_slide_state 11 10).prev_freqlow 0, (equal_slide_state 11 10).prev_freqhigh 0)
        = (0xAE, 0x22)
    ∧ ((doeffects (equal_slide_state 11 10)).prev_freqlow 0,
        (doeffects (equal_slide_state 11 10)).prev_freqhigh 0) = (0x56, 0x25) := by
  decide

/-- C28: for every channel 0..8, octave 0..7 and note 1..12, `set_note` appends
exactly two writes to the log, register `0xA0+chan` with the low byte and then
register `0xB0+chan` with the high byte of the word
`w = 0x2000 | (oct << 10) | notefreq[note-1]`, and stores the same two bytes in
the frequency shadow of the channel; `w` is `0x2000 + 1024 * oct + F` with the
F-number `F = notefreq[note-1]` below 1024.  With note 0, `set_note` returns
the state unchanged. -/
theorem set_note_writes (s : State) (chan oct note : Nat) (hc : chan < 9) (ho : oct ≤ 7)
    (h1 : 1 ≤ note) (h2 : note ≤ 12) :
    ∃ w, w = 0x2000 ||| (oct <<< 10) ||| notefreq (note - 1)
      ∧ w = 0x2000 + 1024 * oct + notefreq (note - 1) ∧ notefreq (note - 1) < 1024
      ∧ (set_note s chan oct note).writes
          = s.writes ++ [(0xA0 + chan, w % 256), (0xB0 + chan, w / 256)]
      ∧ (set_note s chan oct note).prev_freqlow chan = w % 256
      ∧ (set_note s chan oct note).prev_freqhigh chan = w / 256
      ∧ ∀ c o, set_note s c o 0 = s := by
  obtain ⟨hb1, hb2, -⟩ := notefreq_bounds note h1 h2
  have hn0 : ¬ note = 0 := by omega
  have hn13 : note < 13 := by omega
  have hw := note_word oct (notefreq (note - 1)) ho (by omega)
  have hw2 := note_word_or oct (notefreq (note - 1)) ho (by omega)
  have ha : (0xA0 + chan) % 256 = 0xA0 + chan := by omega
  have hb : (0xB0 + chan) % 256 = 0xB0 + chan := by omega
  have hh : (8192 + 1024 * oct + notefreq (note - 1)) / 256 % 256
      = (8192 + 1024 * oct + notefreq (note - 1)) / 256 := by omega
  obtain ⟨e1, e2⟩ := set_note_shadow s chan oct note ho h1 h2
  refine ⟨_, rfl, hw2, by omega, ?_, ?_, ?_, fun c o => by rw [set_note, if_pos rfl]⟩
  · rw [hw2]
    simp only [set_note, if_neg hn0, if_pos hn13, al_write, hw, shr_8, ha, hb, Nat.mod_mod, hh,
      List.append_assoc, List.singleton_append]
  · rw [hw2, e1]
  · rw [hw2, e2]

/-- C28, witness: channel 4, octave 3, the note 7 (F-number 0x202). -/
theorem set_note_writes_witness :
    ∃ w, w = 0x2000 ||| (3 <<< 10) ||| notefreq (7 - 1)
      ∧ w = 0x2000 + 1024 * 3 + notefreq (7 - 1) ∧ notefreq (7 - 1) < 1024
      ∧ (set_note init 4 3 7).writes = init.writes ++ [(0xA0 + 4, w % 256), (0xB0 + 4, w / 256)]
      ∧ (set_note init 4 3 7).prev_freqlow 4 = w % 256
      ∧ (set_note init 4 3 7).prev_freqhigh 4 = w / 256
      ∧ ∀ c o, set_note init c o 0 = init :=
  set_note_writes init 4 3 7 (by decide) (by decide) (by decide) (by decide)

/-- C29: the loop over the events of a line, one event at a time.  With the
bytes `c`, `n0`, `n1` at the cursor and `q` the byte after them, `play` calls
`do_note` with channel `c & 0x7F`, octave `(n0 >> 4) & 7`, note `n0 & 0xF`,
command `n1 & 0xF`, instrument `(n1 >> 4) | ((n0 & 0x80) >> 3)` and the
parameter `q` when the low nibble of `n1` is nonzero, 0 otherwise; at the call
the cursor is 4 bytes further in the first case and 3 in the second (as a
`ushort`).  If `do_note` returns a positive value the loop is left by the line
jump; otherwise it goes on with the next event when bit 7 of `c` is clear and
ends when bit 7 of `c` is set. -/
theorem event_decode (j f : Nat) (s : State) (c n0 n1 q : Nat)
    (hc : s.data s.patpos = c) (h0 : s.data ((s.patpos + 1) % 65536) = n0)
    (h1 : s.data ((s.patpos + 2) % 65536) = n1) (hq : s.data ((s.patpos + 3) % 65536) = q)
    (hb1 : n1 < 256) :
    ∃ r, r = do_note { s with patpos := (s.patpos + (if n1 &&& 0xF ≠ 0 then 4 else 3)) % 65536 }
          (c &&& 0x7F) ((n0 >>> 4) &&& 0x7) (n0 &&& 0xF) (n1 &&& 0xF)
          (if n1 &&& 0xF ≠ 0 then q else 0) ((n1 >>> 4) ||| ((n0 &&& 0x80) >>> 3))
      ∧ line_events j (f + 1) s
        = if r.2 > 0 then (line_jump j r.1 r.2).map (fun s1 => (s1, true))
          else if c &&& 0x80 = 0 then line_events j f r.1
          else some (r.1, false) := by
  refine ⟨_, rfl, ?_⟩
  rw [line_events, read_event_eq s.data s.patpos (by rw [h1]; exact hb1)]
  simp only [hc, h0, h1, hq]

/-- C29, witness: the event `80 00 0D 00` at offset 1 of `jump_module`, a
jump-to-line on channel 0 with a parameter byte: `do_note` returns 1 and the
loop is left by the line jump. -/
theorem event_decode_witness :
    ∃ r : State × Nat, r.2 = 1
      ∧ line_events 2 1 event_state = (line_jump 2 r.1 r.2).map (fun s1 => (s1, true)) := by
  obtain ⟨r, hr, hl⟩ := event_decode 2 0 event_state 0x80 0x00 0x0D 0x00
    rfl rfl rfl rfl (by decide)
  have h2 : r.2 = 1 := by
    rw [hr, do_note_snd]
    decide
  refine ⟨r, h2, ?_⟩
  rw [hl, if_pos (by rw [h2]; decide)]

/-- C30: in a state in which, for every channel 0..8, the three shadow bytes
are the values last written to the registers `0xA0+chan`, `0xB0+chan` and
`0x43+al_choff[chan]`, the same is true after `set_note`, `set_linear_freq`,
`set_volume` and `load_inst` on any channel 0..8 with any arguments (the
carrier level byte of the instrument record being a byte). -/
theorem shadow_sync_invariant (s : State) (chan : Nat) (hc : chan < 9) (hs : in_sync s) :
    (∀ oct note, in_sync (set_note s chan oct note))
    ∧ (∀ l, in_sync (set_linear_freq s chan l))
    ∧ (∀ v, in_sync (set_volume s chan v))
    ∧ (∀ i, (s.insts i).r43 < 256 → in_sync (load_inst s i chan)) :=
  ⟨fun oct note => set_note_in_sync s chan oct note hc hs,
   fun l => set_linear_freq_in_sync s chan l hc hs,
   fun v => set_volume_in_sync s chan v hc hs,
   fun i h43 => load_inst_in_sync s i chan hc hs h43⟩

/-- C30, witness: the state after the chip reset of `main`, every register
written with 0 and every shadow byte 0; channel 5. -/
theorem shadow_sync_invariant_witness :
    in_sync (al_clr init)
    ∧ in_sync (set_note (al_clr init) 5 2 7)
    ∧ in_sync (set_linear_freq (al_clr init) 5 700)
    ∧ in_sync (set_volume (al_clr init) 5 40)
    ∧ in_sync (load_inst (al_clr init) 0 5) :=
  ⟨in_sync_al_clr,
   (shadow_sync_invariant (al_clr init) 5 (by decide) in_sync_al_clr).1 2 7,
   (shadow_sync_invariant (al_clr init) 5 (by decide) in_sync_al_clr).2.1 700,
   (shadow_sync_invariant (al_clr init) 5 (by decide) in_sync_al_clr).2.2.1 40,
   (shadow_sync_invariant (al_clr init) 5 (by decide) in_sync_al_clr).2.2.2 0 (by decide)⟩

/-! ## Channel isolation and the order of pitches -/

theorem chan_regs_disjoint (c d : Nat) (hc : c < 9) (hd : d < 9) (hne : c ≠ d) :
    ∀ r ∈ chan_regs c, r ∉ chan_regs d := by
  obtain ⟨f1, f2, f3⟩ := choff_facts c hc d hd
  obtain ⟨-, g2, g3⟩ := choff_facts d hd c hc
  have f4 : al_choff c ≠ al_choff d := fun e => hne (f1 e)
  intro r hr hr2
  simp only [chan_regs, List.mem_cons, List.mem_singleton, List.not_mem_nil, or_false] at hr hr2
  omega

theorem regs_refl (R : List Nat) (w0 : List (Nat × Nat)) :
    ∃ w, w0 = w0 ++ w ∧ ∀ x ∈ w, x.1 ∈ R :=
  ⟨[], by simp, by simp⟩

theorem regs_snoc (R : List Nat) (w0 w1 : List (Nat × Nat)) (r v : Nat)
    (h : ∃ w, w1 = w0 ++ w ∧ ∀ x ∈ w, x.1 ∈ R) (hr : r ∈ R) :
    ∃ w, w1 ++ [(r, v)] = w0 ++ w ∧ ∀ x ∈ w, x.1 ∈ R := by
  obtain ⟨w, e, hw⟩ := h
  refine ⟨w ++ [(r, v)], by rw [e, List.append_assoc], ?_⟩
  intro x hx
  rcases List.mem_append.mp hx with h1 | h1
  · exact hw x h1
  · rw [List.mem_singleton.mp h1]
    exact hr

theorem set_note_other (s : State) (chan c oct note : Nat) (h : c ≠ chan) :
    chan_state (set_note s chan oct note) c = chan_state s c := by
  unfold set_note
  split_ifs <;> simp [chan_state, al_write, upd, h]

theorem load_inst_other (s : State) (i chan c : Nat) (h : c ≠ chan) :
    chan_state (load_inst s i chan) c = chan_state s c := by
  simp [chan_state, load_inst, al_write, upd, h]

theorem set_note_regs (s : State) (chan oct note : Nat) (hc : chan < 9) :
    ∃ w, (set_note s chan oct note).writes = s.writes ++ w ∧ ∀ x ∈ w, x.1 ∈ chan_regs chan := by
  have ha : (0xA0 + chan) % 256 = 0xA0 + chan := by omega
  have hb : (0xB0 + chan) % 256 = 0xB0 + chan := by omega
  unfold set_note
  split_ifs
  · exact regs_refl _ _
  · simp only [al_write, ha, hb]
    exact regs_snoc _ _ _ _ _ (regs_snoc _ _ _ _ _ (regs_refl _ _) (by simp [chan_regs]))
      (by simp [chan_regs])
  · simp only [al_write, hb]
    exact regs_snoc _ _ _ _ _ (regs_refl _ _) (by simp [chan_regs])

theorem set_linear_freq_regs (s : State) (chan : Nat) (l : Int) (hc : chan < 9) :
    ∃ w, (set_linear_freq s chan l).writes = s.writes ++ w
      ∧ ∀ x ∈ w, x.1 ∈ chan_regs chan := by
  rw [set_linear_freq_writes s chan l hc]
  exact regs_snoc _ _ _ _ _ (regs_snoc _ _ _ _ _ (regs_refl _ _) (by simp [chan_regs]))
    (by simp [chan_regs])

theorem set_volume_regs (s : State) (chan v : Nat) (hc : chan < 9) :
    ∃ w, (set_volume s chan v).writes = s.writes ++ w ∧ ∀ x ∈ w, x.1 ∈ chan_regs chan := by
  have hf := al_choff_lt chan hc
  have ha : (0x43 + al_choff chan) % 256 = 0x43 + al_choff chan := by omega
  simp only [set_volume, al_write, ha]
  exact regs_snoc _ _ _ _ _ (regs_refl _ _) (by simp [chan_regs])

theorem load_inst_regs (s : State) (i chan : Nat) (hc : chan < 9) :
    ∃ w, (load_inst s i chan).writes = s.writes ++ w ∧ ∀ x ∈ w, x.1 ∈ chan_regs chan := by
  have hf := al_choff_lt chan hc
  simp only [load_inst, al_write,
      Nat.mod_eq_of_lt (show 0x23 + al_choff chan < 256 by omega),
      Nat.mod_eq_of_lt (show 0x20 + al_choff chan < 256 by omega),
      Nat.mod_eq_of_lt (show 0x43 + al_choff chan < 256 by omega),
      Nat.mod_eq_of_lt (show 0x40 + al_choff chan < 256 by omega),
      Nat.mod_eq_of_lt (show 0x63 + al_choff chan < 256 by omega),
      Nat.mod_eq_of_lt (show 0x60 + al_choff chan < 256 by omega),
      Nat.mod_eq_of_lt (show 0x83 + al_choff chan < 256 by omega),
      Nat.mod_eq_of_lt (show 0x80 + al_choff chan < 256 by omega),
      Nat.mod_eq_of_lt (show 0xE3 + al_choff chan < 256 by omega),
      Nat.mod_eq_of_lt (show 0xE0 + al_choff chan < 256 by omega),
      Nat.mod_eq_of_lt (show 0xC0 + chan < 256 by omega)]
  refine regs_snoc _ _ _ _ _ ?_ (by simp [chan_regs])
  refine regs_snoc _ _ _ _ _ ?_ (by simp [chan_regs])
  refine regs_snoc _ _ _ _ _ ?_ (by simp [chan_regs])
  refine regs_snoc _ _ _ _ _ ?_ (by simp [chan_regs])
  refine regs_snoc _ _ _ _ _ ?_ (by simp [chan_regs])
  refine regs_snoc _ _ _ _ _ ?_ (by simp [chan_regs])
  refine regs_snoc _ _ _ _ _ ?_ (by simp [chan_regs])
  refine regs_snoc _ _ _ _ _ ?_ (by simp [chan_regs])
  refine regs_snoc _ _ _ _ _ ?_ (by simp [chan_regs])
  refine regs_snoc _ _ _ _ _ ?_ (by simp [chan_regs])
  exact regs_snoc _ _ _ _ _ (regs_refl _ _) (by simp [chan_regs])

/-- The linear frequency of a channel after `set_note` with a note 1..12. -/
theorem get_linear_freq_set_note (s : State) (chan oct note : Nat) (ho : oct ≤ 7)
    (h1 : 1 ≤ note) (h2 : note ≤ 12) :
    get_linear_freq (set_note s chan oct note) chan
      = ((344 * oct + notefreq (note - 1) : Nat) : Int) - 342 := by
  obtain ⟨hb1, hb2, -⟩ := notefreq_bounds note h1 h2
  obtain ⟨hlo, hhi⟩ := set_note_shadow s chan oct note ho h1 h2
  have hl : (set_note s chan oct note).prev_freqlow chan < 256 := by rw [hlo]; omega
  have hh : (set_note s chan oct note).prev_freqhigh chan < 256 := by rw [hhi]; omega
  rw [get_linear_freq_eq _ chan hl hh, freq_word, hlo, hhi]
  generalize notefreq (note - 1) = f at *
  omega

theorem notefreq_increasing : ∀ n < 13, ∀ m < 13, 1 ≤ n → n < m →
    notefreq (n - 1) < notefreq (m - 1) := by
  decide

/-! ## The claims C31 to C33 -/

/-- C31: for distinct channels `c` and `d` in 0..8, each of `set_note`,
`set_linear_freq`, `set_volume` and `load_inst` applied to `c` leaves the three
shadow bytes of `d` (frequency low, frequency high, volume) unchanged and
appends to the write log only writes to registers of `c`; no register of `c`
(`0xA0+c`, `0xB0+c`, `0xC0+c`, `base + al_choff[c]`, `base + 3 + al_choff[c]`
for the bases 0x20, 0x40, 0x60, 0x80, 0xE0) is a register of `d`. -/
theorem channel_isolation (s : State) (c d : Nat) (hc : c < 9) (hd : d < 9) (hne : c ≠ d) :
    (∀ oct note,
      (set_note s c oct note).prev_freqlow d = s.prev_freqlow d
      ∧ (set_note s c oct note).prev_freqhigh d = s.prev_freqhigh d
      ∧ (set_note s c oct note).prev_vol d = s.prev_vol d
      ∧ ∃ w, (set_note s c oct note).writes = s.writes ++ w ∧ ∀ x ∈ w, x.1 ∈ chan_regs c)
    ∧ (∀ l,
      (set_linear_freq s c l).prev_freqlow d = s.prev_freqlow d
      ∧ (set_linear_freq s c l).prev_freqhigh d = s.prev_freqhigh d
      ∧ (set_linear_freq s c l).prev_vol d = s.prev_vol d
      ∧ ∃ w, (set_linear_freq s c l).writes = s.writes ++ w ∧ ∀ x ∈ w, x.1 ∈ chan_regs c)
    ∧ (∀ v,
      (set_volume s c v).prev_freqlow d = s.prev_freqlow d
      ∧ (set_volume s c v).prev_freqhigh d = s.prev_freqhigh d
      ∧ (set_volume s c v).prev_vol d = s.prev_vol d
      ∧ ∃ w, (set_volume s c v).writes = s.writes ++ w ∧ ∀ x ∈ w, x.1 ∈ chan_regs c)
    ∧ (∀ i,
      (load_inst s i c).prev_freqlow d = s.prev_freqlow d
      ∧ (load_inst s i c).prev_freqhigh d = s.prev_freqhigh d
      ∧ (load_inst s i c).prev_vol d = s.prev_vol d
      ∧ ∃ w, (load_inst s i c).writes = s.writes ++ w ∧ ∀ x ∈ w, x.1 ∈ chan_regs c)
    ∧ ∀ r ∈ chan_regs c, r ∉ chan_regs d := by
  have hdc : d ≠ c := fun e => hne e.symm
  refine ⟨?_, ?_, ?_, ?_, chan_regs_disjoint c d hc hd hne⟩
  · intro oct note
    obtain ⟨a1, a2, a3, -⟩ := chan_state_eq _ _ d (set_note_other s c d oct note hdc)
    exact ⟨a1, a2, a3, set_note_regs s c oct note hc⟩
  · intro l
    obtain ⟨a1, a2, a3, -⟩ := chan_state_eq _ _ d (set_linear_freq_other s c d l hdc)
    exact ⟨a1, a2, a3, set_linear_freq_regs s c l hc⟩
  · intro v
    obtain ⟨a1, a2, a3, -⟩ := chan_state_eq _ _ d (set_volume_other s c d v hdc)
    exact ⟨a1, a2, a3, set_volume_regs s c v hc⟩
  · intro i
    obtain ⟨a1, a2, a3, -⟩ := chan_state_eq _ _ d (load_inst_other s i c d hdc)
    exact ⟨a1, a2, a3, load_inst_regs s i c hc⟩

/-- C31, witness: channels 2 and 5 (operator offsets 0x02 and 0x0A) of the
zero-initialised state: `load_inst(0, 2)` leaves the shadow volume of channel
5 alone, and no register of channel 2 is a register of channel 5. -/
theorem channel_isolation_witness :
    (load_inst init 0 2).prev_vol 5 = init.prev_vol 5
    ∧ ∀ r ∈ chan_regs 2, r ∉ chan_regs 5 :=
  ⟨((channel_isolation init 2 5 (by decide) (by decide) (by decide)).2.2.2.1 0).2.2.1,
   (channel_isolation init 2 5 (by decide) (by decide) (by decide)).2.2.2.2⟩

/-- C32: for octaves `o`, `p` in 0..7 and notes `n`, `m` in 1..12 with `(o, n)`
before `(p, m)` in the lexicographic order, the linear frequency of a channel
after `set_note(chan, o, n)` is strictly below the one after
`set_note(chan, p, m)`, whatever the states before the two calls. -/
theorem linear_freq_monotone (s t : State) (chan o n p m : Nat) (ho : o ≤ 7) (hp : p ≤ 7)
    (hn1 : 1 ≤ n) (hn2 : n ≤ 12) (hm1 : 1 ≤ m) (hm2 : m ≤ 12)
    (hlex : o < p ∨ (o = p ∧ n < m)) :
    get_linear_freq (set_note s chan o n) chan < get_linear_freq (set_note t chan p m) chan := by
  obtain ⟨a1, a2, -⟩ := notefreq_bounds n hn1 hn2
  obtain ⟨b1, b2, -⟩ := notefreq_bounds m hm1 hm2
  rw [get_linear_freq_set_note s chan o n ho hn1 hn2,
    get_linear_freq_set_note t chan p m hp hm1 hm2]
  rcases hlex with h | ⟨h, h2⟩
  · omega
  · have := notefreq_increasing n (by omega) m (by omega) hn1 h2
    omega

/-- C32, witness: across the octave boundary, from octave 3, note 12 to octave
4, note 1. -/
theorem linear_freq_monotone_witness :
    get_linear_freq (set_note init 0 3 12) 0 < get_linear_freq (set_note init 0 4 1) 0 :=
  linear_freq_monotone init init 0 3 12 4 1 (by decide) (by decide) (by decide) (by decide)
    (by decide) (by decide) (by decide)

/-- C33, the code at a failing input: the table `notefreq` has 12 entries,
indices 0..11.  For note 12 `set_note` reads entry 11 (F-number 0x2AE), but the
slide-to-note branch of `do_note` computes `linearfreq(oct, note)`, which reads
`notefreq[12]`, one past the table; with the read past the table modelled as 0
the target armed for octave 0 is `0 - 0x156` as a `ushort`, 65194, not 344. -/
theorem toneslide_index_past_table :
    notefreq_tab.length = 12
    ∧ notefreq_tab.get? 11 = some 0x2AE
    ∧ notefreq_tab.get? 12 = none
    ∧ freq_word (set_note init 0 0 12) 0 = 0x2000 + notefreq (12 - 1)
    ∧ get_linear_freq (set_note init 0 0 12) 0 = 344
    ∧ (do_note init 0 0 12 CMD_TONESLIDE 0 0).1.toneslide_freq 0
        = toUshort ((0 * OCTAVE : Nat) + (notefreq 12 : Int) - NOTE_C)
    ∧ (do_note init 0 0 12 CMD_TONESLIDE 0 0).1.toneslide_freq 0 = 65194 := by
  decide

end RadPlay
